import Mathlib

/-!
# Workflow serialisation (Framework/Core/src/WorkflowSerializationHelpers.cxx)

A shallow embedding of `WorkflowSerializationHelpers::dump`, of the SAX handler
`WorkflowImporter` and of `WorkflowSerializationHelpers::import`.

Conventions of the embedding.

* `std::string` is `String`; a `const char*` obtained through `c_str()` and handed to
  a function that takes a NUL-terminated string is `cstr s`, the characters before the
  first NUL.
* `std::vector` is `List`, in the order of the vector (`push_back` appends at the end),
  except the state stack `states`, whose `back()` is the head of the list.
* rapidjson, the C++ standard library and the framework functions that
  `WorkflowSerializationHelpers.cxx` only calls are the fields of `Env`.
* A handler that hits `assert(...)`, reads `back()` of an empty vector or lets an
  exception escape returns `Except.error`.
-/

namespace o2.framework

/-! ## Strings -/

/-- The NUL character that terminates a C string. -/
def NUL : Char := Char.ofNat 0

/-- Characters of a NUL-terminated buffer that a C string function sees: the ones before
the first NUL. -/
def cstrChars (cs : List Char) : List Char := cs.takeWhile (fun c => c != NUL)

/-- The string denoted by `s.c_str()` when read as a NUL-terminated C string. -/
def cstr (s : String) : String := ⟨cstrChars s.data⟩

/-- Result of `strncmp(a, b, n) == 0` for two NUL-terminated buffers: at most `n` characters are
compared and the comparison stops after a NUL found in both. The end of the list stands for
the terminating NUL. -/
def strncmpEq : List Char → List Char → Nat → Bool
  | _, _, 0 => true
  | a, b, n + 1 =>
    let ca := a.headD NUL
    let cb := b.headD NUL
    if ca != cb then false
    else if ca == NUL then true
    else strncmpEq a.tail b.tail n

/-- The test `strncmp(str, expected, length) == 0` of `WorkflowImporter::Key`, where `length`
is the length of the key `str`. -/
def keyIs (str : String) (expected : String) : Bool :=
  strncmpEq str.data expected.data str.length

/-- The test `name.rfind(p, 0) == 0`: `name` starts with `p`. -/
def startsWith (name p : String) : Bool := p.data.isPrefixOf name.data

/-! ## Data model -/

/-- Underlying value of `enum class VariantType : int`. The enumerators are declared in
Framework/Variant.h, which is not among the sources; the numbering below is the
declaration order of that header. -/
structure VariantType where
  val : Int
  deriving DecidableEq, Repr

namespace VariantType
def Int : VariantType := ⟨0⟩
def Int64 : VariantType := ⟨1⟩
def Float : VariantType := ⟨2⟩
def Double : VariantType := ⟨3⟩
def String : VariantType := ⟨4⟩
def Bool : VariantType := ⟨5⟩
def ArrayInt : VariantType := ⟨6⟩
def ArrayFloat : VariantType := ⟨7⟩
def ArrayDouble : VariantType := ⟨8⟩
def ArrayBool : VariantType := ⟨9⟩
def ArrayString : VariantType := ⟨10⟩
def Array2DInt : VariantType := ⟨11⟩
def Array2DFloat : VariantType := ⟨12⟩
def Array2DDouble : VariantType := ⟨13⟩
def LabeledArrayInt : VariantType := ⟨14⟩
def LabeledArrayFloat : VariantType := ⟨15⟩
def LabeledArrayDouble : VariantType := ⟨16⟩
def UInt8 : VariantType := ⟨17⟩
def UInt16 : VariantType := ⟨18⟩
def UInt32 : VariantType := ⟨19⟩
def UInt64 : VariantType := ⟨20⟩
def Int8 : VariantType := ⟨21⟩
def Int16 : VariantType := ⟨22⟩
def Dict : VariantType := ⟨23⟩
def Empty : VariantType := ⟨24⟩
def Unknown : VariantType := ⟨25⟩
end VariantType

/-- Value held by a `Variant`, one constructor for each way `WorkflowImporter::EndObject`
builds a default value. Floating point values are kept as their bit pattern, structured values
(arrays, labeled arrays) as the value `VariantJSONHelpers::read` returned. -/
inductive Variant where
  | cString (s : String)
  | stdString (s : String)
  | int (v : Int)
  | uint8 (v : Nat)
  | uint16 (v : Nat)
  | uint32 (v : Nat)
  | uint64 (v : Nat)
  | int64 (v : Int)
  | float (bits : Nat)
  | double (bits : Nat)
  | bool (b : Bool)
  | structured (t : VariantType) (content : String)
  | emptyDict
  deriving DecidableEq, Repr

/-- ConfigParamSpec: an option. `kind` is the underlying value of `ConfigParamKind`. -/
structure ConfigParamSpec where
  name : String
  type : VariantType
  defaultValue : Variant
  help : String
  kind : Int
  deriving DecidableEq, Repr

/-- `header::DataOrigin`, the content of its `char str[4]` before the padding. -/
structure DataOrigin where
  str : String
  deriving DecidableEq, Repr

/-- `header::DataDescription`, the content of its `char str[16]` before the padding. -/
structure DataDescription where
  str : String
  deriving DecidableEq, Repr

/-- `strnlen(str, n)` characters of a fixed-width tag: what `w.String(d.str, strnlen(d.str, n))`
writes. -/
def strnlenChars (n : Nat) (s : String) : String := ⟨cstrChars (s.data.take n)⟩

/-- `Descriptor::runtimeInit(s.c_str(), min(s.size(), n))`: the characters copied into the
tag are the ones before the first NUL among the first `min(|s|, n)`. -/
def runtimeInit (n : Nat) (s : String) : String := ⟨cstrChars (s.data.take (min s.length n))⟩

structure ConcreteDataMatcher where
  origin : DataOrigin
  description : DataDescription
  subSpec : Nat
  deriving DecidableEq, Repr

structure ConcreteDataTypeMatcher where
  origin : DataOrigin
  description : DataDescription
  deriving DecidableEq, Repr

/-- `DataDescriptorMatcher::Op`. -/
inductive Op where
  | Just | Or | And | Xor
  deriving DecidableEq, Repr

/-- `data_matcher::Node`: a leaf value matcher or a nested `DataDescriptorMatcher`
(`matcher op lhs rhs`). `startTime` is `StartTimeValueMatcher(ContextRef{STARTTIME_POS})`. -/
inductive Node where
  | origin (v : String)
  | description (v : String)
  | subSpec (v : Nat)
  | startTime
  | constant (b : Bool)
  | matcher (op : Op) (lhs rhs : Node)
  deriving DecidableEq, Repr

/-- `DataDescriptorMatcher(Op::Just, leaf)`: the right hand side defaults to
`ConstantValueMatcher{false}`. -/
def Node.just (leaf : Node) : Node := .matcher .Just leaf (.constant false)

/-- The `matcher` member of an InputSpec: `std::variant<ConcreteDataMatcher, DataDescriptorMatcher>`. -/
inductive InputMatcher where
  | concrete (m : ConcreteDataMatcher)
  | tree (m : Node)
  deriving DecidableEq, Repr

structure InputSpec where
  binding : String
  matcher : InputMatcher
  lifetime : Nat
  metadata : List ConfigParamSpec
  deriving DecidableEq, Repr

/-- The `matcher` member of an OutputSpec: `std::variant<ConcreteDataMatcher, ConcreteDataTypeMatcher>`. -/
inductive OutputMatcher where
  | concrete (m : ConcreteDataMatcher)
  | dataType (m : ConcreteDataTypeMatcher)
  deriving DecidableEq, Repr

/-- OutputSpec; `binding` is `binding.value` of its OutputLabel. -/
structure OutputSpec where
  binding : String
  matcher : OutputMatcher
  lifetime : Nat
  metadata : List ConfigParamSpec
  deriving DecidableEq, Repr

/-- DataProcessorSpec, the members the serialisation reads or writes. The four resource hints
are the `int` values handed to `w.Int`. -/
structure DataProcessorSpec where
  name : String := ""
  inputs : List InputSpec := []
  outputs : List OutputSpec := []
  options : List ConfigParamSpec := []
  labels : List String := []
  rank : Int := 0
  nSlots : Int := 1
  inputTimeSliceId : Int := 0
  maxInputTimeslices : Int := 1
  deriving DecidableEq, Repr

structure DataProcessorInfo where
  name : String := ""
  executable : String := ""
  cmdLineArgs : List String := []
  workflowOptions : List ConfigParamSpec := []
  channels : List String := []
  deriving DecidableEq, Repr

structure CommandInfo where
  command : String := ""
  deriving DecidableEq, Repr

/-- Modelled from the spec: `CommandInfo::merge` is declared outside the sources; the spec
says the command is "merged/concatenated during streaming import since it may arrive in
fragments", so the fragment is appended to the command read so far. -/
def CommandInfo.merge (self other : CommandInfo) : CommandInfo :=
  ⟨self.command ++ other.command⟩

/-- Conversion of an integer to `int` (32 bit, two's complement). -/
def toInt32 (x : Int) : Int := Int.bmod x (2 ^ 32)

/-! ## rapidjson events -/

/-- Calls on `rapidjson::PrettyWriter` made by `dump`. A string argument is the string that
rapidjson receives, i.e. after `c_str()`. -/
inductive WriterCall where
  | startObject
  | endObject
  | startArray
  | endArray
  | key (s : String)
  | string (s : String)
  | uint (u : Nat)
  | uint64 (u : Nat)
  | int (i : Int)
  deriving DecidableEq, Repr

/-- SAX events that `rapidjson::Reader` delivers to its handler. The member and element
counts of `EndObject` and `EndArray` are left out: the handler ignores them. -/
inductive Event where
  | startObject
  | endObject
  | startArray
  | endArray
  | key (s : String)
  | string (s : String)
  | uint (u : Nat)
  | int (i : Int)
  | uint64 (u : Nat)
  | int64 (i : Int)
  | double (bits : Nat)
  | bool (b : Bool)
  | null
  deriving DecidableEq, Repr

/-- The event with which `rapidjson::Reader` reports the token a writer call produced: a
non-negative integer below 2^32 comes back as `Uint`, a larger one as `Uint64`, a negative one
as `Int`. -/
def sax : WriterCall → Event
  | .startObject => .startObject
  | .endObject => .endObject
  | .startArray => .startArray
  | .endArray => .endArray
  | .key s => .key s
  | .string s => .string s
  | .uint u => .uint u
  | .uint64 u => if u < 2 ^ 32 then .uint u else .uint64 u
  | .int i => if 0 ≤ i then .uint i.toNat else .int i

/-- Values of the members that the constructor of `WorkflowImporter` leaves uninitialised. -/
structure Uninitialised where
  subspec : Nat
  lifetime : Nat
  optionType : VariantType
  optionKind : Int
  outputHasSubSpec : Bool

/-- What `WorkflowSerializationHelpers.cxx` calls but does not define: rapidjson, the C++
standard library and framework functions of other translation units. A conversion that
throws returns `none`. -/
structure Env where
  /-- Text that `rapidjson::PrettyWriter` produces for a sequence of calls. -/
  write : List WriterCall → List Char
  /-- `rapidjson::Reader::Parse`: the events delivered to the handler, in order, and whether
  the text was a well-formed document. -/
  parse : List Char → List Event × Bool
  stoi : String → Option Int
  stoul : String → Option Nat
  stol : String → Option Int
  stof : String → Option Nat
  stod : String → Option Nat
  to_string : Int → String
  /-- `operator<<(std::ostream&, Variant const&)`. -/
  printVariant : Variant → String
  /-- `VariantJSONHelpers::write`. -/
  writeVariant : Variant → String
  /-- `VariantJSONHelpers::read<T>`. -/
  readVariant : VariantType → String → Option String
  /-- `DataSpecUtils::getOptionalOrigin(InputSpec const&)`. -/
  getOptionalOrigin : InputSpec → Option DataOrigin
  /-- `DataSpecUtils::getOptionalDescription(InputSpec const&)`. -/
  getOptionalDescription : InputSpec → Option DataDescription
  /-- `DataSpecUtils::getOptionalSubSpec(InputSpec const&)`. -/
  getOptionalSubSpec : InputSpec → Option Nat
  /-- `DataSpecUtils::describe(OutputSpec const&)`. -/
  describe : OutputSpec → String
  /-- Content of the uninitialised members of a new `WorkflowImporter`. -/
  uninit : Uninitialised

/-! ## Concrete-matcher reduction -/

/-- Leaves of a matcher that is a conjunction: `none` when an `Or` or `Xor` node is met.
A `Just` node contributes its left hand side only. -/
def Node.conjuncts : Node → Option (List Node)
  | .matcher .And l r =>
    match l.conjuncts, r.conjuncts with
    | some a, some b => some (a ++ b)
    | _, _ => none
  | .matcher .Just l _ => l.conjuncts
  | .matcher .Or _ _ => none
  | .matcher .Xor _ _ => none
  | leaf => some [leaf]

/-- Literals of the origin leaves in a list of leaves. -/
def originsOf : List Node → List String
  | [] => []
  | .origin v :: r => v :: originsOf r
  | _ :: r => originsOf r

/-- Literals of the description leaves in a list of leaves. -/
def descriptionsOf : List Node → List String
  | [] => []
  | .description v :: r => v :: descriptionsOf r
  | _ :: r => descriptionsOf r

/-- Literals of the subspecification leaves in a list of leaves. -/
def subSpecsOf : List Node → List Nat
  | [] => []
  | .subSpec v :: r => v :: subSpecsOf r
  | _ :: r => subSpecsOf r

/-- Whether a `ConstantValueMatcher{false}` is among the leaves. -/
def hasConstantFalse : List Node → Bool
  | [] => false
  | .constant false :: _ => true
  | _ :: r => hasConstantFalse r

/-- Modelled from the spec: the body of `DataSpecUtils::optionalConcreteDataMatcherFrom` is
not among the sources (DataSpecUtils.h only declares it). Section 4.2 of the spec: the
reduction succeeds only if the tree is a conjunction (nested `And`, any associativity) whose
leaves are exactly one origin, one description and one subspecification leaf and, optionally,
start-time or constant leaves; any `Or`, duplicate atom or missing atom makes it fail. That
condition is necessary only; sections 3 and 8.2 ask that "evaluating the tree and evaluating
the concrete triple must always agree" and that the reduction never gives "a wrong concrete
triple". A conjunction with a constant false leaf matches no identifier, so no triple agrees
with it and the reduction fails on it as on an unsatisfiable conjunction; a constant true
leaf is the optional constant of section 4.2. The literals are stored in the fixed-width
tags. -/
def DataSpecUtils.optionalConcreteDataMatcherFrom (m : Node) : Option ConcreteDataMatcher :=
  match m.conjuncts with
  | none => none
  | some leaves =>
    if hasConstantFalse leaves then none
    else
      match originsOf leaves, descriptionsOf leaves, subSpecsOf leaves with
      | [o], [d], [s] => some ⟨⟨runtimeInit 4 o⟩, ⟨runtimeInit 16 d⟩, s⟩
      | _, _, _ => none

/-! ## WorkflowImporter -/

/-- `WorkflowImporter::State`. -/
inductive State where
  | IN_START
  | IN_EXECUTION
  | IN_WORKFLOW
  | IN_METADATA
  | IN_COMMAND
  | IN_DATAPROCESSORS
  | IN_DATAPROCESSOR
  | IN_DATAPROCESSOR_NAME
  | IN_DATAPROCESSOR_RANK
  | IN_DATAPROCESSOR_N_SLOTS
  | IN_DATAPROCESSOR_TIMESLICE_ID
  | IN_DATAPROCESSOR_MAX_TIMESLICES
  | IN_INPUTS
  | IN_OUTPUTS
  | IN_OPTIONS
  | IN_LABELS
  | IN_WORKFLOW_OPTIONS
  | IN_INPUT
  | IN_INPUT_BINDING
  | IN_INPUT_ORIGIN
  | IN_INPUT_DESCRIPTION
  | IN_INPUT_SUBSPEC
  | IN_INPUT_LIFETIME
  | IN_INPUT_MATCHER
  | IN_INPUT_MATCHER_OPERATION
  | IN_INPUT_LEFT_MATCHER
  | IN_INPUT_RIGHT_MATCHER
  | IN_INPUT_OPTIONS
  | IN_OUTPUT
  | IN_OUTPUT_BINDING
  | IN_OUTPUT_ORIGIN
  | IN_OUTPUT_DESCRIPTION
  | IN_OUTPUT_SUBSPEC
  | IN_OUTPUT_LIFETIME
  | IN_OUTPUT_OPTIONS
  | IN_OPTION
  | IN_OPTION_NAME
  | IN_OPTION_TYPE
  | IN_OPTION_DEFAULT
  | IN_OPTION_HELP
  | IN_OPTION_KIND
  | IN_LABEL
  | IN_METADATUM
  | IN_METADATUM_NAME
  | IN_METADATUM_EXECUTABLE
  | IN_METADATUM_ARGS
  | IN_METADATUM_ARG
  | IN_METADATUM_CHANNELS
  | IN_METADATUM_CHANNEL
  | IN_ERROR
  deriving DecidableEq, Repr

/-- How a handler call can fail to return. -/
inductive Fault where
  /-- An `assert` failed. -/
  | assertion
  /-- `back()` of an empty vector was read. -/
  | undefinedBehaviour
  /-- A conversion (`std::stoi`, `VariantJSONHelpers::read`, ...) threw. -/
  | exception
  deriving DecidableEq, Repr

/-- Members of `WorkflowImporter`. `dataProcessors`, `metadata` and `command` are the
caller's objects, held by reference. The head of `states` is `states.back()`. -/
structure WorkflowImporter where
  states : List State
  dataProcessors : List DataProcessorSpec
  metadata : List DataProcessorInfo
  command : CommandInfo
  inputOptions : List ConfigParamSpec
  outputOptions : List ConfigParamSpec
  binding : String
  origin : DataOrigin
  description : DataDescription
  subspec : Nat
  lifetime : Nat
  optionName : String
  optionType : VariantType
  optionDefault : String
  optionHelp : String
  optionKind : Int
  outputHasSubSpec : Bool
  inputMatcherNodes : List Node
  deriving DecidableEq, Repr

/-- `f` applied to `back()` of a vector; `none` for the empty vector. -/
def modifyBack {α : Type} (f : α → α) (xs : List α) : Option (List α) :=
  match xs.getLast? with
  | none => none
  | some x => some (xs.dropLast ++ [f x])

namespace WorkflowImporter

def push (self : WorkflowImporter) (state : State) : WorkflowImporter :=
  { self with states := state :: self.states }

def pop (self : WorkflowImporter) : WorkflowImporter :=
  match self.states with
  | [] => { self with states := [State.IN_ERROR] }
  | _ :: rest => { self with states := rest }

/-- The test `states.back() == o`; the handlers check that `states` is not empty before. -/
def «in» (self : WorkflowImporter) (o : State) : Bool :=
  self.states.head? == some o

/-- The test `states[states.size() - 2] == o`. -/
def previousIs (self : WorkflowImporter) (o : State) : Bool :=
  self.states.tail.head? == some o

/-- The constructor: empty scratch members, `push(State::IN_START)`. -/
def create (u : Uninitialised) (o : List DataProcessorSpec) (m : List DataProcessorInfo)
    (c : CommandInfo) : WorkflowImporter :=
  { states := [State.IN_START], dataProcessors := o, metadata := m, command := c,
    inputOptions := [], outputOptions := [], binding := "", origin := ⟨""⟩,
    description := ⟨""⟩, subspec := u.subspec, lifetime := u.lifetime, optionName := "",
    optionType := u.optionType, optionDefault := "", optionHelp := "",
    optionKind := u.optionKind, outputHasSubSpec := u.outputHasSubSpec,
    inputMatcherNodes := [] }

/-- An update of `dataProcessors.back()`. -/
def onBackProcessor (self : WorkflowImporter) (f : DataProcessorSpec → DataProcessorSpec) :
    Except Fault WorkflowImporter :=
  match modifyBack f self.dataProcessors with
  | none => .error .undefinedBehaviour
  | some dps => .ok { self with dataProcessors := dps }

/-- An update of `metadata.back()`. -/
def onBackMetadata (self : WorkflowImporter) (f : DataProcessorInfo → DataProcessorInfo) :
    Except Fault WorkflowImporter :=
  match modifyBack f self.metadata with
  | none => .error .undefinedBehaviour
  | some ms => .ok { self with metadata := ms }

def StartObject (self : WorkflowImporter) : Except Fault WorkflowImporter :=
  if self.states.isEmpty then .error .undefinedBehaviour
  else if self.in .IN_START then .ok (self.push .IN_EXECUTION)
  else if self.in .IN_DATAPROCESSORS then
    .ok { self.push .IN_DATAPROCESSOR with dataProcessors := self.dataProcessors ++ [{}] }
  else if self.in .IN_DATAPROCESSOR then
    .ok { self with dataProcessors := self.dataProcessors ++ [{}] }
  else if self.in .IN_INPUTS then
    .ok { self.push .IN_INPUT with inputMatcherNodes := [] }
  else if self.in .IN_INPUT_MATCHER then .error .assertion
  else if self.in .IN_INPUT_LEFT_MATCHER then .error .assertion
  else if self.in .IN_INPUT_RIGHT_MATCHER then .error .assertion
  else if self.in .IN_OUTPUTS then
    .ok { self.push .IN_OUTPUT with outputHasSubSpec := false }
  else if self.in .IN_OPTIONS then .ok (self.push .IN_OPTION)
  else if self.in .IN_INPUT_OPTIONS then .ok (self.push .IN_OPTION)
  else if self.in .IN_OUTPUT_OPTIONS then .ok (self.push .IN_OPTION)
  else if self.in .IN_WORKFLOW_OPTIONS then .ok (self.push .IN_OPTION)
  else if self.in .IN_METADATA then
    .ok { self.push .IN_METADATUM with metadata := self.metadata ++ [{}] }
  else if self.in .IN_METADATUM then
    .ok { self with metadata := self.metadata ++ [{}] }
  else if self.in .IN_COMMAND then .ok { self with command := {} }
  else .ok self

/-- The lambda `buildMatcher` of `EndObject`: the nodes are taken from the last to the first,
each becoming the left hand side of an `And` over the matcher built so far, which starts as
`Just(StartTime)`. -/
def buildMatcher (nodes : List Node) : Node :=
  nodes.reverse.foldl (fun lastMatcher node => Node.matcher .And node lastMatcher)
    (Node.just .startTime)

/-- The `switch (optionType)` of `EndObject`: the default value handed to the constructor of
`ConfigParamSpec`, from the text `optionDefault`. -/
def decodeDefault (E : Env) (t : VariantType) (d : String) : Except Fault Variant :=
  let conv {α : Type} (r : Option α) (f : α → Variant) : Except Fault Variant :=
    match r with
    | none => .error .exception
    | some v => .ok (f v)
  if t = .String then .ok (.cString (cstr d))
  else if t = .Int then conv (E.stoi d) .int
  else if t = .UInt8 then conv (E.stoul d) (fun v => .uint8 (v % 2 ^ 8))
  else if t = .UInt16 then conv (E.stoul d) (fun v => .uint16 (v % 2 ^ 16))
  else if t = .UInt32 then conv (E.stoul d) (fun v => .uint32 (v % 2 ^ 32))
  else if t = .UInt64 then conv (E.stoul d) .uint64
  else if t = .Int64 then conv (E.stol d) .int64
  else if t = .Float then conv (E.stof d) .float
  else if t = .Double then conv (E.stod d) .double
  else if t = .Bool then conv (E.stoi d) (fun v => .bool (v != 0))
  else if t = .ArrayInt then conv (E.readVariant .ArrayInt d) (.structured .ArrayInt)
  else if t = .ArrayFloat then conv (E.readVariant .ArrayFloat d) (.structured .ArrayFloat)
  else if t = .ArrayDouble then conv (E.readVariant .ArrayDouble d) (.structured .ArrayDouble)
  else if t = .ArrayString then conv (E.readVariant .ArrayString d) (.structured .ArrayString)
  else if t = .Array2DInt then conv (E.readVariant .Array2DInt d) (.structured .Array2DInt)
  else if t = .Array2DFloat then
    conv (E.readVariant .Array2DFloat d) (.structured .Array2DFloat)
  else if t = .Array2DDouble then
    conv (E.readVariant .Array2DDouble d) (.structured .Array2DDouble)
  else if t = .LabeledArrayInt then
    conv (E.readVariant .LabeledArrayInt d) (.structured .LabeledArrayInt)
  else if t = .LabeledArrayFloat then
    conv (E.readVariant .LabeledArrayFloat d) (.structured .LabeledArrayFloat)
  else if t = .LabeledArrayDouble then
    conv (E.readVariant .LabeledArrayDouble d) (.structured .LabeledArrayDouble)
  else if t = .Dict then .ok .emptyDict
  else .ok (.stdString d)

/-- The InputSpec that `EndObject` pushes for an input object: built on the concrete matcher
when the reduction of the folded matcher gives one, on the matcher itself otherwise. -/
def makeInputSpec (binding : String) (nodes : List Node) (lifetime : Nat)
    (inputOptions : List ConfigParamSpec) : InputSpec :=
  let matcher := buildMatcher nodes
  match DataSpecUtils.optionalConcreteDataMatcherFrom matcher with
  | some concrete =>
    ⟨binding, .concrete ⟨concrete.origin, concrete.description, concrete.subSpec⟩, lifetime,
      inputOptions⟩
  | none => ⟨binding, .tree matcher, lifetime, inputOptions⟩

/-- The OutputSpec that `EndObject` pushes for an output object. The `size_t` member
`subspec` is narrowed to the 32 bit subspecification. -/
def makeOutputSpec (outputHasSubSpec : Bool) (binding : String) (origin : DataOrigin)
    (description : DataDescription) (subspec : Nat) (lifetime : Nat) : OutputSpec :=
  if outputHasSubSpec then
    ⟨binding, .concrete ⟨origin, description, subspec % 2 ^ 32⟩, lifetime, []⟩
  else ⟨binding, .dataType ⟨origin, description⟩, lifetime, []⟩

def EndObject (E : Env) (self : WorkflowImporter) : Except Fault WorkflowImporter :=
  if self.states.isEmpty then .error .undefinedBehaviour
  else if self.in .IN_INPUT then
    let spec := makeInputSpec self.binding self.inputMatcherNodes self.lifetime self.inputOptions
    match self.onBackProcessor (fun p => { p with inputs := p.inputs ++ [spec] }) with
    | .error e => .error e
    | .ok s => .ok { s with inputMatcherNodes := [], inputOptions := [] }.pop
  else if self.in .IN_OUTPUT then
    let spec := makeOutputSpec self.outputHasSubSpec self.binding self.origin self.description
      self.subspec self.lifetime
    match self.onBackProcessor (fun p => { p with outputs := p.outputs ++ [spec] }) with
    | .error e => .error e
    | .ok s => .ok { s with outputHasSubSpec := false }.pop
  else if self.in .IN_OPTION then
    match decodeDefault E self.optionType self.optionDefault with
    | .error e => .error e
    | .ok value =>
      let opt : ConfigParamSpec :=
        ⟨self.optionName, self.optionType, value, self.optionHelp, self.optionKind⟩
      if self.states.length ≤ 1 then .error .assertion
      else if self.previousIs .IN_OPTIONS then
        match self.onBackProcessor (fun p => { p with options := p.options ++ [opt] }) with
        | .error e => .error e
        | .ok s => .ok s.pop
      else if self.previousIs .IN_WORKFLOW_OPTIONS then
        match self.onBackMetadata
            (fun m => { m with workflowOptions := m.workflowOptions ++ [opt] }) with
        | .error e => .error e
        | .ok s => .ok s.pop
      else if self.previousIs .IN_INPUT_OPTIONS then
        .ok { self with inputOptions := self.inputOptions ++ [opt] }.pop
      else if self.previousIs .IN_OUTPUT_OPTIONS then
        .ok { self with outputOptions := self.outputOptions ++ [opt] }.pop
      else .error .assertion
  else .ok self.pop

def StartArray (self : WorkflowImporter) : Except Fault WorkflowImporter :=
  if self.states.isEmpty then .error .undefinedBehaviour
  else if self.in .IN_WORKFLOW then .ok (self.push .IN_DATAPROCESSORS)
  else if self.in .IN_INPUTS then .ok (self.push .IN_INPUT)
  else if self.in .IN_INPUT_OPTIONS then .ok (self.push .IN_OPTION)
  else if self.in .IN_OUTPUT_OPTIONS then .ok (self.push .IN_OPTION)
  else if self.in .IN_OUTPUTS then
    .ok { self.push .IN_OUTPUT with outputHasSubSpec := false }
  else if self.in .IN_OPTIONS then .ok (self.push .IN_OPTION)
  else if self.in .IN_WORKFLOW_OPTIONS then .ok (self.push .IN_OPTION)
  else if self.in .IN_LABELS then .ok (self.push .IN_LABEL)
  else if self.in .IN_METADATA then .ok (self.push .IN_METADATUM)
  else if self.in .IN_METADATUM_ARGS then .ok (self.push .IN_METADATUM_ARG)
  else if self.in .IN_METADATUM_CHANNELS then .ok (self.push .IN_METADATUM_CHANNEL)
  else .ok self

def EndArray (self : WorkflowImporter) : Except Fault WorkflowImporter :=
  if self.states.isEmpty then .error .undefinedBehaviour
  else if self.in .IN_INPUT || self.in .IN_OUTPUT || self.in .IN_OPTION || self.in .IN_LABEL
      || self.in .IN_METADATUM || self.in .IN_METADATUM_ARG || self.in .IN_METADATUM_CHANNEL
      || self.in .IN_DATAPROCESSORS then
    .ok self.pop.pop
  else .ok self.pop

def Key (self : WorkflowImporter) (str : String) : Except Fault WorkflowImporter :=
  if self.states.isEmpty then .error .undefinedBehaviour
  else if self.in .IN_INPUT && keyIs str "binding" then .ok (self.push .IN_INPUT_BINDING)
  else if self.in .IN_INPUT && keyIs str "origin" then .ok (self.push .IN_INPUT_ORIGIN)
  else if self.in .IN_INPUT && keyIs str "description" then
    .ok (self.push .IN_INPUT_DESCRIPTION)
  else if self.in .IN_INPUT && keyIs str "subspec" then .ok (self.push .IN_INPUT_SUBSPEC)
  else if self.in .IN_INPUT && keyIs str "matcher" then .error .assertion
  else if self.in .IN_INPUT_MATCHER && keyIs str "matcher" then
    .ok (self.push .IN_INPUT_MATCHER)
  else if self.in .IN_INPUT_MATCHER && keyIs str "operation" then
    .ok (self.push .IN_INPUT_MATCHER_OPERATION)
  else if self.in .IN_INPUT_MATCHER && keyIs str "left" then
    .ok (self.push .IN_INPUT_LEFT_MATCHER)
  else if self.in .IN_INPUT_MATCHER && keyIs str "right" then
    .ok (self.push .IN_INPUT_RIGHT_MATCHER)
  else if self.in .IN_INPUT_LEFT_MATCHER && keyIs str "origin" then
    .ok (self.push .IN_INPUT_ORIGIN)
  else if self.in .IN_INPUT_RIGHT_MATCHER && keyIs str "origin" then
    .ok (self.push .IN_INPUT_ORIGIN)
  else if self.in .IN_INPUT_LEFT_MATCHER && keyIs str "description" then
    .ok (self.push .IN_INPUT_DESCRIPTION)
  else if self.in .IN_INPUT_RIGHT_MATCHER && keyIs str "description" then
    .ok (self.push .IN_INPUT_DESCRIPTION)
  else if self.in .IN_INPUT_LEFT_MATCHER && keyIs str "subspec" then
    .ok (self.push .IN_INPUT_SUBSPEC)
  else if self.in .IN_INPUT_RIGHT_MATCHER && keyIs str "subspec" then
    .ok (self.push .IN_INPUT_SUBSPEC)
  else if self.in .IN_INPUT && keyIs str "lifetime" then .ok (self.push .IN_INPUT_LIFETIME)
  else if self.in .IN_INPUT && keyIs str "metadata" then .ok (self.push .IN_INPUT_OPTIONS)
  else if self.in .IN_OUTPUT && keyIs str "binding" then .ok (self.push .IN_OUTPUT_BINDING)
  else if self.in .IN_OUTPUT && keyIs str "origin" then .ok (self.push .IN_OUTPUT_ORIGIN)
  else if self.in .IN_OUTPUT && keyIs str "description" then
    .ok (self.push .IN_OUTPUT_DESCRIPTION)
  else if self.in .IN_OUTPUT && keyIs str "subspec" then
    .ok { self.push .IN_OUTPUT_SUBSPEC with outputHasSubSpec := true }
  else if self.in .IN_OUTPUT && keyIs str "lifetime" then .ok (self.push .IN_OUTPUT_LIFETIME)
  else if self.in .IN_OUTPUT && keyIs str "metadata" then .ok (self.push .IN_OUTPUT_OPTIONS)
  else if self.in .IN_DATAPROCESSOR && keyIs str "name" then
    .ok (self.push .IN_DATAPROCESSOR_NAME)
  else if self.in .IN_DATAPROCESSOR && keyIs str "ranks" then
    .ok (self.push .IN_DATAPROCESSOR_RANK)
  else if self.in .IN_DATAPROCESSOR && keyIs str "nSlots" then
    .ok (self.push .IN_DATAPROCESSOR_N_SLOTS)
  else if self.in .IN_DATAPROCESSOR && keyIs str "inputTimeSliceId" then
    .ok (self.push .IN_DATAPROCESSOR_TIMESLICE_ID)
  else if self.in .IN_DATAPROCESSOR && keyIs str "maxInputTimeslices" then
    .ok (self.push .IN_DATAPROCESSOR_MAX_TIMESLICES)
  else if self.in .IN_DATAPROCESSOR && keyIs str "inputs" then .ok (self.push .IN_INPUTS)
  else if self.in .IN_DATAPROCESSOR && keyIs str "outputs" then .ok (self.push .IN_OUTPUTS)
  else if self.in .IN_DATAPROCESSOR && keyIs str "options" then .ok (self.push .IN_OPTIONS)
  else if self.in .IN_DATAPROCESSOR && keyIs str "labels" then .ok (self.push .IN_LABELS)
  else if self.in .IN_EXECUTION && keyIs str "workflow" then .ok (self.push .IN_WORKFLOW)
  else if self.in .IN_EXECUTION && keyIs str "metadata" then .ok (self.push .IN_METADATA)
  else if self.in .IN_OPTION && keyIs str "name" then .ok (self.push .IN_OPTION_NAME)
  else if self.in .IN_OPTION && keyIs str "type" then .ok (self.push .IN_OPTION_TYPE)
  else if self.in .IN_OPTION && keyIs str "defaultValue" then
    .ok (self.push .IN_OPTION_DEFAULT)
  else if self.in .IN_OPTION && keyIs str "help" then .ok (self.push .IN_OPTION_HELP)
  else if self.in .IN_OPTION && keyIs str "kind" then .ok (self.push .IN_OPTION_KIND)
  else if self.in .IN_METADATUM && keyIs str "name" then .ok (self.push .IN_METADATUM_NAME)
  else if self.in .IN_METADATUM && keyIs str "executable" then
    .ok (self.push .IN_METADATUM_EXECUTABLE)
  else if self.in .IN_METADATUM && keyIs str "cmdLineArgs" then
    .ok (self.push .IN_METADATUM_ARGS)
  else if self.in .IN_METADATUM && keyIs str "workflowOptions" then
    .ok (self.push .IN_WORKFLOW_OPTIONS)
  else if self.in .IN_METADATUM && keyIs str "channels" then
    .ok (self.push .IN_METADATUM_CHANNELS)
  else if self.in .IN_EXECUTION && keyIs str "command" then .ok (self.push .IN_COMMAND)
  else .ok self

/-- The handler `String(str, length, copy)`; `s` is `std::string(str, length)`. -/
def String_ (E : Env) (self : WorkflowImporter) (s : String) : Except Fault WorkflowImporter :=
  if self.states.isEmpty then .error .undefinedBehaviour
  else if self.in .IN_DATAPROCESSOR_NAME then
    if self.dataProcessors.isEmpty then .error .assertion
    else match self.onBackProcessor (fun p => { p with name := s }) with
      | .error e => .error e
      | .ok r => .ok r.pop
  else if self.in .IN_METADATUM_NAME then
    if self.metadata.isEmpty then .error .assertion
    else match self.onBackMetadata (fun m => { m with name := s }) with
      | .error e => .error e
      | .ok r => .ok r.pop
  else if self.in .IN_METADATUM_EXECUTABLE then
    if self.metadata.isEmpty then .error .assertion
    else match self.onBackMetadata (fun m => { m with executable := s }) with
      | .error e => .error e
      | .ok r => .ok r.pop
  else if self.in .IN_INPUT_BINDING then .ok { self with binding := s }.pop
  else if self.in .IN_INPUT_ORIGIN then
    .ok { self with
          origin := ⟨runtimeInit 4 s⟩
          inputMatcherNodes := self.inputMatcherNodes ++ [Node.origin ⟨s.data.take (min s.length 4)⟩] }.pop
  else if self.in .IN_INPUT_DESCRIPTION then
    .ok { self with
          description := ⟨runtimeInit 16 s⟩
          inputMatcherNodes :=
            self.inputMatcherNodes ++ [Node.description ⟨s.data.take (min s.length 16)⟩] }.pop
  else if self.in .IN_INPUT_MATCHER_OPERATION then .ok self.pop
  else if self.in .IN_OUTPUT_BINDING then .ok { self with binding := s }.pop
  else if self.in .IN_OUTPUT_ORIGIN then .ok { self with origin := ⟨runtimeInit 4 s⟩ }.pop
  else if self.in .IN_OUTPUT_DESCRIPTION then
    .ok { self with description := ⟨runtimeInit 16 s⟩ }.pop
  else if self.in .IN_OPTION_NAME then .ok { self with optionName := s }.pop
  else if self.in .IN_OPTION_TYPE then
    match E.stoi s with
    | none => .error .exception
    | some v => .ok { self with optionType := ⟨v⟩ }.pop
  else if self.in .IN_OPTION_KIND then
    match E.stoi s with
    | none => .error .exception
    | some v => .ok { self with optionKind := v }.pop
  else if self.in .IN_OPTION_DEFAULT then .ok { self with optionDefault := s }.pop
  else if self.in .IN_OPTION_HELP then .ok { self with optionHelp := s }.pop
  else if self.in .IN_LABEL then
    match self.onBackProcessor (fun p => { p with labels := p.labels ++ [s] }) with
    | .error e => .error e
    | .ok r => .ok (r.push .IN_LABEL).pop
  else if self.in .IN_METADATUM_ARG then
    match self.onBackMetadata (fun m => { m with cmdLineArgs := m.cmdLineArgs ++ [s] }) with
    | .error e => .error e
    | .ok r => .ok (r.push .IN_METADATUM_ARG).pop
  else if self.in .IN_METADATUM_CHANNEL then
    match self.onBackMetadata (fun m => { m with channels := m.channels ++ [s] }) with
    | .error e => .error e
    | .ok r => .ok (r.push .IN_METADATUM_CHANNEL).pop
  else if self.in .IN_COMMAND then .ok { self with command := self.command.merge ⟨s⟩ }.pop
  else .ok self.pop

/-- The handler `Uint(unsigned i)`. A resource hint is kept as the `int` it is when handed
to `w.Int`. -/
def Uint (self : WorkflowImporter) (i : Nat) : Except Fault WorkflowImporter :=
  if self.states.isEmpty then .error .undefinedBehaviour
  else if self.in .IN_INPUT_SUBSPEC then
    .ok { self with subspec := i
                    inputMatcherNodes := self.inputMatcherNodes ++ [Node.subSpec i] }.pop
  else if self.in .IN_OUTPUT_SUBSPEC then .ok { self with subspec := i }.pop
  else if self.in .IN_INPUT_LIFETIME then .ok { self with lifetime := i }.pop
  else if self.in .IN_OUTPUT_LIFETIME then .ok { self with lifetime := i }.pop
  else if self.in .IN_DATAPROCESSOR_RANK then
    match self.onBackProcessor (fun p => { p with rank := toInt32 i }) with
    | .error e => .error e
    | .ok r => .ok r.pop
  else if self.in .IN_DATAPROCESSOR_N_SLOTS then
    match self.onBackProcessor (fun p => { p with nSlots := toInt32 i }) with
    | .error e => .error e
    | .ok r => .ok r.pop
  else if self.in .IN_DATAPROCESSOR_TIMESLICE_ID then
    match self.onBackProcessor (fun p => { p with inputTimeSliceId := toInt32 i }) with
    | .error e => .error e
    | .ok r => .ok r.pop
  else if self.in .IN_DATAPROCESSOR_MAX_TIMESLICES then
    match self.onBackProcessor (fun p => { p with maxInputTimeslices := toInt32 i }) with
    | .error e => .error e
    | .ok r => .ok r.pop
  else .ok self.pop

def Int_ (self : WorkflowImporter) (_i : Int) : Except Fault WorkflowImporter := .ok self

def Uint64 (self : WorkflowImporter) (_u : Nat) : Except Fault WorkflowImporter := .ok self

def Double (self : WorkflowImporter) (_bits : Nat) : Except Fault WorkflowImporter := .ok self

/-- The handler call that `rapidjson::Reader` makes for an event. `Int64`, `Bool` and `Null`
are not overridden and fall to `BaseReaderHandler::Default`. -/
def handle (E : Env) (self : WorkflowImporter) : Event → Except Fault WorkflowImporter
  | .startObject => self.StartObject
  | .endObject => self.EndObject E
  | .startArray => self.StartArray
  | .endArray => self.EndArray
  | .key s => self.Key s
  | .string s => self.String_ E s
  | .uint u => self.Uint u
  | .int i => self.Int_ i
  | .uint64 u => self.Uint64 u
  | .double d => self.Double d
  | .int64 _ => .ok self
  | .bool _ => .ok self
  | .null => .ok self

/-- The importer after the events of a document, delivered in order; the first handler call
that fails ends the parse. The state reached at that point is returned with the fault. -/
def run (E : Env) : List Event → WorkflowImporter → Except (Fault × WorkflowImporter) WorkflowImporter
  | [], self => .ok self
  | e :: rest, self =>
    match self.handle E e with
    | .error f => .error (f, self)
    | .ok next => run E rest next

end WorkflowImporter

/-! ## The input stream -/

/-- `std::istream`: the characters not read yet and the state flags. -/
structure IStream where
  buf : List Char
  eofbit : Bool := false
  failbit : Bool := false
  badbit : Bool := false
  deriving DecidableEq, Repr

namespace IStream

def good (s : IStream) : Bool := !s.eofbit && !s.failbit && !s.badbit

def eof (s : IStream) : Bool := s.eofbit

def fail (s : IStream) : Bool := s.failbit || s.badbit

def bad (s : IStream) : Bool := s.badbit

/-- `peek()`: the next character, not extracted, or `none` for `Traits::eof()`. On a stream
that is not good the sentry sets `failbit`; at the end of the characters `eofbit` is set. -/
def peek (s : IStream) : Option Char × IStream :=
  if s.good then
    match s.buf with
    | [] => (none, { s with eofbit := true })
    | c :: _ => (some c, s)
  else (none, { s with failbit := true })

/-- `getline(buf, n, '\n')`: the characters stored in `buf` and the stream afterwards.
Characters are extracted until `n - 1` are stored, the end of the characters or a newline;
then the end sets `eofbit`, a newline is extracted and dropped, and any other character sets
`failbit`. Nothing extracted at all sets `failbit`. -/
def getline (s : IStream) (n : Nat) : List Char × IStream :=
  if s.good then
    let line := s.buf.takeWhile (fun c => c != '\n')
    let k := min line.length (n - 1)
    let stored := s.buf.take k
    match s.buf.drop k with
    | [] => (stored, { s with buf := [], eofbit := true, failbit := k == 0 })
    | c :: rest =>
      if c == '\n' then (stored, { s with buf := rest })
      else (stored, { s with buf := c :: rest, failbit := true })
  else ([], { s with failbit := true })

end IStream

/-! ## WorkflowSerializationHelpers::import -/

/-- How a call of `import` ends. -/
inductive Outcome where
  | returned (value : Bool)
  /-- A `std::runtime_error` thrown by `import` itself. -/
  | threw (what : String)
  /-- A handler call did not return (assertion, undefined behaviour, exception of a
  conversion). -/
  | faulted (f : Fault)
  /-- The iteration bound of the embedding was reached. -/
  | outOfFuel
  deriving DecidableEq, Repr

/-- Outcome of `import` and the caller's three objects after the call. -/
structure ImportResult where
  outcome : Outcome
  workflow : List DataProcessorSpec
  metadata : List DataProcessorInfo
  command : CommandInfo
  deriving DecidableEq, Repr

/-- How the loop `while (s.peek() != '{')` ends. -/
inductive Prescan where
  /-- The next character is the open brace; the stream and `hasFatalImportError`. -/
  | payload (s : IStream) (hasFatalImportError : Bool)
  /-- `s.eof()` held: `return !hasFatalImportError`. -/
  | noWorkflow (hasFatalImportError : Bool)
  /-- `s.fail() || s.bad()` held: the `runtime_error` "Malformatted input workflow". -/
  | malformatted
  | outOfFuel
  deriving DecidableEq, Repr

/-- The three prefixes that mark a fatal error line. -/
def fatalPrefixes : List String :=
  ["[ERROR] invalid workflow in", "[ERROR] error while setting up workflow",
   "[ERROR] error parsing options of"]

/-- The test on `buf` after `getline`: `buf[0] == '['` and one of the three `strncmp` calls
gives 0. -/
def isFatalLine (buf : List Char) : Bool :=
  buf.headD NUL == '[' &&
    (strncmpEq buf "[ERROR] invalid workflow in".data "[ERROR] invalid workflow in".length ||
     strncmpEq buf "[ERROR] error while setting up workflow".data
       "[ERROR] error while setting up workflow".length ||
     strncmpEq buf "[ERROR] error parsing options of".data
       "[ERROR] error parsing options of".length)

/-- The loop at the start of `import`, with `char buf[1024]`. Forwarding the line to the
console or to the log is not part of the embedding. -/
def prescan : Nat → IStream → Bool → Prescan
  | 0, _, _ => .outOfFuel
  | fuel + 1, s, hasFatalImportError =>
    let (c, s1) := s.peek
    if c = some '{' then .payload s1 hasFatalImportError
    else if s1.eof then .noWorkflow hasFatalImportError
    else if s1.fail || s1.bad then .malformatted
    else
      let (buf, s2) := s1.getline 1024
      prescan fuel s2 (if isFatalLine buf then true else hasFatalImportError)

/-- Modelled from the spec: `DataSpecUtils::asConcreteDataTypeMatcher(OutputSpec const&)` is
only declared among the sources. An output is concrete or concrete-type; its data type is
the origin and description of either. -/
def DataSpecUtils.asConcreteDataTypeMatcher (output : OutputSpec) : ConcreteDataTypeMatcher :=
  match output.matcher with
  | .concrete m => ⟨m.origin, m.description⟩
  | .dataType m => m

/-- Modelled from the spec: `DataSpecUtils::getOptionalSubSpec(OutputSpec const&)` is only
declared among the sources. The subspecification of a fully concrete output, nothing for a
concrete-type one. -/
def DataSpecUtils.getOptionalSubSpecOutput (output : OutputSpec) : Option Nat :=
  match output.matcher with
  | .concrete m => some m.subSpec
  | .dataType _ => none

namespace WorkflowSerializationHelpers

/-- `WorkflowSerializationHelpers::import`. -/
def import_ (E : Env) (s : IStream) (workflow : List DataProcessorSpec)
    (metadata : List DataProcessorInfo) (command : CommandInfo) : ImportResult :=
  match prescan (s.buf.length + 2) s false with
  | .outOfFuel => ⟨.outOfFuel, workflow, metadata, command⟩
  | .noWorkflow hasFatalImportError =>
    ⟨.returned (!hasFatalImportError), workflow, metadata, command⟩
  | .malformatted => ⟨.threw "Malformatted input workflow", workflow, metadata, command⟩
  | .payload s1 hasFatalImportError =>
    if hasFatalImportError then ⟨.returned false, workflow, metadata, command⟩
    else
      let importer := WorkflowImporter.create E.uninit workflow metadata command
      match importer.run E (E.parse s1.buf).1 with
      | .error (f, st) => ⟨.faulted f, st.dataProcessors, st.metadata, st.command⟩
      | .ok st =>
        if (E.parse s1.buf).2 then ⟨.returned true, st.dataProcessors, st.metadata, st.command⟩
        else ⟨.threw "Error while parsing serialised workflow", st.dataProcessors,
              st.metadata, st.command⟩

/-! ## WorkflowSerializationHelpers::dump -/

/-- The block written for an option of an input's or output's `metadata` and for a workflow
option: name, type, defaultValue and help, no kind. -/
def dumpMetadataOption (E : Env) (metadata : ConfigParamSpec) : List WriterCall :=
  [.startObject,
   .key "name", .string (cstr metadata.name),
   .key "type", .string (cstr (E.to_string metadata.type.val)),
   .key "defaultValue", .string (cstr (E.printVariant metadata.defaultValue)),
   .key "help", .string (cstr metadata.help),
   .endObject]

def dumpInput (E : Env) (input : InputSpec) : List WriterCall :=
  [.startObject, .key "binding", .string (cstr input.binding)]
  ++ (match E.getOptionalOrigin input with
      | some origin => [.key "origin", .string (strnlenChars 4 origin.str)]
      | none => [])
  ++ (match E.getOptionalDescription input with
      | some description => [.key "description", .string (strnlenChars 16 description.str)]
      | none => [])
  ++ (match E.getOptionalSubSpec input with
      | some subSpec => [.key "subspec", .uint64 subSpec]
      | none => [])
  ++ [.key "lifetime", .uint input.lifetime]
  ++ (if input.metadata.isEmpty = false then
        [.key "metadata", .startArray] ++ input.metadata.flatMap (dumpMetadataOption E)
          ++ [.endArray]
      else [])
  ++ [.endObject]

def dumpOutput (E : Env) (output : OutputSpec) : List WriterCall :=
  [.startObject, .key "binding",
   (if output.binding.isEmpty then .string (cstr (E.describe output))
    else .string (cstr output.binding)),
   .key "origin",
   .string (strnlenChars 4 (DataSpecUtils.asConcreteDataTypeMatcher output).origin.str),
   .key "description",
   .string (strnlenChars 16 (DataSpecUtils.asConcreteDataTypeMatcher output).description.str)]
  ++ (match DataSpecUtils.getOptionalSubSpecOutput output with
      | some subSpec => [.key "subspec", .uint64 subSpec]
      | none => [])
  ++ [.key "lifetime", .uint output.lifetime]
  ++ (if output.metadata.isEmpty = false then
        [.key "metadata", .startArray] ++ output.metadata.flatMap (dumpMetadataOption E)
          ++ [.endArray]
      else [])
  ++ [.endObject]

/-- The option names that `dump` leaves out. -/
def isEnumerationOption (name : String) : Bool :=
  name == "start-value-enumeration" || name == "end-value-enumeration"
    || name == "step-value-enumeration" || name == "orbit-offset-enumeration"
    || name == "orbit-multiplier-enumeration"

/-- The types whose default value goes through `VariantJSONHelpers::write`. -/
def isStructuredType (t : VariantType) : Bool :=
  t == .ArrayInt || t == .ArrayFloat || t == .ArrayDouble || t == .ArrayBool
    || t == .ArrayString || t == .Array2DInt || t == .Array2DFloat || t == .Array2DDouble
    || t == .LabeledArrayInt || t == .LabeledArrayFloat || t == .LabeledArrayDouble
    || t == .Dict

def dumpOption (E : Env) (option : ConfigParamSpec) : List WriterCall :=
  if isEnumerationOption option.name then []
  else
    [.startObject,
     .key "name", .string (cstr option.name),
     .key "type", .string (cstr (E.to_string option.type.val)),
     .key "defaultValue",
     .string (cstr (if isStructuredType option.type then E.writeVariant option.defaultValue
                    else E.printVariant option.defaultValue)),
     .key "help", .string (cstr option.help),
     .key "kind", .string (cstr (E.to_string option.kind)),
     .endObject]

def dumpProcessor (E : Env) (processor : DataProcessorSpec) : List WriterCall :=
  if startsWith processor.name "internal-dpl" then []
  else
    [.startObject, .key "name", .string (cstr processor.name)]
    ++ [.key "inputs", .startArray] ++ processor.inputs.flatMap (dumpInput E) ++ [.endArray]
    ++ [.key "outputs", .startArray] ++ processor.outputs.flatMap (dumpOutput E)
    ++ [.endArray]
    ++ [.key "options", .startArray] ++ processor.options.flatMap (dumpOption E)
    ++ [.endArray]
    ++ [.key "labels", .startArray]
    ++ processor.labels.map (fun label => .string (cstr label)) ++ [.endArray]
    ++ [.key "rank", .int processor.rank,
        .key "nSlots", .int processor.nSlots,
        .key "inputTimeSliceId", .int processor.inputTimeSliceId,
        .key "maxInputTimeslices", .int processor.maxInputTimeslices,
        .endObject]

def dumpInfo (E : Env) (info : DataProcessorInfo) : List WriterCall :=
  [.startObject,
   .key "name", .string (cstr info.name),
   .key "executable", .string (cstr info.executable),
   .key "cmdLineArgs", .startArray]
  ++ info.cmdLineArgs.map (fun arg => .string (cstr arg)) ++ [.endArray]
  ++ [.key "workflowOptions", .startArray]
  ++ info.workflowOptions.flatMap (dumpMetadataOption E) ++ [.endArray]
  ++ [.key "channels", .startArray]
  ++ info.channels.map (fun channel => .string (cstr channel)) ++ [.endArray]
  ++ [.endObject]

/-- The writer calls of `dump`, in order. -/
def dumpCalls (E : Env) (workflow : List DataProcessorSpec) (metadata : List DataProcessorInfo)
    (commandInfo : CommandInfo) : List WriterCall :=
  [.startObject, .key "workflow", .startArray]
  ++ workflow.flatMap (dumpProcessor E) ++ [.endArray]
  ++ [.key "metadata", .startArray] ++ metadata.flatMap (dumpInfo E) ++ [.endArray]
  ++ [.key "command", .string (cstr commandInfo.command), .endObject]

/-- `WorkflowSerializationHelpers::dump`: the text written to `out`. -/
def dump (E : Env) (workflow : List DataProcessorSpec) (metadata : List DataProcessorInfo)
    (commandInfo : CommandInfo) : List Char :=
  E.write (dumpCalls E workflow metadata commandInfo)

end WorkflowSerializationHelpers

/-! ## A reference environment

A small executable model of the collaborators, used to evaluate the embedding on concrete
inputs. The theorems on the serialisation hold for every `Env`. -/

namespace Ref

/-- Decimal digits of a natural number, most significant first. -/
def digits : Nat → Nat → List Char
  | 0, _ => []
  | fuel + 1, n =>
    if n < 10 then [Char.ofNat (48 + n)]
    else digits fuel (n / 10) ++ [Char.ofNat (48 + n % 10)]

/-- `std::to_string(int)`. -/
def to_string (i : Int) : String :=
  if 0 ≤ i then ⟨digits (i.toNat + 1) i.toNat⟩
  else ⟨'-' :: digits ((-i).toNat + 1) (-i).toNat⟩

/-- Value of the longest prefix of decimal digits, with the number of digits read. -/
def readDigits : List Char → Nat → Nat → Nat × Nat
  | [], acc, k => (acc, k)
  | c :: rest, acc, k =>
    if c.isDigit then readDigits rest (acc * 10 + (c.toNat - 48)) (k + 1) else (acc, k)

/-- `std::stoul` on decimal text without leading blanks: `none` when no digit is found. -/
def stoul (s : String) : Option Nat :=
  let r := readDigits s.data 0 0
  if r.2 = 0 then none else some r.1

/-- `std::stoi` on decimal text without leading blanks: an optional sign, then digits. -/
def stoi (s : String) : Option Int :=
  match s.data with
  | '-' :: rest =>
    let r := readDigits rest 0 0
    if r.2 = 0 then none else some (-(r.1 : Int))
  | cs =>
    let r := readDigits cs 0 0
    if r.2 = 0 then none else some (r.1 : Int)

/-- Text of a default value as `operator<<` prints it. -/
def printVariant : Variant → String
  | .cString s => s
  | .stdString s => s
  | .int v => to_string v
  | .uint8 v => to_string v
  | .uint16 v => to_string v
  | .uint32 v => to_string v
  | .uint64 v => to_string v
  | .int64 v => to_string v
  | .float bits => to_string bits
  | .double bits => to_string bits
  | .bool b => if b then "1" else "0"
  | .structured _ content => content
  | .emptyDict => "\x7b\x7d"

/-- Origin leaves of a matcher that is a conjunction. -/
def treeOrigins (m : Node) : List String :=
  match m.conjuncts with
  | some leaves => originsOf leaves
  | none => []

def treeDescriptions (m : Node) : List String :=
  match m.conjuncts with
  | some leaves => descriptionsOf leaves
  | none => []

def treeSubSpecs (m : Node) : List Nat :=
  match m.conjuncts with
  | some leaves => subSpecsOf leaves
  | none => []

def getOptionalOrigin (input : InputSpec) : Option DataOrigin :=
  match input.matcher with
  | .concrete m => some m.origin
  | .tree m =>
    match treeOrigins m with
    | [o] => some ⟨runtimeInit 4 o⟩
    | _ => none

def getOptionalDescription (input : InputSpec) : Option DataDescription :=
  match input.matcher with
  | .concrete m => some m.description
  | .tree m =>
    match treeDescriptions m with
    | [d] => some ⟨runtimeInit 16 d⟩
    | _ => none

def getOptionalSubSpec (input : InputSpec) : Option Nat :=
  match input.matcher with
  | .concrete m => some m.subSpec
  | .tree m =>
    match treeSubSpecs m with
    | [v] => some v
    | _ => none

/-- A label of an output: origin, description and subspecification joined by slashes. -/
def describe (output : OutputSpec) : String :=
  match output.matcher with
  | .concrete m => m.origin.str ++ "/" ++ m.description.str ++ "/" ++ to_string m.subSpec
  | .dataType m => m.origin.str ++ "/" ++ m.description.str

/-! ### rapidjson::PrettyWriter -/

/-- Hexadecimal digit, upper case. -/
def hexDigit (n : Nat) : Char :=
  if n < 10 then Char.ofNat (48 + n) else Char.ofNat (55 + n)

/-- `Writer::WriteString` on one character: quotation mark, backslash and the control
characters are escaped. -/
def escapeChar (c : Char) : List Char :=
  if c = '"' then ['\\', '"']
  else if c = '\\' then ['\\', '\\']
  else if c.toNat = 8 then ['\\', 'b']
  else if c.toNat = 9 then ['\\', 't']
  else if c.toNat = 10 then ['\\', 'n']
  else if c.toNat = 12 then ['\\', 'f']
  else if c.toNat = 13 then ['\\', 'r']
  else if c.toNat < 32 then ['\\', 'u', '0', '0', hexDigit (c.toNat / 16), hexDigit (c.toNat % 16)]
  else [c]

def writeString (s : String) : List Char :=
  ['"'] ++ s.data.flatMap escapeChar ++ ['"']

/-- A level of the writer: whether it is an array, and the number of values written in it. -/
structure Level where
  inArray : Bool
  valueCount : Nat

def writeIndent (levels : List Level) : List Char :=
  List.replicate (levels.length * 4) ' '

/-- `PrettyWriter::PrettyPrefix`: the separator written before a value and the level stack
with the value counted. -/
def prettyPrefix (levels : List Level) : List Char × List Level :=
  match levels with
  | [] => ([], [])
  | level :: rest =>
    let sep :=
      if level.inArray then
        (if level.valueCount > 0 then [','] else []) ++ ['\n'] ++ writeIndent levels
      else
        (if level.valueCount > 0 then
           (if level.valueCount % 2 = 0 then [',', '\n'] else [':', ' '])
         else ['\n'])
        ++ (if level.valueCount % 2 = 0 then writeIndent levels else [])
    (sep, { level with valueCount := level.valueCount + 1 } :: rest)

/-- Closing of an object or array: a newline and the indentation unless it is empty. -/
def prettyEnd (levels : List Level) (close : Char) : List Char × List Level :=
  match levels with
  | [] => ([close], [])
  | level :: rest =>
    ((if level.valueCount = 0 then [] else ['\n'] ++ writeIndent rest) ++ [close], rest)

/-- Text of the writer calls, from a given level stack. -/
def writeFrom : List WriterCall → List Level → List Char
  | [], _ => []
  | .startObject :: cs, levels =>
    let p := prettyPrefix levels
    p.1 ++ ['{'] ++ writeFrom cs (⟨false, 0⟩ :: p.2)
  | .startArray :: cs, levels =>
    let p := prettyPrefix levels
    p.1 ++ ['['] ++ writeFrom cs (⟨true, 0⟩ :: p.2)
  | .endObject :: cs, levels =>
    let p := prettyEnd levels '}'
    p.1 ++ writeFrom cs p.2
  | .endArray :: cs, levels =>
    let p := prettyEnd levels ']'
    p.1 ++ writeFrom cs p.2
  | .key k :: cs, levels =>
    let p := prettyPrefix levels
    p.1 ++ writeString k ++ writeFrom cs p.2
  | .string v :: cs, levels =>
    let p := prettyPrefix levels
    p.1 ++ writeString v ++ writeFrom cs p.2
  | .uint u :: cs, levels =>
    let p := prettyPrefix levels
    p.1 ++ (to_string u).data ++ writeFrom cs p.2
  | .uint64 u :: cs, levels =>
    let p := prettyPrefix levels
    p.1 ++ (to_string u).data ++ writeFrom cs p.2
  | .int i :: cs, levels =>
    let p := prettyPrefix levels
    p.1 ++ (to_string i).data ++ writeFrom cs p.2

/-- Text that `rapidjson::PrettyWriter` produces. -/
def write (calls : List WriterCall) : List Char := writeFrom calls []

/-! ### rapidjson::Reader -/

/-- Tokens of a JSON text. Only the tokens `dump` can write are read: a number with a
fraction or an exponent and the literals `true`, `false`, `null` end the token list. -/
inductive Token where
  | lbrace | rbrace | lbrack | rbrack | colon | comma
  | str (s : String)
  | num (negative : Bool) (n : Nat)
  deriving DecidableEq, Repr

def hexValue (c : Char) : Option Nat :=
  if c.isDigit then some (c.toNat - 48)
  else if 'a'.toNat ≤ c.toNat ∧ c.toNat ≤ 'f'.toNat then some (c.toNat - 87)
  else if 'A'.toNat ≤ c.toNat ∧ c.toNat ≤ 'F'.toNat then some (c.toNat - 55)
  else none

/-- The characters of a string token after the opening quotation mark, and the text after
the closing one; `none` for an unterminated string, a raw control character or a bad
escape. -/
def lexString : List Char → List Char → Option (String × List Char)
  | [], _ => none
  | '"' :: rest, acc => some (⟨acc.reverse⟩, rest)
  | '\\' :: '"' :: rest, acc => lexString rest ('"' :: acc)
  | '\\' :: '\\' :: rest, acc => lexString rest ('\\' :: acc)
  | '\\' :: '/' :: rest, acc => lexString rest ('/' :: acc)
  | '\\' :: 'b' :: rest, acc => lexString rest (Char.ofNat 8 :: acc)
  | '\\' :: 'f' :: rest, acc => lexString rest (Char.ofNat 12 :: acc)
  | '\\' :: 'n' :: rest, acc => lexString rest (Char.ofNat 10 :: acc)
  | '\\' :: 'r' :: rest, acc => lexString rest (Char.ofNat 13 :: acc)
  | '\\' :: 't' :: rest, acc => lexString rest (Char.ofNat 9 :: acc)
  | '\\' :: 'u' :: a :: b :: c :: d :: rest, acc =>
    match hexValue a, hexValue b, hexValue c, hexValue d with
    | some x, some y, some z, some w =>
      lexString rest (Char.ofNat (((x * 16 + y) * 16 + z) * 16 + w) :: acc)
    | _, _, _, _ => none
  | '\\' :: _, _ => none
  | c :: rest, acc => if c.toNat < 32 then none else lexString rest (c :: acc)

/-- The text after the longest prefix of decimal digits. -/
def dropDigits : List Char → List Char
  | [] => []
  | c :: rest => if c.isDigit then dropDigits rest else c :: rest

/-- Tokens of a text and whether all of it was read. -/
def lex : Nat → List Char → List Token × Bool
  | 0, _ => ([], false)
  | _ + 1, [] => ([], true)
  | fuel + 1, c :: rest =>
    let cons (t : Token) (r : List Token × Bool) : List Token × Bool := (t :: r.1, r.2)
    if c = ' ' ∨ c = '\n' ∨ c = '\r' ∨ c = '\t' then lex fuel rest
    else if c = '{' then cons .lbrace (lex fuel rest)
    else if c = '}' then cons .rbrace (lex fuel rest)
    else if c = '[' then cons .lbrack (lex fuel rest)
    else if c = ']' then cons .rbrack (lex fuel rest)
    else if c = ':' then cons .colon (lex fuel rest)
    else if c = ',' then cons .comma (lex fuel rest)
    else if c = '"' then
      match lexString rest [] with
      | none => ([], false)
      | some (s, after) => cons (.str s) (lex fuel after)
    else if c = '-' then
      let r := readDigits rest 0 0
      let after := dropDigits rest
      if r.2 = 0 ∨ after.headD ' ' = '.' ∨ after.headD ' ' = 'e' ∨ after.headD ' ' = 'E' then
        ([], false)
      else cons (.num true r.1) (lex fuel after)
    else if c.isDigit then
      let r := readDigits (c :: rest) 0 0
      let after := dropDigits rest
      if after.headD ' ' = '.' ∨ after.headD ' ' = 'e' ∨ after.headD ' ' = 'E' then ([], false)
      else cons (.num false r.1) (lex fuel after)
    else ([], false)

/-- What the reader expects next. -/
inductive Expect where
  | value | keyOrEnd | key | colon | valueOrEnd | commaOrEnd | done
  deriving DecidableEq, Repr

/-- Event of a number token; `none` for a number that only a double can hold. -/
def numberEvent (negative : Bool) (n : Nat) : Option Event :=
  if negative then
    if n ≤ 2 ^ 31 then some (.int (-(n : Int)))
    else if n ≤ 2 ^ 63 then some (.int64 (-(n : Int)))
    else none
  else if n < 2 ^ 32 then some (.uint n)
  else if n < 2 ^ 64 then some (.uint64 n)
  else none

/-- Events of a token list and whether it is one complete document. The stack holds, for
each open container, whether it is an array. -/
def events : List Token → Expect → List Bool → List Event × Bool
  | [], ex, _ => ([], ex == .done)
  | t :: ts, ex, stack =>
    let cons (e : Event) (r : List Event × Bool) : List Event × Bool := (e :: r.1, r.2)
    let after (stack : List Bool) : Expect := if stack.isEmpty then .done else .commaOrEnd
    let value : List Event × Bool :=
      match t with
      | .lbrace => cons .startObject (events ts .keyOrEnd (false :: stack))
      | .lbrack => cons .startArray (events ts .valueOrEnd (true :: stack))
      | .str s => cons (.string s) (events ts (after stack) stack)
      | .num negative n =>
        match numberEvent negative n with
        | some e => cons e (events ts (after stack) stack)
        | none => ([], false)
      | _ => ([], false)
    match ex with
    | .done => ([], false)
    | .value => value
    | .valueOrEnd =>
      if t = .rbrack then cons .endArray (events ts (after stack.tail) stack.tail) else value
    | .keyOrEnd =>
      match t with
      | .rbrace => cons .endObject (events ts (after stack.tail) stack.tail)
      | .str s => cons (.key s) (events ts .colon stack)
      | _ => ([], false)
    | .key =>
      match t with
      | .str s => cons (.key s) (events ts .colon stack)
      | _ => ([], false)
    | .colon => if t = .colon then events ts .value stack else ([], false)
    | .commaOrEnd =>
      match t, stack with
      | .comma, true :: _ => events ts .value stack
      | .comma, false :: _ => events ts .key stack
      | .rbrack, true :: rest => cons .endArray (events ts (after rest) rest)
      | .rbrace, false :: rest => cons .endObject (events ts (after rest) rest)
      | _, _ => ([], false)

/-- `rapidjson::Reader::Parse` on a text: the events delivered and whether the text is one
well-formed document. -/
def parse (text : List Char) : List Event × Bool :=
  let toks := lex (text.length + 1) text
  let r := events toks.1 .value []
  (r.1, toks.2 && r.2)

end Ref

/-- The reference environment. Floating point conversions are not evaluated (they throw);
structured default values are kept as their text. -/
def refEnv : Env where
  write := Ref.write
  parse := Ref.parse
  stoi := Ref.stoi
  stoul := Ref.stoul
  stol := Ref.stoi
  stof := fun _ => none
  stod := fun _ => none
  to_string := Ref.to_string
  printVariant := Ref.printVariant
  writeVariant := Ref.printVariant
  readVariant := fun _ s => some s
  getOptionalOrigin := Ref.getOptionalOrigin
  getOptionalDescription := Ref.getOptionalDescription
  getOptionalSubSpec := Ref.getOptionalSubSpec
  describe := Ref.describe
  uninit := ⟨0, 0, ⟨0⟩, 0, false⟩

/-! ## What import makes of an exported workflow

The functions below describe, without the state stack, the objects that the importer builds
from the events of `dump`. `import_dumpCalls` proves that it builds them. -/

/-- The importer with its state stack replaced. -/
def WorkflowImporter.setStates (d : WorkflowImporter) (states : List State) : WorkflowImporter :=
  { d with states := states }

/-- The members of the importer on which the import of later events depends. -/
structure View where
  dataProcessors : List DataProcessorSpec
  metadata : List DataProcessorInfo
  command : CommandInfo
  inputMatcherNodes : List Node
  inputOptions : List ConfigParamSpec
  optionKind : Int

def WorkflowImporter.view (d : WorkflowImporter) : View :=
  ⟨d.dataProcessors, d.metadata, d.command, d.inputMatcherNodes, d.inputOptions, d.optionKind⟩

/-- The events that `rapidjson::Reader` delivers for the text of the writer calls. -/
def saxEvents (calls : List WriterCall) : List Event := calls.map sax

/-- The default value built by `decodeDefault`, when it does not throw. -/
def importedDefault (E : Env) (t : VariantType) (text : String) : Variant :=
  match WorkflowImporter.decodeDefault E t text with
  | .ok v => v
  | .error _ => .emptyDict

/-- Whether `decodeDefault` returns a value. -/
def readableDefault (E : Env) (t : VariantType) (text : String) : Bool :=
  match WorkflowImporter.decodeDefault E t text with
  | .ok _ => true
  | .error _ => false

/-- Text of the default value of an option of a `metadata` array or a workflow option. -/
def metadataDefaultText (E : Env) (o : ConfigParamSpec) : String :=
  cstr (E.printVariant o.defaultValue)

/-- Text of the default value of an option of a node. -/
def optionDefaultText (E : Env) (o : ConfigParamSpec) : String :=
  cstr (if WorkflowSerializationHelpers.isStructuredType o.type then E.writeVariant o.defaultValue
        else E.printVariant o.defaultValue)

/-- An option written without kind, as imported when `optionKind` holds `kind`. -/
def importedMetadataOption (E : Env) (kind : Int) (o : ConfigParamSpec) : ConfigParamSpec :=
  ⟨cstr o.name, o.type, importedDefault E o.type (metadataDefaultText E o), cstr o.help, kind⟩

/-- An option of a node, as imported. -/
def importedOption (E : Env) (o : ConfigParamSpec) : ConfigParamSpec :=
  ⟨cstr o.name, o.type, importedDefault E o.type (optionDefaultText E o), cstr o.help, o.kind⟩

/-- The type tag of an option is read back and its default value is readable. -/
def wfMetadataOption (E : Env) (o : ConfigParamSpec) : Bool :=
  decide (E.stoi (cstr (E.to_string o.type.val)) = some o.type.val)
    && readableDefault E o.type (metadataDefaultText E o)

/-- The type tag and the kind of a node option are read back and its default value is
readable. -/
def wfOption (E : Env) (o : ConfigParamSpec) : Bool :=
  decide (E.stoi (cstr (E.to_string o.type.val)) = some o.type.val)
    && decide (E.stoi (cstr (E.to_string o.kind)) = some o.kind)
    && readableDefault E o.type (optionDefaultText E o)

/-- The matcher leaves that the importer collects for an exported input, in stream order. -/
def inputLeaves (E : Env) (i : InputSpec) : List Node :=
  (match E.getOptionalOrigin i with
   | some o => [Node.origin ⟨(strnlenChars 4 o.str).data.take (min (strnlenChars 4 o.str).length 4)⟩]
   | none => [])
  ++ (match E.getOptionalDescription i with
      | some d =>
        [Node.description
          ⟨(strnlenChars 16 d.str).data.take (min (strnlenChars 16 d.str).length 16)⟩]
      | none => [])
  ++ (match E.getOptionalSubSpec i with
      | some s => [Node.subSpec s]
      | none => [])

/-- An input, as imported when `optionKind` holds `kind`. -/
def importedInput (E : Env) (kind : Int) (i : InputSpec) : InputSpec :=
  WorkflowImporter.makeInputSpec (cstr i.binding) (inputLeaves E i) i.lifetime
    (i.metadata.map (importedMetadataOption E kind))

/-- The subspecification of an input, when there is one, is a 32 bit value; the options of
its metadata are well formed. -/
def wfInput (E : Env) (i : InputSpec) : Bool :=
  (match E.getOptionalSubSpec i with
   | some s => decide (s < 2 ^ 32)
   | none => true)
  && i.metadata.all (wfMetadataOption E)

/-- The binding that `dump` writes for an output. -/
def emittedBinding (E : Env) (o : OutputSpec) : String :=
  if o.binding.isEmpty then cstr (E.describe o) else cstr o.binding

/-- An output, as imported. -/
def importedOutput (E : Env) (o : OutputSpec) : OutputSpec :=
  WorkflowImporter.makeOutputSpec (DataSpecUtils.getOptionalSubSpecOutput o).isSome
    (emittedBinding E o)
    ⟨runtimeInit 4 (strnlenChars 4 (DataSpecUtils.asConcreteDataTypeMatcher o).origin.str)⟩
    ⟨runtimeInit 16 (strnlenChars 16 (DataSpecUtils.asConcreteDataTypeMatcher o).description.str)⟩
    ((DataSpecUtils.getOptionalSubSpecOutput o).getD 0) o.lifetime

def wfOutput (E : Env) (o : OutputSpec) : Bool :=
  (match DataSpecUtils.getOptionalSubSpecOutput o with
   | some s => decide (s < 2 ^ 32)
   | none => true)
  && o.metadata.all (wfMetadataOption E)

/-- The options of a node that `dump` writes. -/
def emittedOptions (options : List ConfigParamSpec) : List ConfigParamSpec :=
  options.filter (fun o => !WorkflowSerializationHelpers.isEnumerationOption o.name)

/-- The content of `optionKind` after the options of a node: the kind of the last one
written, if any. -/
def kindAfter (kind : Int) (options : List ConfigParamSpec) : Int :=
  match (emittedOptions options).getLast? with
  | some o => o.kind
  | none => kind

/-- A node, as imported when `optionKind` holds `kind` at its start. -/
def importedProcessor (E : Env) (kind : Int) (p : DataProcessorSpec) : DataProcessorSpec :=
  { name := cstr p.name
    inputs := p.inputs.map (importedInput E kind)
    outputs := p.outputs.map (importedOutput E)
    options := (emittedOptions p.options).map (importedOption E)
    labels := p.labels.map cstr
    rank := p.rank
    nSlots := p.nSlots
    inputTimeSliceId := p.inputTimeSliceId
    maxInputTimeslices := p.maxInputTimeslices }

/-- A resource hint that `Reader` reports as `Uint` and that is read back unchanged. -/
def wfHint (x : Int) : Bool := decide (0 ≤ x) && decide (x < 2 ^ 31)

def wfProcessor (E : Env) (p : DataProcessorSpec) : Bool :=
  p.inputs.all (wfInput E) && p.outputs.all (wfOutput E)
    && (emittedOptions p.options).all (wfOption E)
    && wfHint p.rank && wfHint p.nSlots && wfHint p.inputTimeSliceId
    && wfHint p.maxInputTimeslices

/-- Whether `dump` writes the node. -/
def isExported (p : DataProcessorSpec) : Bool := !startsWith p.name "internal-dpl"

/-- The nodes of a workflow, as imported when `optionKind` holds `kind` at the start. -/
def importedWorkflow (E : Env) : Int → List DataProcessorSpec → List DataProcessorSpec
  | _, [] => []
  | kind, p :: rest =>
    if isExported p then
      importedProcessor E kind p :: importedWorkflow E (kindAfter kind p.options) rest
    else importedWorkflow E kind rest

/-- The content of `optionKind` after the nodes of a workflow. -/
def kindAfterWorkflow : Int → List DataProcessorSpec → Int
  | kind, [] => kind
  | kind, p :: rest =>
    if isExported p then kindAfterWorkflow (kindAfter kind p.options) rest
    else kindAfterWorkflow kind rest

/-- An entry of the metadata, as imported when `optionKind` holds `kind`. -/
def importedInfo (E : Env) (kind : Int) (info : DataProcessorInfo) : DataProcessorInfo :=
  { name := cstr info.name
    executable := cstr info.executable
    cmdLineArgs := info.cmdLineArgs.map cstr
    workflowOptions := info.workflowOptions.map (importedMetadataOption E kind)
    channels := info.channels.map cstr }

def wfInfo (E : Env) (info : DataProcessorInfo) : Bool :=
  info.workflowOptions.all (wfMetadataOption E)

/-- The exported nodes and the metadata can be read back: subspecifications are 32 bit
values, resource hints lie in [0, 2^31), and the type, kind and default value of every
exported option are accepted by the conversions of the importer. -/
def wellFormed (E : Env) (workflow : List DataProcessorSpec)
    (metadata : List DataProcessorInfo) : Bool :=
  (workflow.filter isExported).all (wfProcessor E) && metadata.all (wfInfo E)

/-- The text of the writer calls starts with the open brace and `Reader` delivers the
events of the calls: what rapidjson guarantees for the calls of `dump`. -/
def Env.ReadsBack (E : Env) (calls : List WriterCall) : Prop :=
  (E.write calls).head? = some '{' ∧ E.parse (E.write calls) = (saxEvents calls, true)

/-- A stream holding a text, as a new `std::istringstream` does. -/
def IStream.ofText (text : List Char) : IStream := { buf := text }

/-- `f` applied to `back()` of a vector that is not empty. -/
def updateBack {α : Type} (f : α → α) (xs : List α) : List α :=
  match modifyBack f xs with
  | some ys => ys
  | none => xs

/-- Effect on the view of an option of an input's metadata. -/
def stepInputOption (E : Env) (o : ConfigParamSpec) (v : View) : View :=
  { v with inputOptions := v.inputOptions ++ [importedMetadataOption E v.optionKind o] }

/-- Effect on the view of a workflow option. -/
def stepWorkflowOption (E : Env) (o : ConfigParamSpec) (v : View) : View :=
  { v with metadata := updateBack (fun m => { m with workflowOptions :=
      m.workflowOptions ++ [importedMetadataOption E v.optionKind o] }) v.metadata }

/-- Effect on the view of an option of a node. -/
def stepOption (E : Env) (o : ConfigParamSpec) (v : View) : View :=
  { v with
    dataProcessors := updateBack (fun p => { p with options := p.options ++ [importedOption E o] })
      v.dataProcessors
    optionKind := o.kind }

/-- Effect on the view of an input. -/
def stepInput (E : Env) (i : InputSpec) (v : View) : View :=
  { v with dataProcessors := updateBack (fun p => { p with inputs :=
      p.inputs ++ [importedInput E v.optionKind i] }) v.dataProcessors }

/-- Effect on the view of an output. -/
def stepOutput (E : Env) (o : OutputSpec) (v : View) : View :=
  { v with dataProcessors := updateBack (fun p => { p with outputs :=
      p.outputs ++ [importedOutput E o] }) v.dataProcessors }

/-- Effect on the view of a label. -/
def stepLabel (s : String) (v : View) : View :=
  { v with dataProcessors :=
      updateBack (fun p => { p with labels := p.labels ++ [s] }) v.dataProcessors }

/-- Effect on the view of a command line argument. -/
def stepArg (s : String) (v : View) : View :=
  { v with metadata :=
      updateBack (fun m => { m with cmdLineArgs := m.cmdLineArgs ++ [s] }) v.metadata }

/-- Effect on the view of a channel. -/
def stepChannel (s : String) (v : View) : View :=
  { v with metadata :=
      updateBack (fun m => { m with channels := m.channels ++ [s] }) v.metadata }

/-- Effect on the view of an exported node. -/
def stepProcessor (E : Env) (p : DataProcessorSpec) (v : View) : View :=
  { v with
    dataProcessors := v.dataProcessors ++ [importedProcessor E v.optionKind p]
    optionKind := kindAfter v.optionKind p.options }

/-- Effect on the view of an entry of the metadata. -/
def stepInfo (E : Env) (info : DataProcessorInfo) (v : View) : View :=
  { v with metadata := v.metadata ++ [importedInfo E v.optionKind info] }

/-- The calls of `dump` for an input between `StartObject` and the metadata. -/
def dumpInputHead (E : Env) (i : InputSpec) : List WriterCall :=
  [.key "binding", .string (cstr i.binding)]
  ++ (match E.getOptionalOrigin i with
      | some origin => [.key "origin", .string (strnlenChars 4 origin.str)]
      | none => [])
  ++ (match E.getOptionalDescription i with
      | some description => [.key "description", .string (strnlenChars 16 description.str)]
      | none => [])
  ++ (match E.getOptionalSubSpec i with
      | some subSpec => [.key "subspec", .uint64 subSpec]
      | none => [])
  ++ [.key "lifetime", .uint i.lifetime]

/-- The calls of `dump` for the metadata of an input or output: nothing when it is empty. -/
def dumpMetadataArray (E : Env) (metadata : List ConfigParamSpec) : List WriterCall :=
  if metadata.isEmpty = false then
    [.key "metadata", .startArray]
      ++ metadata.flatMap (WorkflowSerializationHelpers.dumpMetadataOption E) ++ [.endArray]
  else []

/-- The calls of `dump` for an output between `StartObject` and the metadata. -/
def dumpOutputHead (E : Env) (o : OutputSpec) : List WriterCall :=
  [.key "binding", .string (emittedBinding E o),
   .key "origin",
   .string (strnlenChars 4 (DataSpecUtils.asConcreteDataTypeMatcher o).origin.str),
   .key "description",
   .string (strnlenChars 16 (DataSpecUtils.asConcreteDataTypeMatcher o).description.str)]
  ++ (match DataSpecUtils.getOptionalSubSpecOutput o with
      | some subSpec => [.key "subspec", .uint64 subSpec]
      | none => [])
  ++ [.key "lifetime", .uint o.lifetime]

/-- What holds of the importer between the inputs of a node: no matcher leaf and no option
is pending, and there is a node to add the input to. -/
def InputsInv (s : WorkflowImporter) : Prop :=
  s.inputMatcherNodes = [] ∧ s.inputOptions = [] ∧ ∃ dps p, s.dataProcessors = dps ++ [p]

/-- What holds of the importer between the outputs of a node. -/
def OutputsInv (s : WorkflowImporter) : Prop :=
  s.outputHasSubSpec = false ∧ ∃ dps p, s.dataProcessors = dps ++ [p]

/-- What holds of the importer between the nodes of a workflow. -/
def NodesInv (s : WorkflowImporter) : Prop :=
  s.inputMatcherNodes = [] ∧ s.inputOptions = []

/-! ## Streams made of lines -/

/-- The text of lines, each ended by a newline. -/
def linesText (lines : List (List Char)) : List Char :=
  lines.flatMap (fun l => l ++ ['\n'])

/-- A line before the payload: it holds no newline, fits the 1024 byte buffer of `import` and
does not start with the open brace. -/
def PlainLine (l : List Char) : Prop :=
  '\n' ∉ l ∧ l.length < 1024 ∧ l.head? ≠ some '{'

/-- The line begins with one of the three fatal error prefixes. -/
def startsWithFatal (l : List Char) : Bool :=
  fatalPrefixes.any (fun p => p.data.isPrefixOf l)

/-- The compact text of an empty document. -/
def emptyPayload : List Char :=
  "\x7b\"workflow\":[],\"metadata\":[],\"command\":\"\"\x7d".data

/-- The events of an empty document. -/
def emptyPayloadEvents : List Event :=
  [.startObject, .key "workflow", .startArray, .endArray, .key "metadata", .startArray,
   .endArray, .key "command", .string "", .endObject]

/-! ## Sample inputs -/

/-- A workflow with a concrete input, an output without binding and an output with one. -/
def sampleWorkflow : List DataProcessorSpec :=
  [{ name := "A",
     inputs := [⟨"in", .concrete ⟨⟨"TST"⟩, ⟨"DATA"⟩, 1⟩, 0, []⟩],
     outputs := [⟨"", .concrete ⟨⟨"TST"⟩, ⟨"OUT"⟩, 0⟩, 0, []⟩,
                 ⟨"out", .dataType ⟨⟨"TST"⟩, ⟨"B"⟩⟩, 0, []⟩] }]

/-- The metadata of `sampleWorkflow`. -/
def sampleMetadata : List DataProcessorInfo :=
  [{ name := "A", executable := "exe", cmdLineArgs := ["-b"] }]

/-- A workflow whose output carries an option in its metadata. -/
def outputMetadataWorkflow : List DataProcessorSpec :=
  [{ name := "A",
     outputs := [⟨"out", .concrete ⟨⟨"TST"⟩, ⟨"A"⟩, 0⟩, 0,
       [⟨"x", VariantType.String, .cString "v", "h", 0⟩]⟩] }]

/-- A workflow whose output has a binding that starts with a NUL character. -/
def nulBindingWorkflow : List DataProcessorSpec :=
  [{ name := "A", outputs := [⟨"\x00", .concrete ⟨⟨"TST"⟩, ⟨"A"⟩, 0⟩, 0, []⟩] }]

/-- A workflow whose first node has an option of type Int with a text as default value;
`EndObject` hands that text to `std::stoi`. -/
def unreadableWorkflow : List DataProcessorSpec :=
  [{ name := "A", options := [⟨"x", VariantType.Int, .cString "abc", "h", 0⟩] },
   { name := "B", outputs := [⟨"out", .concrete ⟨⟨"TST"⟩, ⟨"A"⟩, 0⟩, 0, []⟩] }]

end o2.framework

namespace o2.framework

/-! ## Objects of the wire format

Event sequences of `<input>` and `<output>` objects, used to state what the importer builds
from an object of the stream. -/

/-- A member of an `<input>` or `<output>` object: a key with its string or unsigned value,
or the key "metadata" with an array of options. -/
inductive Member where
  | binding (s : String)
  | origin (s : String)
  | description (s : String)
  | subspec (u : Nat)
  | lifetime (u : Nat)
  | metadata (options : List ConfigParamSpec)
  deriving DecidableEq, Repr

namespace Member

/-- The events that the reader delivers for the member; the options of a "metadata" array
are objects as `dump` writes them. -/
def events (E : Env) : Member → List Event
  | binding s => [.key "binding", .string s]
  | origin s => [.key "origin", .string s]
  | description s => [.key "description", .string s]
  | subspec u => [.key "subspec", .uint u]
  | lifetime u => [.key "lifetime", .uint u]
  | metadata options =>
    saxEvents ([.key "metadata", .startArray]
      ++ options.flatMap (WorkflowSerializationHelpers.dumpMetadataOption E) ++ [.endArray])

/-- Whether the conversions of the importer accept the options of the member. -/
def readable (E : Env) : Member → Bool
  | metadata options => options.all (wfMetadataOption E)
  | _ => true

/-- The matcher leaf that `String` or `Uint` pushes onto `inputMatcherNodes` for the member of
an input object: an origin leaf on the first `min(|s|, 4)` characters, a description leaf on
the first `min(|s|, 16)`, a subspecification leaf; nothing for binding and lifetime. -/
def leaf : Member → Option Node
  | origin s => some (Node.origin ⟨s.data.take (min s.length 4)⟩)
  | description s => some (Node.description ⟨s.data.take (min s.length 16)⟩)
  | subspec u => some (Node.subSpec u)
  | _ => none

end Member

/-- The events of an object with the given members, in order. -/
def objectEvents (E : Env) (members : List Member) : List Event :=
  [.startObject] ++ members.flatMap (Member.events E) ++ [.endObject]

end o2.framework

namespace o2.framework

/-- A node with an option that `dump` leaves out between two that it writes. -/
def enumerationOptionsNode : DataProcessorSpec :=
  { name := "A",
    options := [⟨"x", VariantType.Int, .int 1, "h", 0⟩,
                ⟨"end-value-enumeration", VariantType.Int64, .int64 5, "", 0⟩,
                ⟨"y", VariantType.String, .cString "v", "", 1⟩] }

end o2.framework

namespace o2.framework

/-! ## Arrays of the wire format -/

/-- An array of the document: the array-valued key under which it stands and, as elements,
what `dump` writes for the values given. -/
inductive ArrayContent where
  | workflow (nodes : List DataProcessorSpec)
  | metadata (infos : List DataProcessorInfo)
  | inputs (inputs : List InputSpec)
  | outputs (outputs : List OutputSpec)
  | options (options : List ConfigParamSpec)
  | labels (labels : List String)
  | inputMetadata (options : List ConfigParamSpec)
  | outputMetadata (options : List ConfigParamSpec)
  | cmdLineArgs (args : List String)
  | workflowOptions (options : List ConfigParamSpec)
  | channels (channels : List String)

namespace ArrayContent

/-- The key of the array. -/
def key : ArrayContent → String
  | workflow _ => "workflow"
  | metadata _ => "metadata"
  | inputs _ => "inputs"
  | outputs _ => "outputs"
  | options _ => "options"
  | labels _ => "labels"
  | inputMetadata _ => "metadata"
  | outputMetadata _ => "metadata"
  | cmdLineArgs _ => "cmdLineArgs"
  | workflowOptions _ => "workflowOptions"
  | channels _ => "channels"

/-- The state in which the key of the array is read: the top-level object, a node, an input,
an output or an entry of the metadata. -/
def parent : ArrayContent → State
  | workflow _ => .IN_EXECUTION
  | metadata _ => .IN_EXECUTION
  | inputs _ => .IN_DATAPROCESSOR
  | outputs _ => .IN_DATAPROCESSOR
  | options _ => .IN_DATAPROCESSOR
  | labels _ => .IN_DATAPROCESSOR
  | inputMetadata _ => .IN_INPUT
  | outputMetadata _ => .IN_OUTPUT
  | cmdLineArgs _ => .IN_METADATUM
  | workflowOptions _ => .IN_METADATUM
  | channels _ => .IN_METADATUM

open WorkflowSerializationHelpers in
/-- The writer calls of the elements. -/
def elements (E : Env) : ArrayContent → List WriterCall
  | workflow nodes => nodes.flatMap (dumpProcessor E)
  | metadata infos => infos.flatMap (dumpInfo E)
  | inputs xs => xs.flatMap (dumpInput E)
  | outputs xs => xs.flatMap (dumpOutput E)
  | options xs => xs.flatMap (dumpOption E)
  | labels xs => xs.map (fun label => .string (cstr label))
  | inputMetadata xs => xs.flatMap (dumpMetadataOption E)
  | outputMetadata xs => xs.flatMap (dumpMetadataOption E)
  | cmdLineArgs xs => xs.map (fun arg => .string (cstr arg))
  | workflowOptions xs => xs.flatMap (dumpMetadataOption E)
  | channels xs => xs.map (fun channel => .string (cstr channel))

/-- Whether the conversions of the importer accept the elements. -/
def readable (E : Env) : ArrayContent → Bool
  | workflow nodes => (nodes.filter isExported).all (wfProcessor E)
  | metadata infos => infos.all (wfInfo E)
  | inputs xs => xs.all (wfInput E)
  | outputs xs => xs.all (wfOutput E)
  | options xs => (emittedOptions xs).all (wfOption E)
  | labels _ => true
  | inputMetadata xs => xs.all (wfMetadataOption E)
  | outputMetadata xs => xs.all (wfMetadataOption E)
  | cmdLineArgs _ => true
  | workflowOptions xs => xs.all (wfMetadataOption E)
  | channels _ => true

/-- Whether the importer holds what the elements are added to: a node for the arrays of a
node, an entry for the arrays of an entry of the metadata, and no pending matcher leaf or
option where inputs are read. -/
def ready : ArrayContent → WorkflowImporter → Bool
  | workflow _, d => d.inputMatcherNodes.isEmpty && d.inputOptions.isEmpty
  | metadata _, _ => true
  | inputs _, d =>
    d.inputMatcherNodes.isEmpty && d.inputOptions.isEmpty && !d.dataProcessors.isEmpty
  | outputs _, d => !d.dataProcessors.isEmpty
  | options _, d => !d.dataProcessors.isEmpty
  | labels _, d => !d.dataProcessors.isEmpty
  | inputMetadata _, _ => true
  | outputMetadata _, _ => true
  | cmdLineArgs _, d => !d.metadata.isEmpty
  | workflowOptions _, d => !d.metadata.isEmpty
  | channels _, d => !d.metadata.isEmpty

end ArrayContent

end o2.framework

namespace o2.framework

/-! ## Sample payloads -/

/-- A document that ends after its first node, before the array of nodes is closed. -/
def truncatedPayload : List Char := "\x7b\"workflow\":[\x7b\"name\":\"A\"\x7d".data

end o2.framework

namespace o2.framework

/-- The kinds whose default value `EndObject` reads with `VariantJSONHelpers::read`. -/
def structuredReadTypes : List VariantType :=
  [.ArrayInt, .ArrayFloat, .ArrayDouble, .ArrayString, .Array2DInt, .Array2DFloat,
   .Array2DDouble, .LabeledArrayInt, .LabeledArrayFloat, .LabeledArrayDouble]

/-- A node with an option of kind ArrayBool and one of kind Dict; the texts of the default
values are the ones the reference environment writes for them. -/
def structuredOptionsWorkflow : List DataProcessorSpec :=
  [{ name := "A",
     options := [⟨"flags", VariantType.ArrayBool, .structured VariantType.ArrayBool "[1,0]",
                  "h", 0⟩,
                 ⟨"dict", VariantType.Dict, .structured VariantType.Dict "\x7b\"a\":1\x7d",
                  "h", 0⟩,
                 ⟨"ints", VariantType.ArrayInt, .structured VariantType.ArrayInt "[1,2]",
                  "h", 0⟩] }]

end o2.framework

namespace o2.framework

/-! ## Evaluation of matchers -/

/-- Modelled from the spec: `DataDescriptorMatcher::match` is not among the sources. Section
4.1: `evaluate(matcher, concreteId, context)` tests the origin, description and
subspecification atoms "by direct value equality against fields of concreteId", the tags
"on the padded fixed-width representation" over "the full declared width"; "Context supplies
the value for StartTime atoms", so the StartTime leaf, which refers to the context, holds for
every identifier; a constant leaf is its value; `And` and `Or` combine their operands and
`Just` is the test of its left operand. `Xor`, which the spec does not list, is the exclusive
disjunction. -/
def Node.evaluate (c : ConcreteDataMatcher) : Node → Bool
  | .origin v => runtimeInit 4 v == runtimeInit 4 c.origin.str
  | .description v => runtimeInit 16 v == runtimeInit 16 c.description.str
  | .subSpec v => v == c.subSpec
  | .startTime => true
  | .constant b => b
  | .matcher .Just l _ => l.evaluate c
  | .matcher .And l r => l.evaluate c && r.evaluate c
  | .matcher .Or l r => l.evaluate c || r.evaluate c
  | .matcher .Xor l r => xor (l.evaluate c) (r.evaluate c)

/-- Modelled from the spec: evaluation of a ConcreteDataMatcher against a concrete identifier
is not among the sources. Section 3: it is "fully resolved, no wildcards"; the three fields
are compared, the tags on their fixed-width representation. -/
def ConcreteDataMatcher.evaluate (m : ConcreteDataMatcher) (c : ConcreteDataMatcher) : Bool :=
  runtimeInit 4 m.origin.str == runtimeInit 4 c.origin.str
    && runtimeInit 16 m.description.str == runtimeInit 16 c.description.str
    && m.subSpec == c.subSpec

/-- Modelled from the spec: evaluation of the matcher that an InputSpec stores, a concrete
matcher or a tree, by the evaluation of the form it has. -/
def InputMatcher.evaluate (c : ConcreteDataMatcher) : InputMatcher → Bool
  | .concrete m => m.evaluate c
  | .tree m => m.evaluate c

/-- The `reduceOrSelf` of the spec: the concrete form when the reduction gives one and the
tree itself otherwise. It is the choice that `EndObject` makes for an input. -/
def reduceOrSelf (m : Node) : InputMatcher :=
  match DataSpecUtils.optionalConcreteDataMatcherFrom m with
  | some c => .concrete c
  | none => .tree m

/-- Whether a node is a leaf, not a nested matcher. -/
def Node.isLeaf : Node → Bool
  | .matcher _ _ _ => false
  | _ => true

/-- `Lifetime::Timeframe`, the first enumerator of `enum struct Lifetime`
(Framework/Lifetime.h is not among the sources). -/
def Lifetime.Timeframe : Nat := 0

/-- Modelled from the spec: the body of `DataSpecUtils::match(InputSpec const&,
OutputSpec const&)` is not among the sources. Section 4.3: "true iff the Output's
concrete-or-concrete-type identity satisfies the Input's matcher tree (using 4.1, optimized
via 4.2) AND lifetimes are compatible per a fixed compatibility table". The spec gives the
table by examples only and does not say how a concrete-type identity is tested, so both are
parameters: `compatible input output` for the lifetimes and `satisfiesType` for an output
without subspecification. -/
def DataSpecUtils.match_ (compatible : Nat → Nat → Bool)
    (satisfiesType : InputMatcher → ConcreteDataTypeMatcher → Bool)
    (input : InputSpec) (output : OutputSpec) : Bool :=
  (match output.matcher with
   | .concrete c => input.matcher.evaluate c
   | .dataType t => satisfiesType input.matcher t)
  && compatible input.lifetime output.lifetime

end o2.framework

namespace o2.framework

/-! ## DataSpecUtils::find -/

/-- `DataSpecUtils::find`: the loop over the container, in its order. `matchSpec` stands for
the overload of `DataSpecUtils::match(spec, origin, description, subSpec)` of the element
type; the overloads are only declared among the sources. `none` is `std::nullopt`. -/
def DataSpecUtils.find {α : Type} (matchSpec : α → DataOrigin → DataDescription → Nat → Bool)
    (container : List α) (origin : DataOrigin) (description : DataDescription)
    (subSpec : Nat) : Option α :=
  match container with
  | [] => none
  | spec :: rest =>
    if matchSpec spec origin description subSpec then some spec
    else DataSpecUtils.find matchSpec rest origin description subSpec

/-! ## WritingCursor -/

/-- `WritingCursor<soa::Table<PC...>>`, its member `int64_t mCount`, which starts at -1. The
row itself goes to the `TableBuilder`, which is not among the sources and does not touch
`mCount`. -/
structure WritingCursor where
  mCount : Int := -1
  deriving DecidableEq, Repr

namespace WritingCursor

/-- `operator()`: `++mCount`, then the row is handed to the cursor of the builder. The
increment of the largest `int64_t` is undefined behaviour: `none`. -/
def call (self : WritingCursor) : Option WritingCursor :=
  if self.mCount + 1 < 2 ^ 63 then some { self with mCount := self.mCount + 1 } else none

/-- `lastIndex()`. -/
def lastIndex (self : WritingCursor) : Int := self.mCount

/-- `resetCursor(builder)`: the cursor afterwards and the value returned. -/
def resetCursor (_self : WritingCursor) : WritingCursor × Bool := ({ mCount := -1 }, true)

/-- The cursor after `n` calls of `operator()`, one after the other. -/
def insertions : Nat → WritingCursor → Option WritingCursor
  | 0, self => some self
  | n + 1, self =>
    match self.call with
    | none => none
    | some next => insertions n next

end WritingCursor

end o2.framework

namespace o2.framework

/-! ## Sample streams -/

/-- A line of 1024 characters, followed by the compact empty document on the next line. -/
def longLineStream : List Char := List.replicate 1024 'a' ++ '\n' :: emptyPayload

/-- A compact document whose second line starts with the open brace of its first node. -/
def twoLinePayload : List Char :=
  ("\x7b\"workflow\":[\n\x7b\"name\":\"A\"\x7d],\"metadata\":[],\"command\":\"\"\x7d").data

end o2.framework

namespace o2.framework

/-- A node with resource hints in [0, 2^31) and an option of type Int whose default value is
a text; `EndObject` hands that text to `std::stoi`. -/
def hintedUnreadableWorkflow : List DataProcessorSpec :=
  [{ name := "A", options := [⟨"x", VariantType.Int, .cString "abc", "h", 0⟩],
     rank := 5, nSlots := 2, inputTimeSliceId := 3, maxInputTimeslices := 4 }]

/-- A node with resource hints that differ from those of a new DataProcessorSpec. -/
def hintedWorkflow : List DataProcessorSpec :=
  [{ name := "A", rank := 5, nSlots := 2, inputTimeSliceId := 3, maxInputTimeslices := 4 }]

/-- The four resource hints of a node: rank, nSlots, inputTimeSliceId, maxInputTimeslices. -/
def DataProcessorSpec.hints (p : DataProcessorSpec) : Int × Int × Int × Int :=
  (p.rank, p.nSlots, p.inputTimeSliceId, p.maxInputTimeslices)

end o2.framework

namespace o2.framework

/-- The importer after the events, when every handler call returns; the importer at the
failing call otherwise. -/
def WorkflowImporter.after (E : Env) (events : List Event) (d : WorkflowImporter) :
    WorkflowImporter :=
  match d.run E events with
  | .ok s => s
  | .error (_, s) => s

end o2.framework

namespace o2.framework

/-! ## The branches of WorkflowImporter::Key -/

/-- A branch of the `if` chain of `Key`: the state tested with `in`, the name handed to
`strncmp` and the state pushed. -/
structure KeyBranch where
  state : State
  expected : String
  target : State
  deriving DecidableEq, Repr

/-- The branches of `Key`, in source order. -/
def keyBranches : List KeyBranch :=
  [⟨.IN_INPUT, "binding", .IN_INPUT_BINDING⟩,
   ⟨.IN_INPUT, "origin", .IN_INPUT_ORIGIN⟩,
   ⟨.IN_INPUT, "description", .IN_INPUT_DESCRIPTION⟩,
   ⟨.IN_INPUT, "subspec", .IN_INPUT_SUBSPEC⟩,
   ⟨.IN_INPUT, "matcher", .IN_INPUT_MATCHER⟩,
   ⟨.IN_INPUT_MATCHER, "matcher", .IN_INPUT_MATCHER⟩,
   ⟨.IN_INPUT_MATCHER, "operation", .IN_INPUT_MATCHER_OPERATION⟩,
   ⟨.IN_INPUT_MATCHER, "left", .IN_INPUT_LEFT_MATCHER⟩,
   ⟨.IN_INPUT_MATCHER, "right", .IN_INPUT_RIGHT_MATCHER⟩,
   ⟨.IN_INPUT_LEFT_MATCHER, "origin", .IN_INPUT_ORIGIN⟩,
   ⟨.IN_INPUT_RIGHT_MATCHER, "origin", .IN_INPUT_ORIGIN⟩,
   ⟨.IN_INPUT_LEFT_MATCHER, "description", .IN_INPUT_DESCRIPTION⟩,
   ⟨.IN_INPUT_RIGHT_MATCHER, "description", .IN_INPUT_DESCRIPTION⟩,
   ⟨.IN_INPUT_LEFT_MATCHER, "subspec", .IN_INPUT_SUBSPEC⟩,
   ⟨.IN_INPUT_RIGHT_MATCHER, "subspec", .IN_INPUT_SUBSPEC⟩,
   ⟨.IN_INPUT, "lifetime", .IN_INPUT_LIFETIME⟩,
   ⟨.IN_INPUT, "metadata", .IN_INPUT_OPTIONS⟩,
   ⟨.IN_OUTPUT, "binding", .IN_OUTPUT_BINDING⟩,
   ⟨.IN_OUTPUT, "origin", .IN_OUTPUT_ORIGIN⟩,
   ⟨.IN_OUTPUT, "description", .IN_OUTPUT_DESCRIPTION⟩,
   ⟨.IN_OUTPUT, "subspec", .IN_OUTPUT_SUBSPEC⟩,
   ⟨.IN_OUTPUT, "lifetime", .IN_OUTPUT_LIFETIME⟩,
   ⟨.IN_OUTPUT, "metadata", .IN_OUTPUT_OPTIONS⟩,
   ⟨.IN_DATAPROCESSOR, "name", .IN_DATAPROCESSOR_NAME⟩,
   ⟨.IN_DATAPROCESSOR, "ranks", .IN_DATAPROCESSOR_RANK⟩,
   ⟨.IN_DATAPROCESSOR, "nSlots", .IN_DATAPROCESSOR_N_SLOTS⟩,
   ⟨.IN_DATAPROCESSOR, "inputTimeSliceId", .IN_DATAPROCESSOR_TIMESLICE_ID⟩,
   ⟨.IN_DATAPROCESSOR, "maxInputTimeslices", .IN_DATAPROCESSOR_MAX_TIMESLICES⟩,
   ⟨.IN_DATAPROCESSOR, "inputs", .IN_INPUTS⟩,
   ⟨.IN_DATAPROCESSOR, "outputs", .IN_OUTPUTS⟩,
   ⟨.IN_DATAPROCESSOR, "options", .IN_OPTIONS⟩,
   ⟨.IN_DATAPROCESSOR, "labels", .IN_LABELS⟩,
   ⟨.IN_EXECUTION, "workflow", .IN_WORKFLOW⟩,
   ⟨.IN_EXECUTION, "metadata", .IN_METADATA⟩,
   ⟨.IN_OPTION, "name", .IN_OPTION_NAME⟩,
   ⟨.IN_OPTION, "type", .IN_OPTION_TYPE⟩,
   ⟨.IN_OPTION, "defaultValue", .IN_OPTION_DEFAULT⟩,
   ⟨.IN_OPTION, "help", .IN_OPTION_HELP⟩,
   ⟨.IN_OPTION, "kind", .IN_OPTION_KIND⟩,
   ⟨.IN_METADATUM, "name", .IN_METADATUM_NAME⟩,
   ⟨.IN_METADATUM, "executable", .IN_METADATUM_EXECUTABLE⟩,
   ⟨.IN_METADATUM, "cmdLineArgs", .IN_METADATUM_ARGS⟩,
   ⟨.IN_METADATUM, "workflowOptions", .IN_WORKFLOW_OPTIONS⟩,
   ⟨.IN_METADATUM, "channels", .IN_METADATUM_CHANNELS⟩,
   ⟨.IN_EXECUTION, "command", .IN_COMMAND⟩]

/-- The body of a branch of `Key`: `push(target)`; before it `assert(0)` in the branch of
"matcher" in an input object, after it `outputHasSubSpec = true` in the branch of "subspec"
in an output object. -/
def KeyBranch.body (b : KeyBranch) (d : WorkflowImporter) : Except Fault WorkflowImporter :=
  if b.state = .IN_INPUT ∧ b.target = .IN_INPUT_MATCHER then .error .assertion
  else if b.target = .IN_OUTPUT_SUBSPEC then
    .ok { d.push b.target with outputHasSubSpec := true }
  else .ok (d.push b.target)

/-- The `if` chain of `Key` over a list of branches: the body of the first branch whose test
`in(state) && strncmp(str, expected, length) == 0` holds, no change when there is none. -/
def keyChain (d : WorkflowImporter) (k : String) : List KeyBranch → Except Fault WorkflowImporter
  | [] => .ok d
  | b :: bs => if d.in b.state && keyIs k b.expected then b.body d else keyChain d k bs

/-- The first branch in source order whose state is `S` and whose `strncmp` over the length
of the key gives 0. -/
def keyBranch (S : State) (k : String) : Option KeyBranch :=
  keyBranches.find? (fun b => b.state == S && keyIs k b.expected)

/-- The branch that the claim describes: the first branch in source order whose state is `S`
and whose expected name has the key as a prefix. -/
def keyBranchPrefixed (S : State) (k : String) : Option KeyBranch :=
  keyBranches.find? (fun b => b.state == S && k.data.isPrefixOf b.expected.data)

end o2.framework

namespace o2.framework

/-! ## Effects of a handler call -/

/-- Whether the event is a key on which `strncmp` with "kind" over its length gives 0. -/
def Event.isKindKey : Event → Bool
  | .key k => keyIs k "kind"
  | _ => false

/-- What a handler call that returns can do to the state stack: nothing, a push of a state
other than `IN_START` and `IN_ERROR` (and other than `IN_OPTION_KIND` unless the event is a
key that matches "kind"), one `pop()` or two on a stack that holds as many states, or a
second `pop()` on the stack emptied by the first, which pushes `IN_ERROR`. -/
def StackStep (kindKey : Bool) (a b : List State) : Prop :=
  b = a ∨
    (∃ X, X ≠ State.IN_START ∧ X ≠ State.IN_ERROR ∧
      (X = State.IN_OPTION_KIND → kindKey = true) ∧ b = X :: a) ∨
    (∃ X, a = X :: b) ∨ (∃ X Y, a = X :: Y :: b) ∨ (∃ X, a = [X] ∧ b = [State.IN_ERROR])

end o2.framework

namespace o2.framework

/-- What a handler call that returns can do to the nodes: nothing, the append of a new
DataProcessorSpec, or an update of the last node that keeps its outputs or appends one
OutputSpec without metadata to them. -/
def NodesStep (a b : List DataProcessorSpec) : Prop :=
  b = a ∨ b = a ++ [({} : DataProcessorSpec)] ∨
    ∃ dps p q, a = dps ++ [p] ∧ b = dps ++ [q] ∧
      (q.outputs = p.outputs ∨ ∃ o : OutputSpec, o.metadata = [] ∧ q.outputs = p.outputs ++ [o])

/-- No output of the nodes carries metadata. -/
def NoOutputMetadata (nodes : List DataProcessorSpec) : Prop :=
  ∀ p ∈ nodes, ∀ o ∈ p.outputs, o.metadata = []

end o2.framework

namespace o2.framework
open WorkflowSerializationHelpers WorkflowImporter

/-! ## Lemmas on vectors and on `run` -/

theorem modifyBack_concat {α : Type} (f : α → α) (xs : List α) (x : α) :
    modifyBack f (xs ++ [x]) = some (xs ++ [f x]) := by
  simp [modifyBack]

theorem run_append (E : Env) (a b : List Event) (st : WorkflowImporter) :
    run E (a ++ b) st = match run E a st with
      | .ok s => run E b s
      | .error e => .error e := by
  induction a generalizing st with
  | nil => simp [run]
  | cons e rest ih =>
    simp only [List.cons_append, run]
    cases h : st.handle E e with
    | error f => simp
    | ok next => simp [ih]

theorem run_append_ok (E : Env) (a b : List Event) (st s : WorkflowImporter)
    (h : run E a st = .ok s) : run E (a ++ b) st = run E b s := by
  rw [run_append, h]

theorem setStates_of_states (st : WorkflowImporter) (S : List State) (h : st.states = S) :
    st.setStates S = st := by
  cases st
  simp only [setStates] at *
  simp [h]

@[simp] theorem view_setStates (d : WorkflowImporter) (S : List State) :
    (d.setStates S).view = d.view := rfl

@[simp] theorem states_setStates (d : WorkflowImporter) (S : List State) :
    (d.setStates S).states = S := rfl

@[simp] theorem saxEvents_nil : saxEvents [] = [] := rfl

@[simp] theorem saxEvents_cons (c : WriterCall) (cs : List WriterCall) :
    saxEvents (c :: cs) = sax c :: saxEvents cs := rfl

@[simp] theorem saxEvents_append (a b : List WriterCall) :
    saxEvents (a ++ b) = saxEvents a ++ saxEvents b := by
  simp [saxEvents]

theorem saxEvents_flatMap {α : Type} (xs : List α) (f : α → List WriterCall) :
    saxEvents (xs.flatMap f) = xs.flatMap (fun x => saxEvents (f x)) := by
  induction xs with
  | nil => rfl
  | cons x xs ih => simp [List.flatMap_cons, ih]

theorem readableDefault_decode (E : Env) (t : VariantType) (text : String)
    (h : readableDefault E t text = true) :
    decodeDefault E t text = .ok (importedDefault E t text) := by
  unfold readableDefault at h
  unfold importedDefault
  split at h
  · next v hv => simp [hv]
  · simp at h

/-- Elements that leave the state stack as they find it: the importer after all of them. -/
theorem run_flatMap_stable (E : Env) {α : Type} (elem : α → List Event) (S : List State)
    (I : WorkflowImporter → Prop) (step : α → View → View) (ok : α → Prop)
    (hI : ∀ (d : WorkflowImporter) (S : List State), I d → I (d.setStates S))
    (helem : ∀ (x : α) (d : WorkflowImporter), ok x → I d →
      ∃ st, run E (elem x) (d.setStates S) = .ok st ∧ st.states = S ∧
        st.view = step x d.view ∧ I st) :
    ∀ (xs : List α) (d : WorkflowImporter), (∀ x ∈ xs, ok x) → I d →
      ∃ st, run E (xs.flatMap elem) (d.setStates S) = .ok st ∧ st.states = S ∧
        st.view = xs.foldl (fun v x => step x v) d.view ∧ I st := by
  intro xs
  induction xs with
  | nil =>
    intro d _ hd
    exact ⟨d.setStates S, by simp [run], rfl, rfl, hI d S hd⟩
  | cons x xs ih =>
    intro d hok hI
    obtain ⟨st1, h1, hs1, hv1, hI1⟩ := helem x d (hok x (List.mem_cons_self _ _)) hI
    obtain ⟨st2, h2, hs2, hv2, hI2⟩ :=
      ih st1 (fun y hy => hok y (List.mem_cons_of_mem _ hy)) hI1
    rw [setStates_of_states st1 S hs1] at h2
    refine ⟨st2, ?_, hs2, ?_, hI2⟩
    · rw [List.flatMap_cons, run_append_ok E _ _ _ _ h1, h2]
    · rw [hv2, hv1, List.foldl_cons]

/-- An array whose first element is read in the state that `StartArray` pushed and whose
later elements are read in the state of the array: the importer after `EndArray`. -/
theorem run_array (E : Env) {α : Type} (elem : α → List Event) (A B : State)
    (r : List State) (I : WorkflowImporter → Prop) (step : α → View → View) (ok : α → Prop)
    (hIS : ∀ (d : WorkflowImporter) (S : List State), I d → I (d.setStates S))
    (hEndA : ∀ d : WorkflowImporter,
      EndArray (d.setStates (A :: B :: r)) = .ok (d.setStates r))
    (hEndB : ∀ d : WorkflowImporter, EndArray (d.setStates (B :: r)) = .ok (d.setStates r))
    (hfirst : ∀ (x : α) (d : WorkflowImporter), ok x → I d →
      ∃ st, run E (elem x) (d.setStates (A :: B :: r)) = .ok st ∧ st.states = B :: r ∧
        st.view = step x d.view ∧ I st)
    (hnext : ∀ (x : α) (d : WorkflowImporter), ok x → I d →
      ∃ st, run E (elem x) (d.setStates (B :: r)) = .ok st ∧ st.states = B :: r ∧
        st.view = step x d.view ∧ I st)
    (xs : List α) (d : WorkflowImporter) (hok : ∀ x ∈ xs, ok x) (hI : I d) :
    ∃ st, run E (xs.flatMap elem ++ [.endArray]) (d.setStates (A :: B :: r)) = .ok st ∧
      st.states = r ∧ st.view = xs.foldl (fun v x => step x v) d.view ∧ I st := by
  cases xs with
  | nil =>
    refine ⟨d.setStates r, ?_, rfl, rfl, hIS d r hI⟩
    simp [run, handle, hEndA]
  | cons x xs =>
    obtain ⟨st1, h1, hs1, hv1, hI1⟩ := hfirst x d (hok x (List.mem_cons_self _ _)) hI
    obtain ⟨st2, h2, hs2, hv2, hI2⟩ :=
      run_flatMap_stable E elem (B :: r) I step ok hIS hnext xs st1
        (fun y hy => hok y (List.mem_cons_of_mem _ hy)) hI1
    rw [setStates_of_states st1 _ hs1] at h2
    refine ⟨st2.setStates r, ?_, rfl, ?_, hIS st2 r hI2⟩
    · rw [List.flatMap_cons, List.append_assoc, run_append_ok E _ _ _ _ h1,
        run_append_ok E _ _ _ _ h2]
      have := hEndB st2
      rw [setStates_of_states st2 _ hs2] at this
      simp [run, handle, this]
    · rw [view_setStates, hv2, hv1, List.foldl_cons]

end o2.framework

namespace o2.framework
open WorkflowSerializationHelpers WorkflowImporter

theorem updateBack_concat {α : Type} (f : α → α) (xs : List α) (x : α) :
    updateBack f (xs ++ [x]) = xs ++ [f x] := by
  simp [updateBack, modifyBack_concat]

/-! ## Options -/

theorem wfMetadataOption_elim (E : Env) (o : ConfigParamSpec) (h : wfMetadataOption E o = true) :
    E.stoi (cstr (E.to_string o.type.val)) = some o.type.val ∧
      decodeDefault E o.type (metadataDefaultText E o)
        = .ok (importedDefault E o.type (metadataDefaultText E o)) := by
  simp only [wfMetadataOption, Bool.and_eq_true, decide_eq_true_eq] at h
  exact ⟨h.1, readableDefault_decode E _ _ h.2⟩

theorem wfOption_elim (E : Env) (o : ConfigParamSpec) (h : wfOption E o = true) :
    E.stoi (cstr (E.to_string o.type.val)) = some o.type.val ∧
      E.stoi (cstr (E.to_string o.kind)) = some o.kind ∧
      decodeDefault E o.type (optionDefaultText E o)
        = .ok (importedDefault E o.type (optionDefaultText E o)) := by
  simp only [wfOption, Bool.and_eq_true, decide_eq_true_eq] at h
  exact ⟨h.1.1, h.1.2, readableDefault_decode E _ _ h.2⟩

theorem saxEvents_dumpMetadataOption (E : Env) (o : ConfigParamSpec) :
    saxEvents (dumpMetadataOption E o) =
      [.startObject, .key "name", .string (cstr o.name), .key "type",
       .string (cstr (E.to_string o.type.val)), .key "defaultValue",
       .string (metadataDefaultText E o), .key "help", .string (cstr o.help), .endObject] := rfl

theorem inputOption_first (E : Env) (r : List State) (o : ConfigParamSpec)
    (d : WorkflowImporter) (h : wfMetadataOption E o = true) :
    ∃ st, run E (saxEvents (dumpMetadataOption E o))
        (d.setStates (.IN_OPTION :: .IN_INPUT_OPTIONS :: r)) = .ok st ∧
      st.states = .IN_INPUT_OPTIONS :: r ∧ st.view = stepInputOption E o d.view ∧
      st.binding = d.binding ∧ st.lifetime = d.lifetime := by
  obtain ⟨ht, hd⟩ := wfMetadataOption_elim E o h
  rw [saxEvents_dumpMetadataOption]
  simp +decide [run, handle, Key, StartObject, EndObject, String_, «in», setStates, push, pop,
    ht, hd, previousIs, view, stepInputOption, importedMetadataOption]

theorem inputOption_next (E : Env) (r : List State) (o : ConfigParamSpec)
    (d : WorkflowImporter) (h : wfMetadataOption E o = true) :
    ∃ st, run E (saxEvents (dumpMetadataOption E o))
        (d.setStates (.IN_INPUT_OPTIONS :: r)) = .ok st ∧
      st.states = .IN_INPUT_OPTIONS :: r ∧ st.view = stepInputOption E o d.view ∧
      st.binding = d.binding ∧ st.lifetime = d.lifetime := by
  obtain ⟨ht, hd⟩ := wfMetadataOption_elim E o h
  rw [saxEvents_dumpMetadataOption]
  simp +decide [run, handle, Key, StartObject, EndObject, String_, «in», setStates, push, pop,
    ht, hd, previousIs, view, stepInputOption, importedMetadataOption]

theorem outputOption_first (E : Env) (r : List State) (o : ConfigParamSpec)
    (d : WorkflowImporter) (h : wfMetadataOption E o = true) :
    ∃ st, run E (saxEvents (dumpMetadataOption E o))
        (d.setStates (.IN_OPTION :: .IN_OUTPUT_OPTIONS :: r)) = .ok st ∧
      st.states = .IN_OUTPUT_OPTIONS :: r ∧ st.view = d.view ∧
      st.outputHasSubSpec = d.outputHasSubSpec ∧ st.binding = d.binding ∧
      st.origin = d.origin ∧ st.description = d.description ∧ st.subspec = d.subspec ∧
      st.lifetime = d.lifetime := by
  obtain ⟨ht, hd⟩ := wfMetadataOption_elim E o h
  rw [saxEvents_dumpMetadataOption]
  simp +decide [run, handle, Key, StartObject, EndObject, String_, «in», setStates, push, pop,
    ht, hd, previousIs, view]

theorem outputOption_next (E : Env) (r : List State) (o : ConfigParamSpec)
    (d : WorkflowImporter) (h : wfMetadataOption E o = true) :
    ∃ st, run E (saxEvents (dumpMetadataOption E o))
        (d.setStates (.IN_OUTPUT_OPTIONS :: r)) = .ok st ∧
      st.states = .IN_OUTPUT_OPTIONS :: r ∧ st.view = d.view ∧
      st.outputHasSubSpec = d.outputHasSubSpec ∧ st.binding = d.binding ∧
      st.origin = d.origin ∧ st.description = d.description ∧ st.subspec = d.subspec ∧
      st.lifetime = d.lifetime := by
  obtain ⟨ht, hd⟩ := wfMetadataOption_elim E o h
  rw [saxEvents_dumpMetadataOption]
  simp +decide [run, handle, Key, StartObject, EndObject, String_, «in», setStates, push, pop,
    ht, hd, previousIs, view]

theorem workflowOption_first (E : Env) (r : List State) (o : ConfigParamSpec)
    (d : WorkflowImporter) (h : wfMetadataOption E o = true)
    (hm : ∃ ms m, d.metadata = ms ++ [m]) :
    ∃ st, run E (saxEvents (dumpMetadataOption E o))
        (d.setStates (.IN_OPTION :: .IN_WORKFLOW_OPTIONS :: r)) = .ok st ∧
      st.states = .IN_WORKFLOW_OPTIONS :: r ∧ st.view = stepWorkflowOption E o d.view ∧
      ∃ ms m, st.metadata = ms ++ [m] := by
  obtain ⟨ht, hd⟩ := wfMetadataOption_elim E o h
  obtain ⟨ms, m, hm⟩ := hm
  rw [saxEvents_dumpMetadataOption]
  simp +decide [run, handle, Key, StartObject, EndObject, String_, «in», setStates, push, pop,
    ht, hd, previousIs, view, stepWorkflowOption, importedMetadataOption, onBackMetadata, hm,
    modifyBack_concat, updateBack_concat]
  exact ⟨_, _, rfl⟩

theorem workflowOption_next (E : Env) (r : List State) (o : ConfigParamSpec)
    (d : WorkflowImporter) (h : wfMetadataOption E o = true)
    (hm : ∃ ms m, d.metadata = ms ++ [m]) :
    ∃ st, run E (saxEvents (dumpMetadataOption E o))
        (d.setStates (.IN_WORKFLOW_OPTIONS :: r)) = .ok st ∧
      st.states = .IN_WORKFLOW_OPTIONS :: r ∧ st.view = stepWorkflowOption E o d.view ∧
      ∃ ms m, st.metadata = ms ++ [m] := by
  obtain ⟨ht, hd⟩ := wfMetadataOption_elim E o h
  obtain ⟨ms, m, hm⟩ := hm
  rw [saxEvents_dumpMetadataOption]
  simp +decide [run, handle, Key, StartObject, EndObject, String_, «in», setStates, push, pop,
    ht, hd, previousIs, view, stepWorkflowOption, importedMetadataOption, onBackMetadata, hm,
    modifyBack_concat, updateBack_concat]
  exact ⟨_, _, rfl⟩

/-- The object that `dump` writes for an option of a node that it does not leave out. -/
theorem saxEvents_dumpOption (E : Env) (o : ConfigParamSpec)
    (h : isEnumerationOption o.name = false) :
    saxEvents (dumpOption E o) =
      [.startObject, .key "name", .string (cstr o.name), .key "type",
       .string (cstr (E.to_string o.type.val)), .key "defaultValue",
       .string (optionDefaultText E o), .key "help", .string (cstr o.help),
       .key "kind", .string (cstr (E.to_string o.kind)), .endObject] := by
  simp [dumpOption, h, sax, optionDefaultText]

theorem option_first (E : Env) (r : List State) (o : ConfigParamSpec)
    (d : WorkflowImporter)
    (h : isEnumerationOption o.name = false ∧ wfOption E o = true)
    (hp : ∃ dps p, d.dataProcessors = dps ++ [p]) :
    ∃ st, run E (saxEvents (dumpOption E o))
        (d.setStates (.IN_OPTION :: .IN_OPTIONS :: r)) = .ok st ∧
      st.states = .IN_OPTIONS :: r ∧ st.view = stepOption E o d.view ∧
      ∃ dps p, st.dataProcessors = dps ++ [p] := by
  obtain ⟨ht, hk, hd⟩ := wfOption_elim E o h.2
  obtain ⟨dps, p, hp⟩ := hp
  rw [saxEvents_dumpOption E o h.1]
  simp +decide [run, handle, Key, StartObject, EndObject, String_, «in», setStates, push, pop,
    ht, hk, hd, previousIs, view, stepOption, importedOption, onBackProcessor, hp,
    modifyBack_concat, updateBack_concat]
  exact ⟨_, _, rfl⟩

theorem option_next (E : Env) (r : List State) (o : ConfigParamSpec)
    (d : WorkflowImporter)
    (h : isEnumerationOption o.name = false ∧ wfOption E o = true)
    (hp : ∃ dps p, d.dataProcessors = dps ++ [p]) :
    ∃ st, run E (saxEvents (dumpOption E o))
        (d.setStates (.IN_OPTIONS :: r)) = .ok st ∧
      st.states = .IN_OPTIONS :: r ∧ st.view = stepOption E o d.view ∧
      ∃ dps p, st.dataProcessors = dps ++ [p] := by
  obtain ⟨ht, hk, hd⟩ := wfOption_elim E o h.2
  obtain ⟨dps, p, hp⟩ := hp
  rw [saxEvents_dumpOption E o h.1]
  simp +decide [run, handle, Key, StartObject, EndObject, String_, «in», setStates, push, pop,
    ht, hk, hd, previousIs, view, stepOption, importedOption, onBackProcessor, hp,
    modifyBack_concat, updateBack_concat]
  exact ⟨_, _, rfl⟩

theorem foldl_stepInputOption (E : Env) (opts : List ConfigParamSpec) (v : View) :
    opts.foldl (fun v o => stepInputOption E o v) v =
      { v with inputOptions :=
          v.inputOptions ++ opts.map (importedMetadataOption E v.optionKind) } := by
  induction opts generalizing v with
  | nil => simp
  | cons o opts ih =>
    rw [List.foldl_cons, ih]
    simp [stepInputOption]

theorem foldl_stepWorkflowOption (E : Env) (opts : List ConfigParamSpec) (v : View)
    (ms : List DataProcessorInfo) (m : DataProcessorInfo) (hm : v.metadata = ms ++ [m]) :
    opts.foldl (fun v o => stepWorkflowOption E o v) v =
      { v with
        metadata := ms ++ [
          { m with
            workflowOptions :=
              m.workflowOptions ++ opts.map (importedMetadataOption E v.optionKind) }] } := by
  induction opts generalizing v m with
  | nil => simp [← hm]
  | cons o opts ih =>
    rw [List.foldl_cons, ih (stepWorkflowOption E o v)
      { m with workflowOptions := m.workflowOptions ++ [importedMetadataOption E v.optionKind o] }
      (by simp only [stepWorkflowOption, hm, updateBack_concat])]
    simp [stepWorkflowOption]

theorem foldl_stepOption (E : Env) (opts : List ConfigParamSpec) (v : View)
    (dps : List DataProcessorSpec) (p : DataProcessorSpec) (hp : v.dataProcessors = dps ++ [p]) :
    opts.foldl (fun v o => stepOption E o v) v =
      { v with
        dataProcessors := dps ++ [{ p with options := p.options ++ opts.map (importedOption E) }]
        optionKind := match opts.getLast? with
          | some o => o.kind
          | none => v.optionKind } := by
  induction opts generalizing v p with
  | nil => simp [← hp]
  | cons o opts ih =>
    rw [List.foldl_cons, ih (stepOption E o v)
      { p with options := p.options ++ [importedOption E o] }
      (by simp only [stepOption, hp, updateBack_concat])]
    cases opts with
    | nil => simp [stepOption]
    | cons o2 opts =>
      obtain ⟨x, hx⟩ : ∃ x, (o2 :: opts).getLast? = some x :=
        ⟨_, List.getLast?_eq_getLast _ (by simp)⟩
      simp [stepOption, List.getLast?_cons_cons, hx]

/-- The `metadata` array of an input. -/
theorem inputOptions_array (E : Env) (r : List State) (opts : List ConfigParamSpec)
    (d : WorkflowImporter) (h : ∀ o ∈ opts, wfMetadataOption E o = true) :
    ∃ st, run E (saxEvents ([.key "metadata", .startArray]
          ++ opts.flatMap (dumpMetadataOption E) ++ [.endArray]))
        (d.setStates (.IN_INPUT :: r)) = .ok st ∧
      st.states = .IN_INPUT :: r ∧
      st.view = { d.view with inputOptions :=
          d.view.inputOptions ++ opts.map (importedMetadataOption E d.view.optionKind) } ∧
      st.binding = d.binding ∧ st.lifetime = d.lifetime := by
  obtain ⟨st, h1, h2, h3, h4⟩ := run_array E (fun o => saxEvents (dumpMetadataOption E o))
    .IN_OPTION .IN_INPUT_OPTIONS (.IN_INPUT :: r)
    (fun s => s.binding = d.binding ∧ s.lifetime = d.lifetime)
    (fun o v => stepInputOption E o v) (fun o => wfMetadataOption E o = true)
    (fun _ _ hI => hI) (fun _ => rfl) (fun _ => rfl)
    (fun o s ho hI => by
      obtain ⟨st, a, b, c, e, f⟩ := inputOption_first E (.IN_INPUT :: r) o s ho
      exact ⟨st, a, b, c, e.trans hI.1, f.trans hI.2⟩)
    (fun o s ho hI => by
      obtain ⟨st, a, b, c, e, f⟩ := inputOption_next E (.IN_INPUT :: r) o s ho
      exact ⟨st, a, b, c, e.trans hI.1, f.trans hI.2⟩)
    opts d h ⟨rfl, rfl⟩
  refine ⟨st, ?_, h2, ?_, h4⟩
  · simp only [saxEvents_append, saxEvents_cons, saxEvents_nil, sax, saxEvents_flatMap,
      List.cons_append, List.nil_append, List.append_assoc]
    rw [← h1]
    rfl
  · rw [h3, foldl_stepInputOption]

end o2.framework

namespace o2.framework
open WorkflowSerializationHelpers WorkflowImporter

/-- The `metadata` array of an output: nothing of it reaches the view. -/
theorem outputOptions_array (E : Env) (r : List State) (opts : List ConfigParamSpec)
    (d : WorkflowImporter) (h : ∀ o ∈ opts, wfMetadataOption E o = true) :
    ∃ st, run E (saxEvents ([.key "metadata", .startArray]
          ++ opts.flatMap (dumpMetadataOption E) ++ [.endArray]))
        (d.setStates (.IN_OUTPUT :: r)) = .ok st ∧
      st.states = .IN_OUTPUT :: r ∧ st.view = d.view ∧
      st.outputHasSubSpec = d.outputHasSubSpec ∧ st.binding = d.binding ∧
      st.origin = d.origin ∧ st.description = d.description ∧ st.subspec = d.subspec ∧
      st.lifetime = d.lifetime := by
  obtain ⟨st, h1, h2, h3, h4⟩ := run_array E (fun o => saxEvents (dumpMetadataOption E o))
    .IN_OPTION .IN_OUTPUT_OPTIONS (.IN_OUTPUT :: r)
    (fun s => s.outputHasSubSpec = d.outputHasSubSpec ∧ s.binding = d.binding ∧
      s.origin = d.origin ∧ s.description = d.description ∧ s.subspec = d.subspec ∧
      s.lifetime = d.lifetime)
    (fun _ v => v) (fun o => wfMetadataOption E o = true)
    (fun _ _ hI => hI) (fun _ => rfl) (fun _ => rfl)
    (fun o s ho hI => by
      obtain ⟨st, a, b, c, e1, e2, e3, e4, e5, e6⟩ :=
        outputOption_first E (.IN_OUTPUT :: r) o s ho
      exact ⟨st, a, b, c, e1.trans hI.1, e2.trans hI.2.1, e3.trans hI.2.2.1,
        e4.trans hI.2.2.2.1, e5.trans hI.2.2.2.2.1, e6.trans hI.2.2.2.2.2⟩)
    (fun o s ho hI => by
      obtain ⟨st, a, b, c, e1, e2, e3, e4, e5, e6⟩ :=
        outputOption_next E (.IN_OUTPUT :: r) o s ho
      exact ⟨st, a, b, c, e1.trans hI.1, e2.trans hI.2.1, e3.trans hI.2.2.1,
        e4.trans hI.2.2.2.1, e5.trans hI.2.2.2.2.1, e6.trans hI.2.2.2.2.2⟩)
    opts d h ⟨rfl, rfl, rfl, rfl, rfl, rfl⟩
  refine ⟨st, ?_, h2, ?_, h4⟩
  · simp only [saxEvents_append, saxEvents_cons, saxEvents_nil, sax, saxEvents_flatMap,
      List.cons_append, List.nil_append, List.append_assoc]
    rw [← h1]
    rfl
  · rw [h3]
    clear h1 h3 h4
    induction opts generalizing d with
    | nil => rfl
    | cons o opts ih => simp

/-- The `workflowOptions` array of an entry of the metadata. -/
theorem workflowOptions_array (E : Env) (r : List State) (opts : List ConfigParamSpec)
    (d : WorkflowImporter) (ms : List DataProcessorInfo) (m : DataProcessorInfo)
    (hm : d.metadata = ms ++ [m]) (h : ∀ o ∈ opts, wfMetadataOption E o = true) :
    ∃ st, run E (saxEvents ([.key "workflowOptions", .startArray]
          ++ opts.flatMap (dumpMetadataOption E) ++ [.endArray]))
        (d.setStates (.IN_METADATUM :: r)) = .ok st ∧
      st.states = .IN_METADATUM :: r ∧
      st.view = { d.view with
        metadata := ms ++ [
          { m with
            workflowOptions :=
              m.workflowOptions ++ opts.map (importedMetadataOption E d.view.optionKind) }] } := by
  obtain ⟨st, h1, h2, h3, _⟩ := run_array E (fun o => saxEvents (dumpMetadataOption E o))
    .IN_OPTION .IN_WORKFLOW_OPTIONS (.IN_METADATUM :: r)
    (fun s => ∃ ms m, s.metadata = ms ++ [m])
    (fun o v => stepWorkflowOption E o v) (fun o => wfMetadataOption E o = true)
    (fun _ _ hI => hI) (fun _ => rfl) (fun _ => rfl)
    (fun o s ho hI => workflowOption_first E (.IN_METADATUM :: r) o s ho hI)
    (fun o s ho hI => workflowOption_next E (.IN_METADATUM :: r) o s ho hI)
    opts d h ⟨ms, m, hm⟩
  refine ⟨st, ?_, h2, ?_⟩
  · simp only [saxEvents_append, saxEvents_cons, saxEvents_nil, sax, saxEvents_flatMap,
      List.cons_append, List.nil_append, List.append_assoc]
    rw [← h1]
    rfl
  · rw [h3, foldl_stepWorkflowOption E opts d.view ms m hm]

theorem flatMap_dumpOption (E : Env) (options : List ConfigParamSpec) :
    options.flatMap (dumpOption E) = (emittedOptions options).flatMap (dumpOption E) := by
  induction options with
  | nil => rfl
  | cons o options ih =>
    by_cases h : isEnumerationOption o.name = true
    · simp [emittedOptions, List.filter_cons, h, dumpOption] at ih ⊢
      exact ih
    · simp [emittedOptions, List.filter_cons, h] at ih ⊢
      exact ih

theorem emittedOptions_not_enumeration (options : List ConfigParamSpec) (o : ConfigParamSpec)
    (h : o ∈ emittedOptions options) : isEnumerationOption o.name = false := by
  simp only [emittedOptions, List.mem_filter] at h
  simpa using h.2

/-- The `options` array of a node. -/
theorem options_array (E : Env) (r : List State) (options : List ConfigParamSpec)
    (d : WorkflowImporter) (dps : List DataProcessorSpec) (p : DataProcessorSpec)
    (hp : d.dataProcessors = dps ++ [p])
    (h : ∀ o ∈ emittedOptions options, wfOption E o = true) :
    ∃ st, run E (saxEvents ([.key "options", .startArray]
          ++ options.flatMap (dumpOption E) ++ [.endArray]))
        (d.setStates (.IN_DATAPROCESSOR :: r)) = .ok st ∧
      st.states = .IN_DATAPROCESSOR :: r ∧
      st.view = { d.view with
        dataProcessors := dps ++ [
          { p with options := p.options ++ (emittedOptions options).map (importedOption E) }]
        optionKind := kindAfter d.view.optionKind options } := by
  obtain ⟨st, h1, h2, h3, _⟩ := run_array E (fun o => saxEvents (dumpOption E o))
    .IN_OPTION .IN_OPTIONS (.IN_DATAPROCESSOR :: r)
    (fun s => ∃ dps p, s.dataProcessors = dps ++ [p])
    (fun o v => stepOption E o v)
    (fun o => isEnumerationOption o.name = false ∧ wfOption E o = true)
    (fun _ _ hI => hI) (fun _ => rfl) (fun _ => rfl)
    (fun o s ho hI => option_first E (.IN_DATAPROCESSOR :: r) o s ho hI)
    (fun o s ho hI => option_next E (.IN_DATAPROCESSOR :: r) o s ho hI)
    (emittedOptions options) d
    (fun o ho => ⟨emittedOptions_not_enumeration options o ho, h o ho⟩) ⟨dps, p, hp⟩
  refine ⟨st, ?_, h2, ?_⟩
  · simp only [saxEvents_append, saxEvents_cons, saxEvents_nil, sax, saxEvents_flatMap,
      List.cons_append, List.nil_append, List.append_assoc, flatMap_dumpOption E options]
    rw [← h1]
    rfl
  · rw [h3, foldl_stepOption E _ d.view dps p hp]
    rfl

end o2.framework

namespace o2.framework
open WorkflowSerializationHelpers WorkflowImporter

/-! ## Arrays of strings -/

theorem labels_elems (E : Env) (r : List State) (dps : List DataProcessorSpec)
    (ls : List String) :
    ∀ (d : WorkflowImporter) (p : DataProcessorSpec), d.dataProcessors = dps ++ [p] →
      ∃ st, run E (ls.map (fun l => Event.string (cstr l))) (d.setStates (.IN_LABEL :: r))
          = .ok st ∧
        st.states = .IN_LABEL :: r ∧
        st.view = { d.view with
          dataProcessors := dps ++ [{ p with labels := p.labels ++ ls.map cstr }] } := by
  induction ls with
  | nil =>
    intro d p hp
    exact ⟨_, rfl, rfl, by simp [view, setStates, hp]⟩
  | cons l ls ih =>
    intro d p hp
    obtain ⟨st, h1, h2, h3⟩ :=
      ih ({ d with dataProcessors := dps ++ [{ p with labels := p.labels ++ [cstr l] }] })
        { p with labels := p.labels ++ [cstr l] } rfl
    refine ⟨st, ?_, h2, ?_⟩
    · rw [← h1]
      simp [run, handle, String_, «in», setStates, push, pop, onBackProcessor, hp,
        modifyBack_concat]
    · rw [h3]
      simp [view]

theorem labels_array (E : Env) (r : List State) (ls : List String) (d : WorkflowImporter)
    (dps : List DataProcessorSpec) (p : DataProcessorSpec)
    (hp : d.dataProcessors = dps ++ [p]) :
    ∃ st, run E (saxEvents ([.key "labels", .startArray]
          ++ ls.map (fun label => .string (cstr label)) ++ [.endArray]))
        (d.setStates (.IN_DATAPROCESSOR :: r)) = .ok st ∧
      st.states = .IN_DATAPROCESSOR :: r ∧
      st.view = { d.view with
        dataProcessors := dps ++ [{ p with labels := p.labels ++ ls.map cstr }] } := by
  obtain ⟨st, h1, h2, h3⟩ := labels_elems E (.IN_LABELS :: .IN_DATAPROCESSOR :: r) dps ls d p hp
  refine ⟨st.setStates (.IN_DATAPROCESSOR :: r), ?_, rfl, by rw [view_setStates, h3]⟩
  have hsax : saxEvents (ls.map (fun label => WriterCall.string (cstr label)))
      = ls.map (fun l => Event.string (cstr l)) := by
    simp [saxEvents, sax]
  simp only [saxEvents_append, saxEvents_cons, saxEvents_nil, sax, hsax,
    List.cons_append, List.nil_append]
  have h0 : run E [.key "labels", .startArray] (d.setStates (.IN_DATAPROCESSOR :: r))
      = .ok (d.setStates (.IN_LABEL :: .IN_LABELS :: .IN_DATAPROCESSOR :: r)) := rfl
  have h4 : run E [.endArray] st = .ok (st.setStates (.IN_DATAPROCESSOR :: r)) := by
    rw [← setStates_of_states st _ h2]
    rfl
  rw [show (Event.key "labels" :: Event.startArray ::
        (ls.map (fun l => Event.string (cstr l)) ++ [Event.endArray]))
      = [Event.key "labels", Event.startArray] ++
        (ls.map (fun l => Event.string (cstr l)) ++ [Event.endArray]) from rfl,
    run_append_ok E _ _ _ _ h0, run_append_ok E _ _ _ _ h1, h4]

theorem args_elems (E : Env) (r : List State) (ms : List DataProcessorInfo)
    (ls : List String) :
    ∀ (d : WorkflowImporter) (m : DataProcessorInfo), d.metadata = ms ++ [m] →
      ∃ st, run E (ls.map (fun l => Event.string (cstr l))) (d.setStates (.IN_METADATUM_ARG :: r))
          = .ok st ∧
        st.states = .IN_METADATUM_ARG :: r ∧
        st.view = { d.view with
          metadata := ms ++ [{ m with cmdLineArgs := m.cmdLineArgs ++ ls.map cstr }] } := by
  induction ls with
  | nil =>
    intro d m hp
    exact ⟨_, rfl, rfl, by simp [view, setStates, hp]⟩
  | cons l ls ih =>
    intro d m hp
    obtain ⟨st, h1, h2, h3⟩ :=
      ih ({ d with metadata := ms ++ [{ m with cmdLineArgs := m.cmdLineArgs ++ [cstr l] }] })
        { m with cmdLineArgs := m.cmdLineArgs ++ [cstr l] } rfl
    refine ⟨st, ?_, h2, ?_⟩
    · rw [← h1]
      simp [run, handle, String_, «in», setStates, push, pop, onBackMetadata, hp,
        modifyBack_concat]
    · rw [h3]
      simp [view]

theorem args_array (E : Env) (r : List State) (ls : List String) (d : WorkflowImporter)
    (ms : List DataProcessorInfo) (m : DataProcessorInfo)
    (hp : d.metadata = ms ++ [m]) :
    ∃ st, run E (saxEvents ([.key "cmdLineArgs", .startArray]
          ++ ls.map (fun label => .string (cstr label)) ++ [.endArray]))
        (d.setStates (.IN_METADATUM :: r)) = .ok st ∧
      st.states = .IN_METADATUM :: r ∧
      st.view = { d.view with
        metadata := ms ++ [{ m with cmdLineArgs := m.cmdLineArgs ++ ls.map cstr }] } := by
  obtain ⟨st, h1, h2, h3⟩ := args_elems E (.IN_METADATUM_ARGS :: .IN_METADATUM :: r) ms ls d m hp
  refine ⟨st.setStates (.IN_METADATUM :: r), ?_, rfl, by rw [view_setStates, h3]⟩
  have hsax : saxEvents (ls.map (fun label => WriterCall.string (cstr label)))
      = ls.map (fun l => Event.string (cstr l)) := by
    simp [saxEvents, sax]
  simp only [saxEvents_append, saxEvents_cons, saxEvents_nil, sax, hsax,
    List.cons_append, List.nil_append]
  have h0 : run E [.key "cmdLineArgs", .startArray] (d.setStates (.IN_METADATUM :: r))
      = .ok (d.setStates (.IN_METADATUM_ARG :: .IN_METADATUM_ARGS :: .IN_METADATUM :: r)) := rfl
  have h4 : run E [.endArray] st = .ok (st.setStates (.IN_METADATUM :: r)) := by
    rw [← setStates_of_states st _ h2]
    rfl
  rw [show (Event.key "cmdLineArgs" :: Event.startArray ::
        (ls.map (fun l => Event.string (cstr l)) ++ [Event.endArray]))
      = [Event.key "cmdLineArgs", Event.startArray] ++
        (ls.map (fun l => Event.string (cstr l)) ++ [Event.endArray]) from rfl,
    run_append_ok E _ _ _ _ h0, run_append_ok E _ _ _ _ h1, h4]

theorem channels_elems (E : Env) (r : List State) (ms : List DataProcessorInfo)
    (ls : List String) :
    ∀ (d : WorkflowImporter) (m : DataProcessorInfo), d.metadata = ms ++ [m] →
      ∃ st, run E (ls.map (fun l => Event.string (cstr l))) (d.setStates (.IN_METADATUM_CHANNEL :: r))
          = .ok st ∧
        st.states = .IN_METADATUM_CHANNEL :: r ∧
        st.view = { d.view with
          metadata := ms ++ [{ m with channels := m.channels ++ ls.map cstr }] } := by
  induction ls with
  | nil =>
    intro d m hp
    exact ⟨_, rfl, rfl, by simp [view, setStates, hp]⟩
  | cons l ls ih =>
    intro d m hp
    obtain ⟨st, h1, h2, h3⟩ :=
      ih ({ d with metadata := ms ++ [{ m with channels := m.channels ++ [cstr l] }] })
        { m with channels := m.channels ++ [cstr l] } rfl
    refine ⟨st, ?_, h2, ?_⟩
    · rw [← h1]
      simp [run, handle, String_, «in», setStates, push, pop, onBackMetadata, hp,
        modifyBack_concat]
    · rw [h3]
      simp [view]

theorem channels_array (E : Env) (r : List State) (ls : List String) (d : WorkflowImporter)
    (ms : List DataProcessorInfo) (m : DataProcessorInfo)
    (hp : d.metadata = ms ++ [m]) :
    ∃ st, run E (saxEvents ([.key "channels", .startArray]
          ++ ls.map (fun label => .string (cstr label)) ++ [.endArray]))
        (d.setStates (.IN_METADATUM :: r)) = .ok st ∧
      st.states = .IN_METADATUM :: r ∧
      st.view = { d.view with
        metadata := ms ++ [{ m with channels := m.channels ++ ls.map cstr }] } := by
  obtain ⟨st, h1, h2, h3⟩ := channels_elems E (.IN_METADATUM_CHANNELS :: .IN_METADATUM :: r) ms ls d m hp
  refine ⟨st.setStates (.IN_METADATUM :: r), ?_, rfl, by rw [view_setStates, h3]⟩
  have hsax : saxEvents (ls.map (fun label => WriterCall.string (cstr label)))
      = ls.map (fun l => Event.string (cstr l)) := by
    simp [saxEvents, sax]
  simp only [saxEvents_append, saxEvents_cons, saxEvents_nil, sax, hsax,
    List.cons_append, List.nil_append]
  have h0 : run E [.key "channels", .startArray] (d.setStates (.IN_METADATUM :: r))
      = .ok (d.setStates (.IN_METADATUM_CHANNEL :: .IN_METADATUM_CHANNELS :: .IN_METADATUM :: r)) := rfl
  have h4 : run E [.endArray] st = .ok (st.setStates (.IN_METADATUM :: r)) := by
    rw [← setStates_of_states st _ h2]
    rfl
  rw [show (Event.key "channels" :: Event.startArray ::
        (ls.map (fun l => Event.string (cstr l)) ++ [Event.endArray]))
      = [Event.key "channels", Event.startArray] ++
        (ls.map (fun l => Event.string (cstr l)) ++ [Event.endArray]) from rfl,
    run_append_ok E _ _ _ _ h0, run_append_ok E _ _ _ _ h1, h4]

end o2.framework

namespace o2.framework
open WorkflowSerializationHelpers WorkflowImporter

/-! ## Inputs -/

/-- The calls of an input up to its lifetime, after `StartObject`. -/
theorem input_head (E : Env) (r : List State) (i : InputSpec) (d : WorkflowImporter)
    (hn : d.inputMatcherNodes = [])
    (hs : ∀ s, E.getOptionalSubSpec i = some s → s < 2 ^ 32) :
    ∃ st, run E (saxEvents (dumpInputHead E i)) (d.setStates (.IN_INPUT :: r)) = .ok st ∧
      st.states = .IN_INPUT :: r ∧ st.binding = cstr i.binding ∧ st.lifetime = i.lifetime ∧
      st.view = { d.view with inputMatcherNodes := inputLeaves E i } := by
  unfold dumpInputHead
  cases h3 : E.getOptionalSubSpec i with
  | none =>
    cases h1 : E.getOptionalOrigin i <;> cases h2 : E.getOptionalDescription i <;>
      simp +decide [run, handle, Key, String_, Uint, «in», setStates, push, pop, sax, view,
        inputLeaves, h1, h2, h3, hn]
  | some s =>
    have hlt : s < 4294967296 := hs s h3
    cases h1 : E.getOptionalOrigin i <;> cases h2 : E.getOptionalDescription i <;>
      simp +decide [run, handle, Key, String_, Uint, «in», setStates, push, pop, sax, view,
        inputLeaves, h1, h2, h3, hn, hlt]

theorem endObject_input (E : Env) (st : WorkflowImporter) (r : List State)
    (dps : List DataProcessorSpec) (p : DataProcessorSpec)
    (hs : st.states = .IN_INPUT :: r) (hp : st.dataProcessors = dps ++ [p]) :
    ∃ st2, run E [.endObject] st = .ok st2 ∧ st2.states = r ∧
      st2.view = { st.view with
        dataProcessors := dps ++ [
          { p with
            inputs := p.inputs ++
              [makeInputSpec st.binding st.inputMatcherNodes st.lifetime st.inputOptions] }]
        inputMatcherNodes := []
        inputOptions := [] } := by
  rw [← setStates_of_states st _ hs]
  simp [run, handle, EndObject, «in», setStates, pop, onBackProcessor, hp, modifyBack_concat,
    view]

theorem dumpInput_eq (E : Env) (i : InputSpec) :
    dumpInput E i = [.startObject] ++
      (dumpInputHead E i ++ (dumpMetadataArray E i.metadata ++ [.endObject])) := by
  simp [dumpInput, dumpInputHead, dumpMetadataArray]

theorem wfInput_elim (E : Env) (i : InputSpec) (h : wfInput E i = true) :
    (∀ s, E.getOptionalSubSpec i = some s → s < 2 ^ 32) ∧
      ∀ o ∈ i.metadata, wfMetadataOption E o = true := by
  simp only [wfInput, Bool.and_eq_true, List.all_eq_true] at h
  refine ⟨fun s hs => ?_, h.2⟩
  have := h.1
  rw [hs] at this
  simpa using this

/-- An input object, after `StartObject`. -/
theorem input_body (E : Env) (r : List State) (i : InputSpec) (d : WorkflowImporter)
    (hwf : wfInput E i = true) (hI : InputsInv d) :
    ∃ st, run E (saxEvents (dumpInput E i)).tail (d.setStates (.IN_INPUT :: .IN_INPUTS :: r))
        = .ok st ∧
      st.states = .IN_INPUTS :: r ∧ st.view = stepInput E i d.view ∧ InputsInv st := by
  obtain ⟨hn, ho, dps, p, hp⟩ := hI
  obtain ⟨hsub, hopts⟩ := wfInput_elim E i hwf
  obtain ⟨st1, h1, hs1, hb1, hl1, hv1⟩ := input_head E (.IN_INPUTS :: r) i d hn hsub
  have hmeta : ∃ st2, run E (saxEvents (dumpMetadataArray E i.metadata)) st1 = .ok st2 ∧ st2.states = .IN_INPUT :: .IN_INPUTS :: r ∧
        st2.view = { st1.view with inputOptions :=
          st1.view.inputOptions ++ i.metadata.map (importedMetadataOption E st1.view.optionKind) } ∧
        st2.binding = st1.binding ∧ st2.lifetime = st1.lifetime := by
    unfold dumpMetadataArray
    by_cases hem : i.metadata.isEmpty = false
    · rw [if_pos hem]
      have := inputOptions_array E (.IN_INPUTS :: r) i.metadata st1 hopts
      rw [setStates_of_states st1 _ hs1] at this
      exact this
    · rw [if_neg hem]
      have hnil : i.metadata = [] := by
        cases hm : i.metadata with
        | nil => rfl
        | cons a b => simp [hm] at hem
      exact ⟨st1, rfl, hs1, by simp [hnil], rfl, rfl⟩
  obtain ⟨st2, h2, hs2, hv2, hb2, hl2⟩ := hmeta
  have hp2 : st2.dataProcessors = dps ++ [p] := by
    have : st2.view.dataProcessors = dps ++ [p] := by rw [hv2, hv1]; exact hp
    exact this
  obtain ⟨st3, h3, hs3, hv3⟩ := endObject_input E st2 (.IN_INPUTS :: r) dps p hs2 hp2
  refine ⟨st3, ?_, hs3, ?_, ?_⟩
  · rw [dumpInput_eq]
    rw [saxEvents_append, saxEvents_append, saxEvents_append]
    simp only [saxEvents_cons, saxEvents_nil, List.singleton_append, List.tail_cons]
    rw [run_append_ok E _ _ _ _ h1, run_append_ok E _ _ _ _ h2]
    exact h3
  · have e1 : st2.inputMatcherNodes = inputLeaves E i := by
      have : st2.view.inputMatcherNodes = inputLeaves E i := by rw [hv2, hv1]
      exact this
    have e2 : st2.inputOptions
        = i.metadata.map (importedMetadataOption E d.optionKind) := by
      have : st2.view.inputOptions
          = d.inputOptions ++ i.metadata.map (importedMetadataOption E d.optionKind) := by
        rw [hv2, hv1]; rfl
      rw [ho] at this
      simpa using this
    rw [hv3, e1, e2, hb2, hb1, hl2, hl1, hv2, hv1]
    simp [stepInput, view, hp, updateBack_concat, importedInput, hn, ho]
  · refine ⟨?_, ?_, ?_⟩
    · have : st3.view.inputMatcherNodes = [] := by rw [hv3]
      exact this
    · have : st3.view.inputOptions = [] := by rw [hv3]
      exact this
    · exact ⟨dps, _, congrArg View.dataProcessors hv3⟩

end o2.framework

namespace o2.framework
open WorkflowSerializationHelpers WorkflowImporter

theorem saxEvents_dumpInput (E : Env) (i : InputSpec) :
    saxEvents (dumpInput E i) = .startObject :: (saxEvents (dumpInput E i)).tail := by
  rw [dumpInput_eq]
  rfl

theorem foldl_stepInput (E : Env) (inputs : List InputSpec) (v : View)
    (dps : List DataProcessorSpec) (p : DataProcessorSpec) (hp : v.dataProcessors = dps ++ [p]) :
    inputs.foldl (fun v i => stepInput E i v) v =
      { v with
        dataProcessors := dps ++ [
          { p with inputs := p.inputs ++ inputs.map (importedInput E v.optionKind) }] } := by
  induction inputs generalizing v p with
  | nil => simp [← hp]
  | cons i inputs ih =>
    rw [List.foldl_cons, ih (stepInput E i v)
      { p with inputs := p.inputs ++ [importedInput E v.optionKind i] }
      (by simp only [stepInput, hp, updateBack_concat])]
    simp [stepInput]

/-- The `inputs` array of a node. -/
theorem inputs_array (E : Env) (r : List State) (inputs : List InputSpec)
    (d : WorkflowImporter) (dps : List DataProcessorSpec) (p : DataProcessorSpec)
    (hn : d.inputMatcherNodes = []) (ho : d.inputOptions = [])
    (hp : d.dataProcessors = dps ++ [p]) (h : ∀ i ∈ inputs, wfInput E i = true) :
    ∃ st, run E (saxEvents ([.key "inputs", .startArray]
          ++ inputs.flatMap (dumpInput E) ++ [.endArray]))
        (d.setStates (.IN_DATAPROCESSOR :: r)) = .ok st ∧
      st.states = .IN_DATAPROCESSOR :: r ∧
      st.view = { d.view with
        dataProcessors := dps ++ [
          { p with inputs := p.inputs ++ inputs.map (importedInput E d.view.optionKind) }] } := by
  obtain ⟨st, h1, h2, h3, _⟩ := run_array E (fun i => saxEvents (dumpInput E i))
    .IN_INPUT .IN_INPUTS (.IN_DATAPROCESSOR :: r) InputsInv
    (fun i v => stepInput E i v) (fun i => wfInput E i = true)
    (fun _ _ hI => hI) (fun _ => rfl) (fun _ => rfl)
    (fun i s hi hI => by
      obtain ⟨st, a, b, c, e⟩ := input_body E (.IN_DATAPROCESSOR :: r) i s hi hI
      refine ⟨st, ?_, b, c, e⟩
      show run E (saxEvents (dumpInput E i)) _ = _
      rw [saxEvents_dumpInput, ← a]
      rfl)
    (fun i s hi hI => by
      obtain ⟨hn', ho', hp'⟩ := hI
      obtain ⟨st, a, b, c, e⟩ := input_body E (.IN_DATAPROCESSOR :: r) i
        { s with inputMatcherNodes := [] } hi ⟨rfl, ho', hp'⟩
      refine ⟨st, ?_, b, ?_, e⟩
      · show run E (saxEvents (dumpInput E i)) _ = _
        rw [saxEvents_dumpInput, ← a]
        rfl
      · rw [c]
        simp [view, hn'])
    inputs d h ⟨hn, ho, dps, p, hp⟩
  refine ⟨st, ?_, h2, ?_⟩
  · simp only [saxEvents_append, saxEvents_cons, saxEvents_nil, sax, saxEvents_flatMap,
      List.cons_append, List.nil_append, List.append_assoc]
    rw [← h1]
    rfl
  · rw [h3, foldl_stepInput E inputs d.view dps p hp]

/-! ## Outputs -/

theorem output_head (E : Env) (r : List State) (o : OutputSpec) (d : WorkflowImporter)
    (hf : d.outputHasSubSpec = false)
    (hs : ∀ s, DataSpecUtils.getOptionalSubSpecOutput o = some s → s < 2 ^ 32) :
    ∃ st, run E (saxEvents (dumpOutputHead E o)) (d.setStates (.IN_OUTPUT :: r)) = .ok st ∧
      st.states = .IN_OUTPUT :: r ∧ st.view = d.view ∧
      makeOutputSpec st.outputHasSubSpec st.binding st.origin st.description st.subspec
        st.lifetime = importedOutput E o := by
  unfold dumpOutputHead
  cases h3 : DataSpecUtils.getOptionalSubSpecOutput o with
  | none =>
    simp +decide [run, handle, Key, String_, Uint, «in», setStates, push, pop, sax, view,
      h3, hf, importedOutput, makeOutputSpec]
  | some s =>
    have hlt : s < 4294967296 := hs s h3
    simp +decide [run, handle, Key, String_, Uint, «in», setStates, push, pop, sax, view,
      h3, hf, hlt, importedOutput, makeOutputSpec]

theorem endObject_output (E : Env) (st : WorkflowImporter) (r : List State)
    (dps : List DataProcessorSpec) (p : DataProcessorSpec)
    (hs : st.states = .IN_OUTPUT :: r) (hp : st.dataProcessors = dps ++ [p]) :
    ∃ st2, run E [.endObject] st = .ok st2 ∧ st2.states = r ∧
      st2.view = { st.view with
        dataProcessors := dps ++ [
          { p with
            outputs := p.outputs ++
              [makeOutputSpec st.outputHasSubSpec st.binding st.origin st.description
                st.subspec st.lifetime] }] } ∧
      st2.outputHasSubSpec = false := by
  rw [← setStates_of_states st _ hs]
  simp [run, handle, EndObject, «in», setStates, pop, onBackProcessor, hp, modifyBack_concat,
    view]

theorem dumpOutput_eq (E : Env) (o : OutputSpec) :
    dumpOutput E o = [.startObject] ++
      (dumpOutputHead E o ++ (dumpMetadataArray E o.metadata ++ [.endObject])) := by
  simp only [dumpOutput, dumpOutputHead, dumpMetadataArray, emittedBinding]
  split <;> simp

theorem saxEvents_dumpOutput (E : Env) (o : OutputSpec) :
    saxEvents (dumpOutput E o) = .startObject :: (saxEvents (dumpOutput E o)).tail := by
  rw [dumpOutput_eq]
  rfl

theorem wfOutput_elim (E : Env) (o : OutputSpec) (h : wfOutput E o = true) :
    (∀ s, DataSpecUtils.getOptionalSubSpecOutput o = some s → s < 2 ^ 32) ∧
      ∀ x ∈ o.metadata, wfMetadataOption E x = true := by
  simp only [wfOutput, Bool.and_eq_true, List.all_eq_true] at h
  refine ⟨fun s hs => ?_, h.2⟩
  have := h.1
  rw [hs] at this
  simpa using this

/-- An output object, after `StartObject`. -/
theorem output_body (E : Env) (r : List State) (o : OutputSpec) (d : WorkflowImporter)
    (hwf : wfOutput E o = true) (hI : OutputsInv d) :
    ∃ st, run E (saxEvents (dumpOutput E o)).tail (d.setStates (.IN_OUTPUT :: .IN_OUTPUTS :: r))
        = .ok st ∧
      st.states = .IN_OUTPUTS :: r ∧ st.view = stepOutput E o d.view ∧ OutputsInv st := by
  obtain ⟨hf, dps, p, hp⟩ := hI
  obtain ⟨hsub, hopts⟩ := wfOutput_elim E o hwf
  obtain ⟨st1, h1, hs1, hv1, hm1⟩ := output_head E (.IN_OUTPUTS :: r) o d hf hsub
  have hmeta : ∃ st2, run E (saxEvents (dumpMetadataArray E o.metadata)) st1 = .ok st2 ∧
        st2.states = .IN_OUTPUT :: .IN_OUTPUTS :: r ∧ st2.view = st1.view ∧
        st2.outputHasSubSpec = st1.outputHasSubSpec ∧ st2.binding = st1.binding ∧
        st2.origin = st1.origin ∧ st2.description = st1.description ∧
        st2.subspec = st1.subspec ∧ st2.lifetime = st1.lifetime := by
    unfold dumpMetadataArray
    by_cases hem : o.metadata.isEmpty = false
    · rw [if_pos hem]
      have := outputOptions_array E (.IN_OUTPUTS :: r) o.metadata st1 hopts
      rw [setStates_of_states st1 _ hs1] at this
      exact this
    · rw [if_neg hem]
      exact ⟨st1, rfl, hs1, rfl, rfl, rfl, rfl, rfl, rfl, rfl⟩
  obtain ⟨st2, h2, hs2, hv2, e1, e2, e3, e4, e5, e6⟩ := hmeta
  have hp2 : st2.dataProcessors = dps ++ [p] := by
    have : st2.view.dataProcessors = dps ++ [p] := by rw [hv2, hv1]; exact hp
    exact this
  obtain ⟨st3, h3, hs3, hv3, hf3⟩ := endObject_output E st2 (.IN_OUTPUTS :: r) dps p hs2 hp2
  refine ⟨st3, ?_, hs3, ?_, hf3, dps, _, congrArg View.dataProcessors hv3⟩
  · rw [dumpOutput_eq]
    rw [saxEvents_append, saxEvents_append, saxEvents_append]
    simp only [saxEvents_cons, saxEvents_nil, List.singleton_append, List.tail_cons]
    rw [run_append_ok E _ _ _ _ h1, run_append_ok E _ _ _ _ h2]
    exact h3
  · rw [hv3, e1, e2, e3, e4, e5, e6, hm1, hv2, hv1]
    simp [stepOutput, view, hp, updateBack_concat]

theorem foldl_stepOutput (E : Env) (outputs : List OutputSpec) (v : View)
    (dps : List DataProcessorSpec) (p : DataProcessorSpec) (hp : v.dataProcessors = dps ++ [p]) :
    outputs.foldl (fun v o => stepOutput E o v) v =
      { v with
        dataProcessors := dps ++ [
          { p with outputs := p.outputs ++ outputs.map (importedOutput E) }] } := by
  induction outputs generalizing v p with
  | nil => simp [← hp]
  | cons o outputs ih =>
    rw [List.foldl_cons, ih (stepOutput E o v)
      { p with outputs := p.outputs ++ [importedOutput E o] }
      (by simp only [stepOutput, hp, updateBack_concat])]
    simp [stepOutput]

/-- The `outputs` array of a node. -/
theorem outputs_array (E : Env) (r : List State) (outputs : List OutputSpec)
    (d : WorkflowImporter) (dps : List DataProcessorSpec) (p : DataProcessorSpec)
    (hp : d.dataProcessors = dps ++ [p]) (h : ∀ o ∈ outputs, wfOutput E o = true) :
    ∃ st, run E (saxEvents ([.key "outputs", .startArray]
          ++ outputs.flatMap (dumpOutput E) ++ [.endArray]))
        (d.setStates (.IN_DATAPROCESSOR :: r)) = .ok st ∧
      st.states = .IN_DATAPROCESSOR :: r ∧
      st.view = { d.view with
        dataProcessors := dps ++ [
          { p with outputs := p.outputs ++ outputs.map (importedOutput E) }] } := by
  obtain ⟨st, h1, h2, h3, _⟩ := run_array E (fun o => saxEvents (dumpOutput E o))
    .IN_OUTPUT .IN_OUTPUTS (.IN_DATAPROCESSOR :: r) OutputsInv
    (fun o v => stepOutput E o v) (fun o => wfOutput E o = true)
    (fun _ _ hI => hI) (fun _ => rfl) (fun _ => rfl)
    (fun o s ho hI => by
      obtain ⟨st, a, b, c, e⟩ := output_body E (.IN_DATAPROCESSOR :: r) o s ho hI
      refine ⟨st, ?_, b, c, e⟩
      show run E (saxEvents (dumpOutput E o)) _ = _
      rw [saxEvents_dumpOutput, ← a]
      rfl)
    (fun o s ho hI => by
      obtain ⟨_, hp'⟩ := hI
      obtain ⟨st, a, b, c, e⟩ := output_body E (.IN_DATAPROCESSOR :: r) o
        { s with outputHasSubSpec := false } ho ⟨rfl, hp'⟩
      refine ⟨st, ?_, b, ?_, e⟩
      · show run E (saxEvents (dumpOutput E o)) _ = _
        rw [saxEvents_dumpOutput, ← a]
        rfl
      · rw [c]
        rfl)
    outputs { d with outputHasSubSpec := false } h ⟨rfl, dps, p, hp⟩
  refine ⟨st, ?_, h2, ?_⟩
  · simp only [saxEvents_append, saxEvents_cons, saxEvents_nil, sax, saxEvents_flatMap,
      List.cons_append, List.nil_append, List.append_assoc]
    rw [← h1]
    rfl
  · rw [h3, foldl_stepOutput E outputs _ dps p hp]
    rfl

end o2.framework

namespace o2.framework
open WorkflowSerializationHelpers WorkflowImporter

/-! ## Nodes -/

theorem wfHint_elim (x : Int) (h : wfHint x = true) :
    sax (.int x) = .uint x.toNat ∧ toInt32 (x.toNat : Int) = x := by
  simp only [wfHint, Bool.and_eq_true, decide_eq_true_eq] at h
  refine ⟨by simp [sax, h.1], ?_⟩
  rw [Int.toNat_of_nonneg h.1]
  unfold toInt32 Int.bmod
  simp only [Nat.reducePow]
  push_cast
  split <;> omega

/-- The resource hints and the end of a node object. -/
theorem processor_tail (E : Env) (r : List State) (a b c e : Int) (d : WorkflowImporter)
    (dps : List DataProcessorSpec) (p : DataProcessorSpec)
    (hp : d.dataProcessors = dps ++ [p])
    (ha : wfHint a = true) (hb : wfHint b = true) (hc : wfHint c = true)
    (he : wfHint e = true) :
    ∃ st, run E (saxEvents [.key "rank", .int a, .key "nSlots", .int b,
          .key "inputTimeSliceId", .int c, .key "maxInputTimeslices", .int e, .endObject])
        (d.setStates (.IN_DATAPROCESSOR :: r)) = .ok st ∧
      st.states = r ∧
      st.view = { d.view with
        dataProcessors := dps ++ [
          { p with rank := a, nSlots := b, inputTimeSliceId := c, maxInputTimeslices := e }] } := by
  obtain ⟨ha1, ha2⟩ := wfHint_elim a ha
  obtain ⟨hb1, hb2⟩ := wfHint_elim b hb
  obtain ⟨hc1, hc2⟩ := wfHint_elim c hc
  obtain ⟨he1, he2⟩ := wfHint_elim e he
  simp only [saxEvents_cons, saxEvents_nil, ha1, hb1, hc1, he1]
  generalize a.toNat = na at ha2
  generalize b.toNat = nb at hb2
  generalize c.toNat = nc at hc2
  generalize e.toNat = ne at he2
  simp +decide [run, handle, Key, Uint, EndObject, «in», setStates, push, pop, sax, view,
    onBackProcessor, hp, modifyBack_concat, ha2, hb2, hc2, he2]

theorem processor_head (E : Env) (r : List State) (n : String) (d : WorkflowImporter) :
    run E [.startObject, .key "name", .string n] (d.setStates (.IN_DATAPROCESSORS :: r)) =
      .ok ({ d with dataProcessors := d.dataProcessors ++ [({ name := n } : DataProcessorSpec)] }.setStates
        (.IN_DATAPROCESSOR :: .IN_DATAPROCESSORS :: r)) := by
  simp +decide [run, handle, Key, StartObject, String_, «in», setStates, push, pop,
    onBackProcessor, modifyBack_concat]

end o2.framework

namespace o2.framework
open WorkflowSerializationHelpers WorkflowImporter

theorem run_saxEvents_append_ok (E : Env) (a b : List WriterCall) (st s : WorkflowImporter)
    (h : run E (saxEvents a) st = .ok s) :
    run E (saxEvents (a ++ b)) st = run E (saxEvents b) s := by
  rw [saxEvents_append, run_append_ok E _ _ _ _ h]

theorem dumpProcessor_eq (E : Env) (p : DataProcessorSpec) (h : isExported p = true) :
    dumpProcessor E p = [.startObject, .key "name", .string (cstr p.name)] ++
      (([.key "inputs", .startArray] ++ p.inputs.flatMap (dumpInput E) ++ [.endArray]) ++
      (([.key "outputs", .startArray] ++ p.outputs.flatMap (dumpOutput E) ++ [.endArray]) ++
      (([.key "options", .startArray] ++ p.options.flatMap (dumpOption E) ++ [.endArray]) ++
      (([.key "labels", .startArray] ++ p.labels.map (fun label => .string (cstr label))
          ++ [.endArray]) ++
       [.key "rank", .int p.rank, .key "nSlots", .int p.nSlots,
        .key "inputTimeSliceId", .int p.inputTimeSliceId,
        .key "maxInputTimeslices", .int p.maxInputTimeslices, .endObject])))) := by
  have h' : startsWith p.name "internal-dpl" = false := by
    simpa [isExported] using h
  simp [dumpProcessor, h']

theorem wfProcessor_elim (E : Env) (p : DataProcessorSpec) (h : wfProcessor E p = true) :
    (∀ i ∈ p.inputs, wfInput E i = true) ∧ (∀ o ∈ p.outputs, wfOutput E o = true) ∧
      (∀ o ∈ emittedOptions p.options, wfOption E o = true) ∧
      wfHint p.rank = true ∧ wfHint p.nSlots = true ∧ wfHint p.inputTimeSliceId = true ∧
      wfHint p.maxInputTimeslices = true := by
  simp only [wfProcessor, Bool.and_eq_true, List.all_eq_true] at h
  obtain ⟨⟨⟨⟨⟨⟨h1, h2⟩, h3⟩, h4⟩, h5⟩, h6⟩, h7⟩ := h
  exact ⟨h1, h2, h3, h4, h5, h6, h7⟩

theorem dataProcessors_of_view {st : WorkflowImporter} {v : View} (h : st.view = v) :
    st.dataProcessors = v.dataProcessors := congrArg View.dataProcessors h

theorem metadata_of_view {st : WorkflowImporter} {v : View} (h : st.view = v) :
    st.metadata = v.metadata := congrArg View.metadata h

theorem inputMatcherNodes_of_view {st : WorkflowImporter} {v : View} (h : st.view = v) :
    st.inputMatcherNodes = v.inputMatcherNodes := congrArg View.inputMatcherNodes h

theorem inputOptions_of_view {st : WorkflowImporter} {v : View} (h : st.view = v) :
    st.inputOptions = v.inputOptions := congrArg View.inputOptions h

/-- A node object that `dump` writes. -/
theorem processor_elem (E : Env) (r : List State) (p : DataProcessorSpec)
    (d : WorkflowImporter) (h : isExported p = true ∧ wfProcessor E p = true)
    (hI : NodesInv d) :
    ∃ st, run E (saxEvents (dumpProcessor E p)) (d.setStates (.IN_DATAPROCESSORS :: r))
        = .ok st ∧
      st.states = .IN_DATAPROCESSORS :: r ∧ st.view = stepProcessor E p d.view ∧
      NodesInv st := by
  obtain ⟨hexp, hwf⟩ := h
  obtain ⟨hn, ho⟩ := hI
  obtain ⟨wi, wo, wopt, w1, w2, w3, w4⟩ := wfProcessor_elim E p hwf
  have h0 : run E (saxEvents [.startObject, .key "name", .string (cstr p.name)])
      (d.setStates (.IN_DATAPROCESSORS :: r)) = _ := processor_head E r (cstr p.name) d
  obtain ⟨st1, h1, hs1, hv1⟩ := inputs_array E (.IN_DATAPROCESSORS :: r) p.inputs
    { d with dataProcessors := d.dataProcessors ++ [({ name := cstr p.name } : DataProcessorSpec)] }
    d.dataProcessors { name := cstr p.name } hn ho rfl wi
  obtain ⟨st2, h2, hs2, hv2⟩ := outputs_array E (.IN_DATAPROCESSORS :: r) p.outputs st1
    d.dataProcessors _ (dataProcessors_of_view hv1) wo
  rw [setStates_of_states st1 _ hs1] at h2
  obtain ⟨st3, h3, hs3, hv3⟩ := options_array E (.IN_DATAPROCESSORS :: r) p.options st2
    d.dataProcessors _ (dataProcessors_of_view hv2) wopt
  rw [setStates_of_states st2 _ hs2] at h3
  obtain ⟨st4, h4, hs4, hv4⟩ := labels_array E (.IN_DATAPROCESSORS :: r) p.labels st3
    d.dataProcessors _ (dataProcessors_of_view hv3)
  rw [setStates_of_states st3 _ hs3] at h4
  obtain ⟨st5, h5, hs5, hv5⟩ := processor_tail E (.IN_DATAPROCESSORS :: r) p.rank p.nSlots
    p.inputTimeSliceId p.maxInputTimeslices st4 d.dataProcessors _
    (dataProcessors_of_view hv4) w1 w2 w3 w4
  rw [setStates_of_states st4 _ hs4] at h5
  have hfinal : st5.view = stepProcessor E p d.view := by
    rw [hv5, hv4, hv3, hv2, hv1]
    simp [view, stepProcessor, importedProcessor]
  refine ⟨st5, ?_, hs5, hfinal, ?_, ?_⟩
  · rw [dumpProcessor_eq E p hexp]
    rw [run_saxEvents_append_ok E _ _ _ _ h0, run_saxEvents_append_ok E _ _ _ _ h1,
      run_saxEvents_append_ok E _ _ _ _ h2, run_saxEvents_append_ok E _ _ _ _ h3,
      run_saxEvents_append_ok E _ _ _ _ h4]
    exact h5
  · rw [inputMatcherNodes_of_view hfinal]
    exact hn
  · rw [inputOptions_of_view hfinal]
    exact ho

end o2.framework

namespace o2.framework
open WorkflowSerializationHelpers WorkflowImporter

theorem flatMap_dumpProcessor (E : Env) (workflow : List DataProcessorSpec) :
    workflow.flatMap (dumpProcessor E) =
      (workflow.filter isExported).flatMap (dumpProcessor E) := by
  induction workflow with
  | nil => rfl
  | cons p workflow ih =>
    by_cases h : isExported p = true
    · simp [List.filter_cons, h, ih]
    · have h' : startsWith p.name "internal-dpl" = true := by
        simpa [isExported] using h
      simp [List.filter_cons, h, ih, dumpProcessor, h']

theorem foldl_stepProcessor (E : Env) (workflow : List DataProcessorSpec) (v : View) :
    (workflow.filter isExported).foldl (fun v p => stepProcessor E p v) v =
      { v with
        dataProcessors := v.dataProcessors ++ importedWorkflow E v.optionKind workflow
        optionKind := kindAfterWorkflow v.optionKind workflow } := by
  induction workflow generalizing v with
  | nil => simp [importedWorkflow, kindAfterWorkflow]
  | cons p workflow ih =>
    by_cases h : isExported p = true
    · rw [List.filter_cons, if_pos h, List.foldl_cons, ih]
      simp [stepProcessor, importedWorkflow, kindAfterWorkflow, h]
    · rw [List.filter_cons, if_neg h, ih]
      simp [importedWorkflow, kindAfterWorkflow, h]

/-- The `workflow` array. -/
theorem workflow_array (E : Env) (r : List State) (workflow : List DataProcessorSpec)
    (d : WorkflowImporter) (hI : NodesInv d)
    (h : ∀ p ∈ workflow.filter isExported, wfProcessor E p = true) :
    ∃ st, run E (saxEvents ([.key "workflow", .startArray]
          ++ workflow.flatMap (dumpProcessor E) ++ [.endArray]))
        (d.setStates (.IN_EXECUTION :: r)) = .ok st ∧
      st.states = .IN_EXECUTION :: r ∧
      st.view = { d.view with
        dataProcessors := d.view.dataProcessors ++ importedWorkflow E d.view.optionKind workflow
        optionKind := kindAfterWorkflow d.view.optionKind workflow } ∧
      NodesInv st := by
  obtain ⟨st, h1, h2, h3, h4⟩ := run_flatMap_stable E (fun p => saxEvents (dumpProcessor E p))
    (.IN_DATAPROCESSORS :: .IN_WORKFLOW :: .IN_EXECUTION :: r) NodesInv
    (fun p v => stepProcessor E p v)
    (fun p => isExported p = true ∧ wfProcessor E p = true)
    (fun _ _ hI => hI)
    (fun p s hp hI => processor_elem E (.IN_WORKFLOW :: .IN_EXECUTION :: r) p s hp hI)
    (workflow.filter isExported) d
    (fun p hp => ⟨by simpa using (List.mem_filter.mp hp).2, h p hp⟩) hI
  refine ⟨st.setStates (.IN_EXECUTION :: r), ?_, rfl, ?_, h4⟩
  · have h0 : run E (saxEvents [.key "workflow", .startArray])
        (d.setStates (.IN_EXECUTION :: r))
        = .ok (d.setStates (.IN_DATAPROCESSORS :: .IN_WORKFLOW :: .IN_EXECUTION :: r)) := rfl
    have h1' : run E (saxEvents (workflow.flatMap (dumpProcessor E)))
        (d.setStates (.IN_DATAPROCESSORS :: .IN_WORKFLOW :: .IN_EXECUTION :: r))
        = .ok st := by
      rw [flatMap_dumpProcessor, saxEvents_flatMap]
      exact h1
    have h5 : run E (saxEvents [.endArray]) st
        = .ok (st.setStates (.IN_EXECUTION :: r)) := by
      rw [← setStates_of_states st _ h2]
      rfl
    rw [List.append_assoc, run_saxEvents_append_ok E _ _ _ _ h0,
      run_saxEvents_append_ok E _ _ _ _ h1', h5]
  · rw [view_setStates, h3, foldl_stepProcessor]

/-! ## Metadata -/

theorem saxEvents_tail (c : WriterCall) (cs : List WriterCall) :
    (saxEvents ([c] ++ cs)).tail = saxEvents cs := rfl

theorem info_head (E : Env) (r : List State) (n e : String) (d : WorkflowImporter) :
    run E (saxEvents [.key "name", .string n, .key "executable", .string e])
        ({ d with metadata := d.metadata ++ [({} : DataProcessorInfo)] }.setStates
          (.IN_METADATUM :: r)) =
      .ok ({ d with metadata := d.metadata ++ [({ name := n, executable := e } : DataProcessorInfo)] }.setStates
        (.IN_METADATUM :: r)) := by
  simp +decide [run, handle, Key, String_, «in», setStates, push, pop, sax,
    onBackMetadata, modifyBack_concat]

theorem dumpInfo_eq (E : Env) (info : DataProcessorInfo) :
    dumpInfo E info = [.startObject] ++
      ([.key "name", .string (cstr info.name), .key "executable", .string (cstr info.executable)] ++
      (([.key "cmdLineArgs", .startArray] ++ info.cmdLineArgs.map (fun arg => .string (cstr arg))
          ++ [.endArray]) ++
      (([.key "workflowOptions", .startArray]
          ++ info.workflowOptions.flatMap (dumpMetadataOption E) ++ [.endArray]) ++
      (([.key "channels", .startArray]
          ++ info.channels.map (fun channel => .string (cstr channel)) ++ [.endArray]) ++
       [.endObject])))) := by
  simp [dumpInfo]

/-- An entry of the metadata, after `StartObject`. -/
theorem info_body (E : Env) (r : List State) (info : DataProcessorInfo)
    (d : WorkflowImporter) (h : wfInfo E info = true) :
    ∃ st, run E (saxEvents (dumpInfo E info)).tail
        ({ d with metadata := d.metadata ++ [({} : DataProcessorInfo)] }.setStates
          (.IN_METADATUM :: .IN_METADATA :: r)) = .ok st ∧
      st.states = .IN_METADATA :: r ∧ st.view = stepInfo E info d.view := by
  have hw : ∀ o ∈ info.workflowOptions, wfMetadataOption E o = true := by
    simpa [wfInfo, List.all_eq_true] using h
  have h0 := info_head E (.IN_METADATA :: r) (cstr info.name) (cstr info.executable) d
  obtain ⟨st1, h1, hs1, hv1⟩ := args_array E (.IN_METADATA :: r) info.cmdLineArgs
    { d with metadata := d.metadata ++
        [({ name := cstr info.name, executable := cstr info.executable } : DataProcessorInfo)] }
    d.metadata _ rfl
  obtain ⟨st2, h2, hs2, hv2⟩ := workflowOptions_array E (.IN_METADATA :: r)
    info.workflowOptions st1 d.metadata _ (metadata_of_view hv1) hw
  rw [setStates_of_states st1 _ hs1] at h2
  obtain ⟨st3, h3, hs3, hv3⟩ := channels_array E (.IN_METADATA :: r) info.channels st2
    d.metadata _ (metadata_of_view hv2)
  rw [setStates_of_states st2 _ hs2] at h3
  have h4 : run E (saxEvents [.endObject]) st3 = .ok (st3.setStates (.IN_METADATA :: r)) := by
    rw [← setStates_of_states st3 _ hs3]
    rfl
  refine ⟨st3.setStates (.IN_METADATA :: r), ?_, rfl, ?_⟩
  · rw [dumpInfo_eq]
    rw [saxEvents_tail]
    rw [run_saxEvents_append_ok E _ _ _ _ h0, run_saxEvents_append_ok E _ _ _ _ h1,
      run_saxEvents_append_ok E _ _ _ _ h2, run_saxEvents_append_ok E _ _ _ _ h3, h4]
  · rw [view_setStates, hv3, hv2, hv1]
    simp [view, stepInfo, importedInfo]

theorem saxEvents_dumpInfo (E : Env) (info : DataProcessorInfo) :
    saxEvents (dumpInfo E info) = .startObject :: (saxEvents (dumpInfo E info)).tail := by
  rw [dumpInfo_eq]
  rfl

theorem foldl_stepInfo (E : Env) (metadata : List DataProcessorInfo) (v : View) :
    metadata.foldl (fun v info => stepInfo E info v) v =
      { v with metadata := v.metadata ++ metadata.map (importedInfo E v.optionKind) } := by
  induction metadata generalizing v with
  | nil => simp
  | cons info metadata ih =>
    rw [List.foldl_cons, ih]
    simp [stepInfo]

/-- The `metadata` array of the document. -/
theorem metadata_array (E : Env) (r : List State) (metadata : List DataProcessorInfo)
    (d : WorkflowImporter) (h : ∀ info ∈ metadata, wfInfo E info = true) :
    ∃ st, run E (saxEvents ([.key "metadata", .startArray]
          ++ metadata.flatMap (dumpInfo E) ++ [.endArray]))
        (d.setStates (.IN_EXECUTION :: r)) = .ok st ∧
      st.states = .IN_EXECUTION :: r ∧
      st.view = { d.view with
        metadata := d.view.metadata ++ metadata.map (importedInfo E d.view.optionKind) } := by
  obtain ⟨st, h1, h2, h3, _⟩ := run_array E (fun info => saxEvents (dumpInfo E info))
    .IN_METADATUM .IN_METADATA (.IN_EXECUTION :: r) (fun _ => True)
    (fun info v => stepInfo E info v) (fun info => wfInfo E info = true)
    (fun _ _ hI => hI) (fun _ => rfl) (fun _ => rfl)
    (fun info s hi _ => by
      obtain ⟨st, a, b, c⟩ := info_body E (.IN_EXECUTION :: r) info s hi
      refine ⟨st, ?_, b, c, trivial⟩
      show run E (saxEvents (dumpInfo E info)) _ = _
      rw [saxEvents_dumpInfo, ← a]
      rfl)
    (fun info s hi _ => by
      obtain ⟨st, a, b, c⟩ := info_body E (.IN_EXECUTION :: r) info s hi
      refine ⟨st, ?_, b, c, trivial⟩
      show run E (saxEvents (dumpInfo E info)) _ = _
      rw [saxEvents_dumpInfo, ← a]
      rfl)
    metadata d h trivial
  refine ⟨st, ?_, h2, ?_⟩
  · simp only [saxEvents_append, saxEvents_cons, saxEvents_nil, sax, saxEvents_flatMap,
      List.cons_append, List.nil_append, List.append_assoc]
    rw [← h1]
    rfl
  · rw [h3, foldl_stepInfo]

end o2.framework

namespace o2.framework
open WorkflowSerializationHelpers WorkflowImporter

/-! ## The whole document -/

theorem dumpCalls_eq (E : Env) (workflow : List DataProcessorSpec)
    (metadata : List DataProcessorInfo) (commandInfo : CommandInfo) :
    dumpCalls E workflow metadata commandInfo = [.startObject] ++
      (([.key "workflow", .startArray] ++ workflow.flatMap (dumpProcessor E) ++ [.endArray]) ++
      (([.key "metadata", .startArray] ++ metadata.flatMap (dumpInfo E) ++ [.endArray]) ++
       [.key "command", .string (cstr commandInfo.command), .endObject])) := by
  simp [dumpCalls]

theorem wellFormed_elim (E : Env) (workflow : List DataProcessorSpec)
    (metadata : List DataProcessorInfo) (h : wellFormed E workflow metadata = true) :
    (∀ p ∈ workflow.filter isExported, wfProcessor E p = true) ∧
      ∀ info ∈ metadata, wfInfo E info = true := by
  simp only [wellFormed, Bool.and_eq_true, List.all_eq_true] at h
  exact h

/-- The importer after the events of an exported document: the state stack is back to
`IN_START`, and the nodes, the metadata and the command of the document have been added to
the caller's objects. -/
theorem run_dumpCalls (E : Env) (workflow : List DataProcessorSpec)
    (metadata : List DataProcessorInfo) (commandInfo : CommandInfo)
    (d : WorkflowImporter) (hI : NodesInv d)
    (hwf : wellFormed E workflow metadata = true) :
    ∃ st, run E (saxEvents (dumpCalls E workflow metadata commandInfo))
        (d.setStates [.IN_START]) = .ok st ∧
      st.states = [.IN_START] ∧
      st.dataProcessors = d.dataProcessors ++ importedWorkflow E d.optionKind workflow ∧
      st.metadata = d.metadata ++
        metadata.map (importedInfo E (kindAfterWorkflow d.optionKind workflow)) ∧
      st.command = d.command.merge ⟨cstr commandInfo.command⟩ := by
  obtain ⟨hw, hm⟩ := wellFormed_elim E workflow metadata hwf
  have h0 : run E (saxEvents [.startObject]) (d.setStates [.IN_START])
      = .ok (d.setStates [.IN_EXECUTION, .IN_START]) := rfl
  obtain ⟨st1, h1, hs1, hv1, _⟩ := workflow_array E [.IN_START] workflow d hI hw
  obtain ⟨st2, h2, hs2, hv2⟩ := metadata_array E [.IN_START] metadata st1 hm
  rw [setStates_of_states st1 _ hs1] at h2
  have h3 : ∃ st3, run E (saxEvents [.key "command", .string (cstr commandInfo.command),
        .endObject]) st2 = .ok st3 ∧ st3.states = [.IN_START] ∧
      st3.view = { st2.view with command := st2.command.merge ⟨cstr commandInfo.command⟩ } := by
    rw [← setStates_of_states st2 _ hs2]
    simp +decide [run, handle, Key, String_, EndObject, «in», setStates, push, pop, sax, view]
  obtain ⟨st3, h3, hs3, hv3⟩ := h3
  refine ⟨st3, ?_, hs3, ?_, ?_, ?_⟩
  · rw [dumpCalls_eq, run_saxEvents_append_ok E _ _ _ _ h0,
      run_saxEvents_append_ok E _ _ _ _ h1, run_saxEvents_append_ok E _ _ _ _ h2, h3]
  · rw [dataProcessors_of_view hv3]
    show st2.view.dataProcessors = _
    rw [hv2, hv1]
    rfl
  · rw [metadata_of_view hv3]
    show st2.view.metadata = _
    rw [hv2, hv1]
    rfl
  · have : st3.view.command = _ := congrArg View.command hv3
    rw [show st3.command = st3.view.command from rfl, this]
    show st2.view.command.merge _ = _
    rw [hv2, hv1]
    rfl

/-- A stream that starts with the open brace is handed to the reader at once. -/
theorem import_of_brace (E : Env) (rest : List Char) (w0 : List DataProcessorSpec)
    (m0 : List DataProcessorInfo) (c0 : CommandInfo) :
    import_ E (IStream.ofText ('{' :: rest)) w0 m0 c0 =
      match (create E.uninit w0 m0 c0).run E (E.parse ('{' :: rest)).1 with
      | .error (f, st) => ⟨.faulted f, st.dataProcessors, st.metadata, st.command⟩
      | .ok st =>
        if (E.parse ('{' :: rest)).2 then
          ⟨.returned true, st.dataProcessors, st.metadata, st.command⟩
        else ⟨.threw "Error while parsing serialised workflow", st.dataProcessors,
              st.metadata, st.command⟩ := by
  rfl

/-- Import of an exported document: `import` returns true and the caller's objects hold, after
what they held, the imported nodes, the imported metadata and the command merged. -/
theorem import_dump (E : Env) (workflow : List DataProcessorSpec)
    (metadata : List DataProcessorInfo) (commandInfo : CommandInfo)
    (w0 : List DataProcessorSpec) (m0 : List DataProcessorInfo) (c0 : CommandInfo)
    (hwf : wellFormed E workflow metadata = true)
    (hrb : E.ReadsBack (dumpCalls E workflow metadata commandInfo)) :
    import_ E (IStream.ofText (dump E workflow metadata commandInfo)) w0 m0 c0 =
      ⟨.returned true, w0 ++ importedWorkflow E E.uninit.optionKind workflow,
        m0 ++ metadata.map (importedInfo E (kindAfterWorkflow E.uninit.optionKind workflow)),
        c0.merge ⟨cstr commandInfo.command⟩⟩ := by
  obtain ⟨hhead, hparse⟩ := hrb
  obtain ⟨st, h1, _, h3, h4, h5⟩ := run_dumpCalls E workflow metadata commandInfo
    (create E.uninit w0 m0 c0) ⟨rfl, rfl⟩ hwf
  have hcreate : (create E.uninit w0 m0 c0).setStates [.IN_START] = create E.uninit w0 m0 c0 :=
    rfl
  rw [hcreate] at h1
  unfold dump at *
  cases htext : E.write (dumpCalls E workflow metadata commandInfo) with
  | nil => simp [htext] at hhead
  | cons ch rest =>
    rw [htext] at hhead hparse
    simp only [List.head?_cons, Option.some.injEq] at hhead
    subst hhead
    rw [import_of_brace, hparse]
    simp only [h1, if_true]
    rw [h3, h4, h5]
    rfl

end o2.framework

namespace o2.framework
open WorkflowSerializationHelpers WorkflowImporter

/-! ## The lines before the payload -/

theorem strncmpEq_eq_isPrefixOf (p : List Char) (hp : NUL ∉ p) (buf : List Char) :
    strncmpEq buf p p.length = p.isPrefixOf buf := by
  induction p generalizing buf with
  | nil => cases buf <;> simp [strncmpEq]
  | cons c p ih =>
    have hc : c ≠ NUL := fun h => hp (h ▸ List.mem_cons_self _ _)
    have hp' : NUL ∉ p := fun h => hp (List.mem_cons_of_mem _ h)
    cases buf with
    | nil =>
      simp only [List.length_cons, strncmpEq, List.headD_nil, List.headD_cons]
      simp [Ne.symm hc]
    | cons b buf =>
      simp only [List.length_cons, strncmpEq, List.headD_cons, List.tail_cons,
        List.isPrefixOf_cons₂, ih hp' buf]
      by_cases hbc : b = c
      · subst hbc
        simp [hc]
      · have : (c == b) = false := by simpa using Ne.symm hbc
        simp [hbc, this]

theorem isFatalLine_eq (l : List Char) : isFatalLine l = startsWithFatal l := by
  have h1 := strncmpEq_eq_isPrefixOf "[ERROR] invalid workflow in".data (by decide) l
  have h2 := strncmpEq_eq_isPrefixOf "[ERROR] error while setting up workflow".data
    (by decide) l
  have h3 := strncmpEq_eq_isPrefixOf "[ERROR] error parsing options of".data (by decide) l
  have e1 : "[ERROR] invalid workflow in".length
      = "[ERROR] invalid workflow in".data.length := rfl
  have e2 : "[ERROR] error while setting up workflow".length
      = "[ERROR] error while setting up workflow".data.length := rfl
  have e3 : "[ERROR] error parsing options of".length
      = "[ERROR] error parsing options of".data.length := rfl
  unfold isFatalLine startsWithFatal fatalPrefixes
  rw [e1, e2, e3, h1, h2, h3]
  cases l with
  | nil => decide
  | cons c l =>
    by_cases hc : c = '['
    · subst hc
      simp [Bool.or_assoc]
    · have : ('[' == c) = false := by simpa using Ne.symm hc
      simp [List.isPrefixOf, hc, this]

theorem getline_line (l rest : List Char) (hl : '\n' ∉ l) (hlen : l.length < 1024) :
    IStream.getline ⟨l ++ '\n' :: rest, false, false, false⟩ 1024 =
      (l, ⟨rest, false, false, false⟩) := by
  have htw : (l ++ '\n' :: rest).takeWhile (fun c => c != '\n') = l := by
    rw [List.takeWhile_append_of_pos]
    · simp
    · intro a ha
      have : a ≠ '\n' := fun h => hl (h ▸ ha)
      simpa using this
  have hk : min l.length (1024 - 1) = l.length := by omega
  simp only [IStream.getline, IStream.good, Bool.not_false, Bool.and_self, if_true, htw, hk,
    List.take_left, List.drop_left]
  simp

theorem getline_last (l : List Char) (hl : '\n' ∉ l) (hlen : l.length < 1024) :
    IStream.getline ⟨l, false, false, false⟩ 1024 =
      (l, ⟨[], true, l.length == 0, false⟩) := by
  have htw : l.takeWhile (fun c => c != '\n') = l := by
    rw [List.takeWhile_eq_self_iff]
    intro a ha
    have : a ≠ '\n' := fun h => hl (h ▸ ha)
    simpa using this
  have hk : min l.length (1024 - 1) = l.length := by omega
  simp only [IStream.getline, IStream.good, Bool.not_false, Bool.and_self, if_true, htw, hk,
    List.take_length, List.drop_length]

/-- One line before the payload is read and dropped; it sets the fatal flag when it begins
with a fatal error prefix. -/
theorem prescan_line (fuel : Nat) (l rest : List Char) (fatal : Bool) (h : PlainLine l) :
    prescan (fuel + 1) ⟨l ++ '\n' :: rest, false, false, false⟩ fatal =
      prescan fuel ⟨rest, false, false, false⟩ (fatal || startsWithFatal l) := by
  obtain ⟨hnl, hlen, hhead⟩ := h
  have hpeek : ∃ c, IStream.peek ⟨l ++ '\n' :: rest, false, false, false⟩
      = (some c, ⟨l ++ '\n' :: rest, false, false, false⟩) ∧ c ≠ '{' := by
    cases l with
    | nil => exact ⟨'\n', rfl, by decide⟩
    | cons a l => exact ⟨a, rfl, fun h => hhead (by simp [h])⟩
  obtain ⟨c, hc, hne⟩ := hpeek
  rw [prescan, hc]
  simp only [Option.some.injEq, hne, if_false, IStream.eof, IStream.fail, IStream.bad,
    Bool.or_self, Bool.false_eq_true, getline_line l rest hnl hlen, isFatalLine_eq]
  cases startsWithFatal l <;> cases fatal <;> rfl

theorem prescan_lines (lines : List (List Char)) (h : ∀ l ∈ lines, PlainLine l) :
    ∀ (fuel : Nat) (rest : List Char) (fatal : Bool),
      prescan (fuel + lines.length) ⟨linesText lines ++ rest, false, false, false⟩ fatal =
        prescan fuel ⟨rest, false, false, false⟩ (fatal || lines.any startsWithFatal) := by
  induction lines with
  | nil => intro fuel rest fatal; simp [linesText]
  | cons l lines ih =>
    intro fuel rest fatal
    have h1 := prescan_line (fuel + lines.length) l (linesText lines ++ rest) fatal
      (h l (List.mem_cons_self _ _))
    have e : linesText (l :: lines) ++ rest = l ++ '\n' :: (linesText lines ++ rest) := by
      simp [linesText]
    rw [e, List.length_cons, ← Nat.add_assoc, h1,
      ih (fun x hx => h x (List.mem_cons_of_mem _ hx))]
    simp [Bool.or_assoc]

theorem prescan_brace (fuel : Nat) (tail : List Char) (fatal : Bool) :
    prescan (fuel + 1) ⟨'{' :: tail, false, false, false⟩ fatal =
      .payload ⟨'{' :: tail, false, false, false⟩ fatal := rfl

/-- The end of the stream, after a last line without newline or after no character at all. -/
theorem prescan_last (fuel : Nat) (l : List Char) (fatal : Bool) (h : PlainLine l) :
    prescan (fuel + 2) ⟨l, false, false, false⟩ fatal =
      .noWorkflow (fatal || startsWithFatal l) := by
  obtain ⟨hnl, hlen, hhead⟩ := h
  cases l with
  | nil => cases fatal <;> rfl
  | cons a l =>
    have hne : a ≠ '{' := fun h => hhead (by simp [h])
    have hc : IStream.peek ⟨a :: l, false, false, false⟩
        = (some a, ⟨a :: l, false, false, false⟩) := rfl
    rw [prescan, hc]
    simp only [Option.some.injEq, hne, if_false, IStream.eof, IStream.fail, IStream.bad,
      Bool.or_self, Bool.false_eq_true, getline_last (a :: l) hnl hlen, isFatalLine_eq]
    cases startsWithFatal (a :: l) <;> cases fatal <;> rfl

theorem length_linesText (lines : List (List Char)) :
    lines.length ≤ (linesText lines).length := by
  induction lines with
  | nil => simp [linesText]
  | cons l lines ih =>
    have : linesText (l :: lines) = l ++ '\n' :: linesText lines := by simp [linesText]
    rw [this]
    simp only [List.length_append, List.length_cons]
    omega

/-- The loop of `import` on lines followed by `rest`, with the iteration bound that
`import_` gives it. -/
theorem prescan_text (lines : List (List Char)) (rest : List Char)
    (h : ∀ l ∈ lines, PlainLine l) :
    ∃ fuel, prescan ((IStream.ofText (linesText lines ++ rest)).buf.length + 2)
        (IStream.ofText (linesText lines ++ rest)) false =
      prescan (fuel + 2) ⟨rest, false, false, false⟩ (lines.any startsWithFatal) := by
  have hlen := length_linesText lines
  refine ⟨(linesText lines).length - lines.length + rest.length, ?_⟩
  have e : (IStream.ofText (linesText lines ++ rest)).buf.length + 2
      = ((linesText lines).length - lines.length + rest.length + 2) + lines.length := by
    simp only [IStream.ofText, List.length_append]
    omega
  rw [e]
  have := prescan_lines lines h ((linesText lines).length - lines.length + rest.length + 2)
    rest false
  simpa [IStream.ofText] using this

end o2.framework

namespace o2.framework
open WorkflowSerializationHelpers WorkflowImporter

/-! ## The text before the payload (C5, C6, C7) -/

theorem run_emptyPayloadEvents (E : Env) (w : List DataProcessorSpec)
    (m : List DataProcessorInfo) (c : CommandInfo) :
    ∃ st, run E emptyPayloadEvents (create E.uninit w m c) = .ok st ∧
      st.dataProcessors = w ∧ st.metadata = m ∧ st.command = c := by
  refine ⟨_, rfl, rfl, rfl, ?_⟩
  show c.merge ⟨""⟩ = c
  cases c
  simp [CommandInfo.merge]

/-- C5. Pre-payload tolerance: a stream made of any number of lines, none of which starts
with the open brace or with a fatal error prefix and each shorter than the line buffer,
followed by the compact empty document, is imported successfully: `import` returns true and
the caller's workflow, metadata and command are as before. -/
theorem import_tolerates_lines (E : Env) (lines : List (List Char))
    (w : List DataProcessorSpec) (m : List DataProcessorInfo) (c : CommandInfo)
    (hlines : ∀ l ∈ lines, PlainLine l ∧ startsWithFatal l = false)
    (hparse : E.parse emptyPayload = (emptyPayloadEvents, true)) :
    import_ E (IStream.ofText (linesText lines ++ emptyPayload)) w m c =
      ⟨.returned true, w, m, c⟩ := by
  obtain ⟨fuel, hpre⟩ := prescan_text lines emptyPayload (fun l hl => (hlines l hl).1)
  have hany : lines.any startsWithFatal = false := by
    rw [List.any_eq_false]
    intro l hl
    simp [(hlines l hl).2]
  obtain ⟨st, hrun, h1, h2, h3⟩ := run_emptyPayloadEvents E w m c
  unfold import_
  rw [hpre, hany]
  have hb : emptyPayload = '{' :: emptyPayload.tail := by decide
  rw [hb, show fuel + 2 = (fuel + 1) + 1 from rfl, prescan_brace, ← hb]
  simp only [Bool.false_eq_true, if_false, hparse, hrun, if_true, h1, h2, h3]

theorem import_tolerates_lines_witness :
    (∀ l ∈ ["[INFO] starting".data, "".data, "warning: x".data],
        PlainLine l ∧ startsWithFatal l = false) ∧
      refEnv.parse emptyPayload = (emptyPayloadEvents, true) ∧
      import_ refEnv (IStream.ofText
          (linesText ["[INFO] starting".data, "".data, "warning: x".data] ++ emptyPayload))
        [] [] {} = ⟨.returned true, [], [], {}⟩ :=
  have h1 : ∀ l ∈ ["[INFO] starting".data, "".data, "warning: x".data],
      PlainLine l ∧ startsWithFatal l = false := by
    intro l hl
    simp only [List.mem_cons, List.mem_singleton, List.not_mem_nil, or_false] at hl
    rcases hl with rfl | rfl | rfl <;> exact ⟨⟨by decide, by decide, by decide⟩, by decide⟩
  have h2 : refEnv.parse emptyPayload = (emptyPayloadEvents, true) := by decide
  ⟨h1, h2, import_tolerates_lines refEnv _ [] [] {} h1 h2⟩

/-- C6. Fatal diagnostic: when a line before the payload begins with one of the three fatal
error prefixes (all lines before the payload being shorter than the line buffer), `import`
returns false and leaves workflow, metadata and command as they were, whatever the reader
would make of the rest: both when a line starting with the open brace follows (`rest` starts
with the brace) and when the stream ends without one (`rest` is the last line, without
newline, or is empty). -/
theorem import_fatal_line (E : Env) (lines : List (List Char)) (rest : List Char)
    (w : List DataProcessorSpec) (m : List DataProcessorInfo) (c : CommandInfo)
    (hlines : ∀ l ∈ lines, PlainLine l)
    (hrest : rest.head? = some '{' ∨ PlainLine rest)
    (hfatal : lines.any startsWithFatal = true ∨
      (rest.head? ≠ some '{' ∧ startsWithFatal rest = true)) :
    import_ E (IStream.ofText (linesText lines ++ rest)) w m c = ⟨.returned false, w, m, c⟩ := by
  obtain ⟨fuel, hpre⟩ := prescan_text lines rest hlines
  unfold import_
  rw [hpre]
  rcases hrest with hb | hp
  · have hany : lines.any startsWithFatal = true := by
      rcases hfatal with h | h
      · exact h
      · exact absurd hb h.1
    cases rest with
    | nil => simp at hb
    | cons a tail =>
      simp only [List.head?_cons, Option.some.injEq] at hb
      subst hb
      rw [show fuel + 2 = (fuel + 1) + 1 from rfl, prescan_brace, hany]
      simp
  · rw [prescan_last fuel rest _ hp]
    have : (lines.any startsWithFatal || startsWithFatal rest) = true := by
      rcases hfatal with h | h
      · simp [h]
      · simp [h.2]
    simp [this]

theorem import_fatal_line_witness :
    (∀ l ∈ ["[INFO] x".data, "[ERROR] invalid workflow in A".data], PlainLine l) ∧
      import_ refEnv (IStream.ofText
          (linesText ["[INFO] x".data, "[ERROR] invalid workflow in A".data] ++ emptyPayload))
        [] [] {} = ⟨.returned false, [], [], {}⟩ :=
  have h1 : ∀ l ∈ ["[INFO] x".data, "[ERROR] invalid workflow in A".data], PlainLine l := by
    intro l hl
    simp only [List.mem_cons, List.mem_singleton, List.not_mem_nil, or_false] at hl
    rcases hl with rfl | rfl <;> exact ⟨by decide, by decide, by decide⟩
  ⟨h1, import_fatal_line refEnv _ emptyPayload [] [] {} h1 (Or.inl (by decide))
    (Or.inl (by decide))⟩

set_option maxRecDepth 1000000 in
/-- C7, as stated, fails: a stream of 1024 letters reaches the end of the input without a
line starting with the open brace and without a fatal error line, and `import` throws
"Malformatted input workflow". -/
theorem import_long_line_throws :
    import_ refEnv (IStream.ofText (List.replicate 1024 'a')) [] [] {} =
      ⟨.threw "Malformatted input workflow", [], [], {}⟩ := by
  decide

/-- C7, amended. No workflow supplied: a stream, the empty one included, that reaches the
end of the input without a line starting with the open brace and without a fatal error
line, all of whose lines are shorter than the 1024 byte line buffer, makes `import` return
true and leave workflow, metadata and command as they were. `last` is the text after the
last newline. -/
theorem import_no_workflow (E : Env) (lines : List (List Char)) (last : List Char)
    (w : List DataProcessorSpec) (m : List DataProcessorInfo) (c : CommandInfo)
    (hlines : ∀ l ∈ lines, PlainLine l ∧ startsWithFatal l = false)
    (hlast : PlainLine last ∧ startsWithFatal last = false) :
    import_ E (IStream.ofText (linesText lines ++ last)) w m c = ⟨.returned true, w, m, c⟩ := by
  obtain ⟨fuel, hpre⟩ := prescan_text lines last (fun l hl => (hlines l hl).1)
  have hany : lines.any startsWithFatal = false := by
    rw [List.any_eq_false]
    intro l hl
    simp [(hlines l hl).2]
  unfold import_
  rw [hpre, prescan_last fuel last _ hlast.1, hany, hlast.2]
  rfl

theorem import_no_workflow_witness :
    (∀ l ∈ ["[INFO] x".data], PlainLine l ∧ startsWithFatal l = false) ∧
      (PlainLine "done".data ∧ startsWithFatal "done".data = false) ∧
      import_ refEnv (IStream.ofText (linesText ["[INFO] x".data] ++ "done".data))
        [] [] {} = ⟨.returned true, [], [], {}⟩ :=
  have h1 : ∀ l ∈ ["[INFO] x".data], PlainLine l ∧ startsWithFatal l = false := by
    intro l hl
    simp only [List.mem_singleton] at hl
    subst hl
    exact ⟨⟨by decide, by decide, by decide⟩, by decide⟩
  have h2 : PlainLine "done".data ∧ startsWithFatal "done".data = false :=
    ⟨⟨by decide, by decide, by decide⟩, by decide⟩
  ⟨h1, h2, import_no_workflow refEnv _ _ [] [] {} h1 h2⟩

end o2.framework

namespace o2.framework
open WorkflowSerializationHelpers WorkflowImporter

/-! ## Export (C8, C10) -/

/-- The test `name.rfind(p, 0) == 0` holds exactly when the characters of `p` are the first
characters of `name`. -/
theorem startsWith_iff (name p : String) : startsWith name p = true ↔ p.data <+: name.data := by
  unfold startsWith
  exact List.isPrefixOf_iff_prefix

/-- C8. Export skips internal nodes: a node whose name begins with the characters of
"internal-dpl" contributes no call at all; the content of the "workflow" array is, in the
original order, what the nodes whose name does not begin with these characters contribute;
and each of those contributes one object, opened by `StartObject` and its name and closed by
`EndObject`. So the node "internal-dpl-clock" is skipped, and the nodes "A" and "internal"
are written. -/
theorem dump_skips_internal_nodes (E : Env) (workflow : List DataProcessorSpec)
    (metadata : List DataProcessorInfo) (commandInfo : CommandInfo) :
    (∀ p : DataProcessorSpec, "internal-dpl".data <+: p.name.data →
        dumpProcessor E p = []) ∧
      dumpCalls E workflow metadata commandInfo =
        [.startObject, .key "workflow", .startArray]
        ++ (workflow.filter (fun p => decide (¬ "internal-dpl".data <+: p.name.data))).flatMap
            (dumpProcessor E)
        ++ [.endArray]
        ++ [.key "metadata", .startArray] ++ metadata.flatMap (dumpInfo E) ++ [.endArray]
        ++ [.key "command", .string (cstr commandInfo.command), .endObject] ∧
      (∀ p : DataProcessorSpec, ¬ "internal-dpl".data <+: p.name.data →
        ∃ body, dumpProcessor E p =
          [.startObject, .key "name", .string (cstr p.name)] ++ body ++ [.endObject]) ∧
      dumpProcessor E { name := "internal-dpl-clock" } = [] ∧
      (dumpProcessor E { name := "internal" }).take 3 =
        [.startObject, .key "name", .string "internal"] ∧
      (dumpCalls E [{ name := "internal-dpl-clock" }, { name := "A" }] [] {}).take 6 =
        [.startObject, .key "workflow", .startArray, .startObject, .key "name", .string "A"] := by
  have hfilter : (fun p : DataProcessorSpec => decide (¬ "internal-dpl".data <+: p.name.data))
      = (fun p => !startsWith p.name "internal-dpl") := by
    funext p
    by_cases h : "internal-dpl".data <+: p.name.data
    · simp [h, (startsWith_iff p.name "internal-dpl").2 h]
    · have : startsWith p.name "internal-dpl" = false := by
        cases hs : startsWith p.name "internal-dpl" with
        | false => rfl
        | true => exact absurd ((startsWith_iff _ _).1 hs) h
      simp [h, this]
  have h1 : startsWith "internal-dpl-clock" "internal-dpl" = true := by decide
  have h2 : startsWith "internal" "internal-dpl" = false := by decide
  have h3 : startsWith "A" "internal-dpl" = false := by decide
  have c2 : cstr "internal" = "internal" := by decide
  have c3 : cstr "A" = "A" := by decide
  refine ⟨fun p hp => by simp [dumpProcessor, (startsWith_iff _ _).2 hp], ?_, fun p hp => ?_,
    by simp [dumpProcessor, h1], by simp [dumpProcessor, h2, c2],
    by simp [dumpCalls, dumpProcessor, h1, h3, c3]⟩
  · have := flatMap_dumpProcessor E workflow
    unfold isExported at this
    rw [hfilter]
    simp only [dumpCalls, this]
  · have hs : startsWith p.name "internal-dpl" = false := by
      cases hs : startsWith p.name "internal-dpl" with
      | false => rfl
      | true => exact absurd ((startsWith_iff _ _).1 hs) hp
    refine ⟨[.key "inputs", .startArray] ++ p.inputs.flatMap (dumpInput E) ++ [.endArray]
      ++ [.key "outputs", .startArray] ++ p.outputs.flatMap (dumpOutput E) ++ [.endArray]
      ++ [.key "options", .startArray] ++ p.options.flatMap (dumpOption E) ++ [.endArray]
      ++ [.key "labels", .startArray]
      ++ p.labels.map (fun label => .string (cstr label)) ++ [.endArray]
      ++ [.key "rank", .int p.rank, .key "nSlots", .int p.nSlots,
          .key "inputTimeSliceId", .int p.inputTimeSliceId,
          .key "maxInputTimeslices", .int p.maxInputTimeslices], ?_⟩
    simp [dumpProcessor, hs]


theorem key_not_mem_metadataOptions (E : Env) (k : String) (opts : List ConfigParamSpec)
    (h1 : k ≠ "name") (h2 : k ≠ "type") (h3 : k ≠ "defaultValue") (h4 : k ≠ "help") :
    WriterCall.key k ∉ opts.flatMap (dumpMetadataOption E) := by
  simp [List.mem_flatMap, dumpMetadataOption, h1, h2, h3, h4]

/-- C10. Field presence on export: the object written for an input holds the key "origin"
exactly when `getOptionalOrigin` has a value, "description" exactly when
`getOptionalDescription` has one and "subspec" exactly when `getOptionalSubSpec` has one (an
absent field gives no key at all), while "binding" and "lifetime" are always written. -/
theorem dumpInput_field_presence (E : Env) (input : InputSpec) :
    (WriterCall.key "origin" ∈ dumpInput E input ↔ (E.getOptionalOrigin input).isSome) ∧
      (WriterCall.key "description" ∈ dumpInput E input ↔
        (E.getOptionalDescription input).isSome) ∧
      (WriterCall.key "subspec" ∈ dumpInput E input ↔ (E.getOptionalSubSpec input).isSome) ∧
      WriterCall.key "binding" ∈ dumpInput E input ∧
      WriterCall.key "lifetime" ∈ dumpInput E input := by
  have ho := key_not_mem_metadataOptions E "origin" input.metadata
    (by decide) (by decide) (by decide) (by decide)
  have hd := key_not_mem_metadataOptions E "description" input.metadata
    (by decide) (by decide) (by decide) (by decide)
  have hs := key_not_mem_metadataOptions E "subspec" input.metadata
    (by decide) (by decide) (by decide) (by decide)
  rw [dumpInput_eq]
  unfold dumpInputHead dumpMetadataArray
  cases h1 : E.getOptionalOrigin input <;> cases h2 : E.getOptionalDescription input <;>
    cases h3 : E.getOptionalSubSpec input <;>
    by_cases hm : input.metadata.isEmpty = false <;>
    simp [hm, ho, hd, hs]

end o2.framework

namespace o2.framework
open WorkflowSerializationHelpers WorkflowImporter

/-! ## Import of an exported document (C1, C2, C3, C4, C9) -/

theorem cstr_eq_self (s : String) (h : NUL ∉ s.data) : cstr s = s := by
  have : cstrChars s.data = s.data := by
    unfold cstrChars
    rw [List.takeWhile_eq_self_iff]
    intro x hx
    have : x ≠ NUL := fun e => h (e ▸ hx)
    simpa using this
  cases s
  simp only [cstr] at *
  simp [this]

theorem map_name_importedWorkflow (E : Env) (workflow : List DataProcessorSpec) :
    ∀ kind : Int, (importedWorkflow E kind workflow).map (fun p => p.name) =
      (workflow.filter isExported).map (fun p => cstr p.name) := by
  induction workflow with
  | nil => intro kind; rfl
  | cons p workflow ih =>
    intro kind
    by_cases h : isExported p = true
    · simp [importedWorkflow, h, ih, importedProcessor]
    · simp [importedWorkflow, h, ih]

set_option maxRecDepth 1000000 in
/-- C2, as stated, fails. A node name with a NUL character is written up to the NUL
(`w.String(processor.name.c_str())`), so another name is imported; and when the first of two
nodes has an option of type Int whose default value prints as "abc", `std::stoi` throws out of
the importer after the first node was pushed: one node for two. Both workflows have no
internal node, and the reader gives back the events of the writer. -/
theorem import_dump_names_counterexample :
    (startsWith "a\x00b" "internal-dpl" = false ∧
      refEnv.ReadsBack (dumpCalls refEnv [{ name := "a\x00b" }] [] {}) ∧
      (import_ refEnv (IStream.ofText (dump refEnv [{ name := "a\x00b" }] [] {}))
        [] [] {}).workflow.map (fun p => p.name) = ["a"]) ∧
    ((∀ p ∈ unreadableWorkflow, startsWith p.name "internal-dpl" = false) ∧
      unreadableWorkflow.length = 2 ∧
      refEnv.ReadsBack (dumpCalls refEnv unreadableWorkflow [] {}) ∧
      (import_ refEnv (IStream.ofText (dump refEnv unreadableWorkflow [] {}))
        [] [] {}).outcome = .faulted .exception ∧
      (import_ refEnv (IStream.ofText (dump refEnv unreadableWorkflow [] {}))
        [] [] {}).workflow.map (fun p => p.name) = ["A"]) := by
  refine ⟨⟨by decide, ⟨by decide, by decide⟩, by decide⟩,
    by decide, by decide, ⟨by decide, by decide⟩, by decide, by decide⟩

/-- C2, amended. For every workflow none of whose node names begins with "internal-dpl" or
holds a NUL character, and that the importer can read back (resource hints in [0, 2^31),
32 bit subspecifications, option types, kinds and default values accepted by the
conversions of the importer), importing the export into an empty workflow returns true and
yields exactly as many nodes, carrying the same names in the same order. -/
theorem import_dump_names (E : Env) (workflow : List DataProcessorSpec)
    (metadata : List DataProcessorInfo) (commandInfo : CommandInfo)
    (hwf : wellFormed E workflow metadata = true)
    (hrb : E.ReadsBack (dumpCalls E workflow metadata commandInfo))
    (hinternal : ∀ p ∈ workflow, startsWith p.name "internal-dpl" = false)
    (hnul : ∀ p ∈ workflow, NUL ∉ p.name.data) :
    (import_ E (IStream.ofText (dump E workflow metadata commandInfo)) [] [] {}).outcome
        = .returned true ∧
      (import_ E (IStream.ofText (dump E workflow metadata commandInfo)) [] [] {}).workflow.length
        = workflow.length ∧
      (import_ E (IStream.ofText (dump E workflow metadata commandInfo))
        [] [] {}).workflow.map (fun p => p.name) = workflow.map (fun p => p.name) := by
  rw [import_dump E workflow metadata commandInfo [] [] {} hwf hrb]
  have hfilter : workflow.filter isExported = workflow := by
    rw [List.filter_eq_self]
    intro p hp
    simp [isExported, hinternal p hp]
  have hnames : (importedWorkflow E E.uninit.optionKind workflow).map (fun p => p.name)
      = workflow.map (fun p => p.name) := by
    rw [map_name_importedWorkflow, hfilter]
    apply List.map_congr_left
    intro p hp
    exact cstr_eq_self p.name (hnul p hp)
  refine ⟨rfl, ?_, ?_⟩
  · have := congrArg List.length hnames
    simpa using this
  · simpa using hnames

set_option maxRecDepth 1000000 in
theorem sample_readsBack (c : CommandInfo) (h : c = ⟨"cmd"⟩) :
    refEnv.ReadsBack (dumpCalls refEnv sampleWorkflow sampleMetadata c) := by
  subst h
  exact ⟨by decide, by decide⟩

set_option maxRecDepth 1000000 in
theorem sample_wellFormed : wellFormed refEnv sampleWorkflow sampleMetadata = true := by
  decide

theorem import_dump_names_witness :
    wellFormed refEnv sampleWorkflow sampleMetadata = true ∧
      refEnv.ReadsBack (dumpCalls refEnv sampleWorkflow sampleMetadata ⟨"cmd"⟩) ∧
      (import_ refEnv (IStream.ofText (dump refEnv sampleWorkflow sampleMetadata ⟨"cmd"⟩))
        [] [] {}).workflow.map (fun p => p.name) = sampleWorkflow.map (fun p => p.name) :=
  ⟨sample_wellFormed, sample_readsBack _ rfl,
    (import_dump_names refEnv sampleWorkflow sampleMetadata ⟨"cmd"⟩ sample_wellFormed
      (sample_readsBack _ rfl) (by decide) (by decide)).2.2⟩

/-! ### The command (C3) -/

set_option maxRecDepth 1000000 in
/-- C3, as stated, fails: the command is written up to its first NUL character
(`w.String(commandInfo.command.c_str())`), so for the command "a", NUL, "b" the imported
command is "a"; and when a node has an option of type Int whose default value prints as
"abc", `std::stoi` throws out of the importer before the command is reached, and the command
stays empty. The reader gives back the events of the writer. -/
theorem import_dump_command_counterexample :
    (refEnv.ReadsBack (dumpCalls refEnv [] [] ⟨"a\x00b"⟩) ∧
      (import_ refEnv (IStream.ofText (dump refEnv [] [] ⟨"a\x00b"⟩)) [] [] {}).command
        = ⟨"a"⟩ ∧
      (⟨"a"⟩ : CommandInfo) ≠ ⟨"a\x00b"⟩) ∧
    (refEnv.ReadsBack (dumpCalls refEnv unreadableWorkflow [] ⟨"c"⟩) ∧
      (import_ refEnv (IStream.ofText (dump refEnv unreadableWorkflow [] ⟨"c"⟩))
        [] [] {}).outcome = .faulted .exception ∧
      (import_ refEnv (IStream.ofText (dump refEnv unreadableWorkflow [] ⟨"c"⟩))
        [] [] {}).command = ⟨""⟩) := by
  refine ⟨⟨⟨by decide, by decide⟩, by decide, by decide⟩,
    ⟨by decide, by decide⟩, by decide, by decide⟩

/-- C3, amended. For every command string without NUL character, and every workflow and
metadata that the importer can read back, importing the export into an initially empty
CommandInfo leaves that CommandInfo with the same command. -/
theorem import_dump_command (E : Env) (workflow : List DataProcessorSpec)
    (metadata : List DataProcessorInfo) (commandInfo : CommandInfo)
    (w0 : List DataProcessorSpec) (m0 : List DataProcessorInfo)
    (hwf : wellFormed E workflow metadata = true)
    (hrb : E.ReadsBack (dumpCalls E workflow metadata commandInfo))
    (hnul : NUL ∉ commandInfo.command.data) :
    (import_ E (IStream.ofText (dump E workflow metadata commandInfo)) w0 m0 {}).command
      = commandInfo := by
  rw [import_dump E workflow metadata commandInfo w0 m0 {} hwf hrb]
  show CommandInfo.merge {} ⟨cstr commandInfo.command⟩ = commandInfo
  rw [cstr_eq_self _ hnul]
  cases commandInfo
  simp [CommandInfo.merge]

theorem import_dump_command_witness :
    wellFormed refEnv sampleWorkflow sampleMetadata = true ∧
      refEnv.ReadsBack (dumpCalls refEnv sampleWorkflow sampleMetadata ⟨"cmd"⟩) ∧
      NUL ∉ "cmd".data ∧
      (import_ refEnv (IStream.ofText (dump refEnv sampleWorkflow sampleMetadata ⟨"cmd"⟩))
        [] [] {}).command = ⟨"cmd"⟩ :=
  ⟨sample_wellFormed, sample_readsBack _ rfl, by decide,
    import_dump_command refEnv sampleWorkflow sampleMetadata ⟨"cmd"⟩ [] [] sample_wellFormed
      (sample_readsBack _ rfl) (by decide)⟩

/-! ### Concrete inputs (C4) -/

theorem length_cstrChars_take_le (n : Nat) (cs : List Char) :
    (cstrChars (cs.take n)).length ≤ n := by
  unfold cstrChars
  exact ((List.takeWhile_sublist _).length_le).trans (by simp)

theorem cstrChars_idem (cs : List Char) : cstrChars (cstrChars cs) = cstrChars cs := by
  unfold cstrChars
  induction cs with
  | nil => rfl
  | cons c cs ih =>
    by_cases h : (c != NUL) = true
    · simp only [List.takeWhile_cons, h, if_true]
      exact congrArg (c :: ·) ih
    · simp only [List.takeWhile_cons, h, if_false, List.takeWhile_nil]
      rfl

/-- A tag read back from the text that `dump` wrote for it is that text. -/
theorem runtimeInit_strnlenChars (n : Nat) (s : String) :
    runtimeInit n ⟨(strnlenChars n s).data.take (min (strnlenChars n s).length n)⟩
      = strnlenChars n s := by
  have hlen := length_cstrChars_take_le n s.data
  have h1 : (strnlenChars n s).data = cstrChars (s.data.take n) := rfl
  have h2 : (strnlenChars n s).length = (cstrChars (s.data.take n)).length := rfl
  have h3 : (cstrChars (s.data.take n)).take (min (cstrChars (s.data.take n)).length n)
      = cstrChars (s.data.take n) := by
    rw [List.take_of_length_le]
    omega
  unfold runtimeInit
  rw [h1, h2, h3]
  simp only [String.length, h3, cstrChars_idem]
  rfl

theorem makeInputSpec_triple (b : String) (x y : String) (s l : Nat)
    (opts : List ConfigParamSpec) :
    makeInputSpec b [Node.origin x, Node.description y, Node.subSpec s] l opts =
      ⟨b, .concrete ⟨⟨runtimeInit 4 x⟩, ⟨runtimeInit 16 y⟩, s⟩, l, opts⟩ := rfl

theorem importedInput_concrete (E : Env) (kind : Int) (i : InputSpec) (o : DataOrigin)
    (d : DataDescription) (s : Nat) (ho : E.getOptionalOrigin i = some o)
    (hd : E.getOptionalDescription i = some d) (hs : E.getOptionalSubSpec i = some s) :
    (importedInput E kind i).matcher =
      .concrete ⟨⟨strnlenChars 4 o.str⟩, ⟨strnlenChars 16 d.str⟩, s⟩ := by
  unfold importedInput inputLeaves
  rw [ho, hd, hs]
  simp only [List.cons_append, List.nil_append, makeInputSpec_triple, runtimeInit_strnlenChars]

/-- C4. Conversion to ConcreteDataMatcher at import: when an exported document is imported,
every input whose object carries all three of origin, description and subspec (the three
`getOptional` functions have a value for it) becomes an InputSpec that stores a
ConcreteDataMatcher with the origin, description and subspec of the stream, not a matcher
tree. The imported nodes correspond one to one, in order, to the exported nodes, and so do
their inputs. -/
theorem import_dump_concrete_inputs (E : Env) (workflow : List DataProcessorSpec)
    (metadata : List DataProcessorInfo) (commandInfo : CommandInfo)
    (hwf : wellFormed E workflow metadata = true)
    (hrb : E.ReadsBack (dumpCalls E workflow metadata commandInfo)) :
    List.Forall₂
      (fun p q => List.Forall₂
        (fun (i j : InputSpec) => ∀ (o : DataOrigin) (d : DataDescription) (s : Nat),
          E.getOptionalOrigin i = some o → E.getOptionalDescription i = some d →
          E.getOptionalSubSpec i = some s →
          j.matcher = .concrete ⟨⟨strnlenChars 4 o.str⟩, ⟨strnlenChars 16 d.str⟩, s⟩)
        p.inputs q.inputs)
      (workflow.filter (fun p => !startsWith p.name "internal-dpl"))
      (import_ E (IStream.ofText (dump E workflow metadata commandInfo)) [] [] {}).workflow := by
  rw [import_dump E workflow metadata commandInfo [] [] {} hwf hrb]
  simp only [List.nil_append]
  clear hrb
  generalize E.uninit.optionKind = kind
  induction workflow generalizing kind with
  | nil => exact List.Forall₂.nil
  | cons p workflow ih =>
    have hwf' : wellFormed E workflow metadata = true := by
      have h := wellFormed_elim E (p :: workflow) metadata hwf
      simp only [wellFormed, Bool.and_eq_true, List.all_eq_true]
      refine ⟨fun q hq => h.1 q ?_, h.2⟩
      rw [List.filter_cons]
      split
      · exact List.mem_cons_of_mem _ hq
      · exact hq
    by_cases h : startsWith p.name "internal-dpl" = true
    · have hx : isExported p = false := by simp [isExported, h]
      simp only [List.filter_cons, h, Bool.not_true, Bool.false_eq_true, if_false,
        importedWorkflow, hx]
      exact ih hwf' kind
    · have hx : isExported p = true := by simpa [isExported] using h
      have hn : (!startsWith p.name "internal-dpl") = true := hx
      simp only [List.filter_cons, hn, if_true, importedWorkflow, hx]
      refine List.Forall₂.cons ?_ (ih hwf' _)
      show List.Forall₂ _ p.inputs (p.inputs.map (importedInput E kind))
      rw [List.forall₂_map_right_iff, List.forall₂_same]
      intro i _ o d s ho hd hs
      exact importedInput_concrete E kind i o d s ho hd hs

theorem import_dump_concrete_inputs_witness :
    wellFormed refEnv sampleWorkflow sampleMetadata = true ∧
      refEnv.ReadsBack (dumpCalls refEnv sampleWorkflow sampleMetadata ⟨"cmd"⟩) ∧
      List.Forall₂
        (fun p q => List.Forall₂
          (fun (i j : InputSpec) => ∀ (o : DataOrigin) (d : DataDescription) (s : Nat),
            refEnv.getOptionalOrigin i = some o → refEnv.getOptionalDescription i = some d →
            refEnv.getOptionalSubSpec i = some s →
            j.matcher = .concrete ⟨⟨strnlenChars 4 o.str⟩, ⟨strnlenChars 16 d.str⟩, s⟩)
          p.inputs q.inputs)
        (sampleWorkflow.filter (fun p => !startsWith p.name "internal-dpl"))
        (import_ refEnv (IStream.ofText (dump refEnv sampleWorkflow sampleMetadata ⟨"cmd"⟩))
          [] [] {}).workflow :=
  ⟨sample_wellFormed, sample_readsBack _ rfl,
    import_dump_concrete_inputs refEnv sampleWorkflow sampleMetadata ⟨"cmd"⟩ sample_wellFormed
      (sample_readsBack _ rfl)⟩

/-! ### Bindings of outputs (C9) -/

theorem binding_importedOutput (E : Env) (o : OutputSpec) :
    (importedOutput E o).binding = emittedBinding E o := by
  unfold importedOutput makeOutputSpec
  split <;> rfl

theorem map_bindings_importedWorkflow (E : Env) (workflow : List DataProcessorSpec) :
    ∀ kind : Int,
      (importedWorkflow E kind workflow).map (fun p => p.outputs.map (fun o => o.binding)) =
        (workflow.filter isExported).map (fun p => p.outputs.map (emittedBinding E)) := by
  induction workflow with
  | nil => intro kind; rfl
  | cons p workflow ih =>
    intro kind
    by_cases h : isExported p = true
    · simp only [importedWorkflow, h, if_true, List.map_cons, List.filter_cons, ih]
      congr 1
      simp only [importedProcessor, List.map_map]
      apply List.map_congr_left
      intro o _
      exact binding_importedOutput E o
    · simp [importedWorkflow, h, ih]

theorem take_dumpOutput (E : Env) (o : OutputSpec) :
    (dumpOutput E o).take 3 = [.startObject, .key "binding", .string (emittedBinding E o)] := by
  unfold dumpOutput emittedBinding
  split <;> rfl

set_option maxRecDepth 1000000 in
/-- C9, as stated, fails: the binding of an output is written up to its first NUL character
(`w.String(output.binding.value.c_str())`). The binding made of one NUL character is not
empty, so it is not replaced by `describe`; `dump` emits the empty string for it and
the imported output has the empty binding. And when an earlier node has an option of type Int
whose default value prints as "abc", `std::stoi` throws out of the importer before the
output with binding "out" is reached, and no output is imported. The reader gives back the
events of the writer. -/
theorem dump_binding_counterexample :
    (nulBindingWorkflow.map (fun p => p.outputs.map (fun o => o.binding.isEmpty)) = [[false]] ∧
      refEnv.ReadsBack (dumpCalls refEnv nulBindingWorkflow [] {}) ∧
      nulBindingWorkflow.map (fun p => p.outputs.map (fun o => (dumpOutput refEnv o).take 3))
        = [[[.startObject, .key "binding", .string ""]]] ∧
      (import_ refEnv (IStream.ofText (dump refEnv nulBindingWorkflow [] {}))
        [] [] {}).workflow.map (fun p => p.outputs.map (fun o => o.binding)) = [[""]]) ∧
    (unreadableWorkflow.map (fun p => p.outputs.map (fun o => o.binding)) = [[], ["out"]] ∧
      refEnv.ReadsBack (dumpCalls refEnv unreadableWorkflow [] {}) ∧
      (import_ refEnv (IStream.ofText (dump refEnv unreadableWorkflow [] {}))
        [] [] {}).outcome = .faulted .exception ∧
      (import_ refEnv (IStream.ofText (dump refEnv unreadableWorkflow [] {}))
        [] [] {}).workflow.map (fun p => p.outputs.map (fun o => o.binding)) = [[]]) := by
  refine ⟨⟨by decide, ⟨by decide, by decide⟩, by decide, by decide⟩,
    by decide, ⟨by decide, by decide⟩, by decide, by decide⟩

/-- C9, amended. Empty-binding substitution: for every output, `dump` opens the object of
the output with the key "binding" and a string; that string is `describe(output)` when the
binding is empty and `describe(output)` has no NUL character, and the binding itself when
the binding is not empty and has no NUL character. When a workflow that the importer can
read back is exported and imported, the bindings of the imported outputs are literally the
emitted strings, node by node and output by output. -/
theorem import_dump_bindings (E : Env) (workflow : List DataProcessorSpec)
    (metadata : List DataProcessorInfo) (commandInfo : CommandInfo)
    (hwf : wellFormed E workflow metadata = true)
    (hrb : E.ReadsBack (dumpCalls E workflow metadata commandInfo)) :
    (∀ o : OutputSpec,
      (dumpOutput E o).take 3 = [.startObject, .key "binding", .string (emittedBinding E o)] ∧
      (o.binding.isEmpty = true → NUL ∉ (E.describe o).data →
        emittedBinding E o = E.describe o) ∧
      (o.binding.isEmpty = false → NUL ∉ o.binding.data →
        emittedBinding E o = o.binding ∧ emittedBinding E o ≠ "")) ∧
    (import_ E (IStream.ofText (dump E workflow metadata commandInfo))
        [] [] {}).workflow.map (fun p => p.outputs.map (fun o => o.binding)) =
      (workflow.filter (fun p => !startsWith p.name "internal-dpl")).map
        (fun p => p.outputs.map (emittedBinding E)) := by
  refine ⟨fun o => ⟨take_dumpOutput E o, ?_, ?_⟩, ?_⟩
  · intro he hnul
    simp only [emittedBinding, he, if_true]
    exact cstr_eq_self _ hnul
  · intro he hnul
    have h1 : emittedBinding E o = o.binding := by
      simp only [emittedBinding, he, Bool.false_eq_true, if_false]
      exact cstr_eq_self _ hnul
    refine ⟨h1, ?_⟩
    rw [h1]
    intro h
    rw [h] at he
    exact absurd he (by decide)
  · rw [import_dump E workflow metadata commandInfo [] [] {} hwf hrb]
    exact map_bindings_importedWorkflow E workflow _

set_option maxRecDepth 1000000 in
theorem import_dump_bindings_witness :
    wellFormed refEnv sampleWorkflow sampleMetadata = true ∧
      refEnv.ReadsBack (dumpCalls refEnv sampleWorkflow sampleMetadata ⟨"cmd"⟩) ∧
      (import_ refEnv (IStream.ofText (dump refEnv sampleWorkflow sampleMetadata ⟨"cmd"⟩))
          [] [] {}).workflow.map (fun p => p.outputs.map (fun o => o.binding)) =
        (sampleWorkflow.filter (fun p => !startsWith p.name "internal-dpl")).map
          (fun p => p.outputs.map (emittedBinding refEnv)) ∧
      (sampleWorkflow.filter (fun p => !startsWith p.name "internal-dpl")).map
          (fun p => p.outputs.map (emittedBinding refEnv)) = [["TST/OUT/0", "out"]] :=
  ⟨sample_wellFormed, sample_readsBack _ rfl,
    (import_dump_bindings refEnv sampleWorkflow sampleMetadata ⟨"cmd"⟩ sample_wellFormed
      (sample_readsBack _ rfl)).2, by decide⟩

/-! ### The round trip (C1) -/

set_option maxRecDepth 1000000 in
/-- C1 fails on the code: an option in the metadata of an output is exported, read into
`outputOptions` by the importer and never attached to the imported OutputSpec
(`EndObject` builds it without metadata), so the second export has no "metadata" array for
that output and differs from the first. The import returns true and the reader gives back the
events of the writer. -/
theorem dump_import_dump_output_metadata :
    refEnv.ReadsBack (dumpCalls refEnv outputMetadataWorkflow [] {}) ∧
      (import_ refEnv (IStream.ofText (dump refEnv outputMetadataWorkflow [] {}))
        [] [] {}).outcome = .returned true ∧
      (import_ refEnv (IStream.ofText (dump refEnv outputMetadataWorkflow [] {}))
        [] [] {}).workflow.map (fun p => p.outputs.map (fun o => o.metadata)) = [[[]]] ∧
      dump refEnv
          (import_ refEnv (IStream.ofText (dump refEnv outputMetadataWorkflow [] {}))
            [] [] {}).workflow
          (import_ refEnv (IStream.ofText (dump refEnv outputMetadataWorkflow [] {}))
            [] [] {}).metadata
          (import_ refEnv (IStream.ofText (dump refEnv outputMetadataWorkflow [] {}))
            [] [] {}).command
        ≠ dump refEnv outputMetadataWorkflow [] {} := by
  refine ⟨⟨by decide, by decide⟩, by decide, by decide, by decide⟩

end o2.framework

namespace o2.framework
open WorkflowSerializationHelpers WorkflowImporter

/-! ## Objects of the stream (C11, C13) -/

theorem buildMatcher_eq_foldr (nodes : List Node) :
    buildMatcher nodes =
      nodes.foldr (fun l acc => Node.matcher .And l acc) (Node.just .startTime) := by
  unfold buildMatcher
  rw [List.foldl_reverse]

/-- A member read in an input object: the stack returns to `IN_INPUT` and the leaf of the
member, if it has one, is appended to `inputMatcherNodes`. -/
theorem run_member_input (E : Env) (m : Member) (d : WorkflowImporter) (r : List State)
    (h : d.states = .IN_INPUT :: r) (hm : m.readable E = true) :
    ∃ st, run E (m.events E) d = .ok st ∧ st.states = .IN_INPUT :: r ∧
      st.dataProcessors = d.dataProcessors ∧ st.metadata = d.metadata ∧
      st.command = d.command ∧
      st.inputMatcherNodes = d.inputMatcherNodes ++ m.leaf.toList := by
  cases m with
  | metadata options =>
    have hall : ∀ o ∈ options, wfMetadataOption E o = true := by
      simpa [Member.readable, List.all_eq_true] using hm
    obtain ⟨st, h1, h2, h3, _⟩ := inputOptions_array E r options d hall
    rw [setStates_of_states d _ h] at h1
    refine ⟨st, h1, h2, congrArg View.dataProcessors h3, congrArg View.metadata h3,
      congrArg View.command h3, ?_⟩
    have := congrArg View.inputMatcherNodes h3
    simpa [Member.leaf] using this
  | _ =>
    simp +decide [Member.events, Member.leaf, run, handle, Key, String_, Uint, «in», push, pop, h]

theorem run_members_input (E : Env) (ms : List Member) (r : List State) :
    ∀ d : WorkflowImporter, d.states = .IN_INPUT :: r → (∀ m ∈ ms, m.readable E = true) →
      ∃ st, run E (ms.flatMap (Member.events E)) d = .ok st ∧ st.states = .IN_INPUT :: r ∧
        st.dataProcessors = d.dataProcessors ∧ st.metadata = d.metadata ∧
        st.command = d.command ∧
        st.inputMatcherNodes = d.inputMatcherNodes ++ ms.filterMap Member.leaf := by
  induction ms with
  | nil => intro d h _; exact ⟨d, rfl, h, rfl, rfl, rfl, by simp⟩
  | cons m ms ih =>
    intro d h hm
    obtain ⟨s1, h1, h2, h3, h4, h5, h7⟩ :=
      run_member_input E m d r h (hm m (List.mem_cons_self _ _))
    obtain ⟨s2, g1, g2, g3, g4, g5, g7⟩ :=
      ih s1 h2 (fun x hx => hm x (List.mem_cons_of_mem _ hx))
    refine ⟨s2, ?_, g2, g3.trans h3, g4.trans h4, g5.trans h5, ?_⟩
    · rw [List.flatMap_cons, run_append_ok E _ _ d s1 h1, g1]
    · rw [g7, h7]
      cases hl : m.leaf <;> simp [List.filterMap_cons, hl]

/-- `EndObject` in an input object pushes the InputSpec built on the accumulated leaves. -/
theorem endObject_in_input (E : Env) (d : WorkflowImporter) (r : List State)
    (dps : List DataProcessorSpec) (p : DataProcessorSpec)
    (hs : d.states = .IN_INPUT :: r) (hp : d.dataProcessors = dps ++ [p]) :
    ∃ st, EndObject E d = .ok st ∧ st.states = r ∧
      st.dataProcessors = dps ++ [{ p with inputs := p.inputs ++
        [makeInputSpec d.binding d.inputMatcherNodes d.lifetime d.inputOptions] }] ∧
      st.inputMatcherNodes = [] := by
  simp +decide [EndObject, «in», pop, hs, onBackProcessor, hp, modifyBack_concat]

theorem matcher_makeInputSpec (b : String) (nodes : List Node) (l : Nat)
    (opts : List ConfigParamSpec) :
    (makeInputSpec b nodes l opts).matcher =
      match DataSpecUtils.optionalConcreteDataMatcherFrom (buildMatcher nodes) with
      | some c => .concrete c
      | none => .tree (buildMatcher nodes) := by
  unfold makeInputSpec
  cases h : DataSpecUtils.optionalConcreteDataMatcherFrom (buildMatcher nodes) <;> simp [h]

/-- C13. Matcher fold at import: the matcher that `EndObject` builds from the leaves
l1, ..., ln accumulated for an input object is And(l1, And(l2, ... And(ln, Just(StartTime)))),
right-associated with the StartTime leaf innermost, and the lone Just(StartTime) for no
leaf. The leaves are those of the members of the object in stream order: for every input
object read in the `inputs` array of a node, the first one (after `StartArray`, no leaf
pending) or a later one, the importer appends to the node one InputSpec that stores this fold
of the leaves of its members, or the concrete matcher that the reduction makes of the fold. -/
theorem import_matcher_fold (E : Env) (members : List Member) (d : WorkflowImporter)
    (r : List State) (dps : List DataProcessorSpec) (p : DataProcessorSpec)
    (hs : d.states = .IN_INPUTS :: r ∨
      (d.states = .IN_INPUT :: .IN_INPUTS :: r ∧ d.inputMatcherNodes = []))
    (hp : d.dataProcessors = dps ++ [p])
    (hm : ∀ m ∈ members, m.readable E = true) :
    (∀ nodes : List Node, buildMatcher nodes =
        nodes.foldr (fun l acc => Node.matcher .And l acc)
          (Node.matcher .Just Node.startTime (Node.constant false))) ∧
      buildMatcher [] = Node.matcher .Just Node.startTime (Node.constant false) ∧
      ∃ st i, run E (objectEvents E members) d = .ok st ∧ st.states = .IN_INPUTS :: r ∧
        st.dataProcessors = dps ++ [{ p with inputs := p.inputs ++ [i] }] ∧
        i.matcher =
          match DataSpecUtils.optionalConcreteDataMatcherFrom
              ((members.filterMap Member.leaf).foldr (fun l acc => Node.matcher .And l acc)
                (Node.matcher .Just Node.startTime (Node.constant false))) with
          | some c => .concrete c
          | none => .tree
              ((members.filterMap Member.leaf).foldr (fun l acc => Node.matcher .And l acc)
                (Node.matcher .Just Node.startTime (Node.constant false))) := by
  refine ⟨buildMatcher_eq_foldr, rfl, ?_⟩
  have h0 : ∃ d1, run E [.startObject] d = .ok d1 ∧
      d1.states = .IN_INPUT :: .IN_INPUTS :: r ∧ d1.inputMatcherNodes = [] ∧
      d1.dataProcessors = d.dataProcessors := by
    rcases hs with hs | ⟨hs, hn⟩
    · exact ⟨{ d.push .IN_INPUT with inputMatcherNodes := [] },
        by simp +decide [run, handle, StartObject, «in», hs], by simp [push, hs], rfl, rfl⟩
    · exact ⟨d, by simp +decide [run, handle, StartObject, «in», hs], hs, hn, rfl⟩
  obtain ⟨d1, h0, k1, k2, k3⟩ := h0
  obtain ⟨s1, h1, h2, h3, _, _, h7⟩ := run_members_input E members (.IN_INPUTS :: r) d1 k1 hm
  obtain ⟨s2, g1, g2, g3, _⟩ := endObject_in_input E s1 (.IN_INPUTS :: r) dps p h2
    ((h3.trans k3).trans hp)
  refine ⟨s2, _, ?_, g2, g3, ?_⟩
  · unfold objectEvents
    rw [List.append_assoc, run_append_ok E _ _ d _ h0, run_append_ok E _ _ _ s1 h1]
    simp [run, handle, g1]
  · rw [matcher_makeInputSpec, h7, k2, buildMatcher_eq_foldr]
    simp only [List.nil_append]
    rfl

theorem import_matcher_fold_witness :
    ∃ st i, run refEnv
        (objectEvents refEnv [.binding "x", .origin "TST", .description "DATA", .subspec 1,
          .lifetime 0])
        ((create refEnv.uninit [{ name := "A" }] [] {}).setStates [.IN_INPUTS]) = .ok st ∧
      st.states = [.IN_INPUTS] ∧
      st.dataProcessors = [] ++ [{ ({ name := "A" } : DataProcessorSpec) with
        inputs := ({ name := "A" } : DataProcessorSpec).inputs ++ [i] }] ∧
      i.matcher = .concrete ⟨⟨"TST"⟩, ⟨"DATA"⟩, 1⟩ :=
  (import_matcher_fold refEnv
    [.binding "x", .origin "TST", .description "DATA", .subspec 1, .lifetime 0]
    ((create refEnv.uninit [{ name := "A" }] [] {}).setStates [.IN_INPUTS]) [] []
    { name := "A" } (Or.inl rfl) rfl (by decide)).2.2

end o2.framework

namespace o2.framework
open WorkflowSerializationHelpers WorkflowImporter

end o2.framework

namespace o2.framework
open WorkflowSerializationHelpers WorkflowImporter

theorem flatMap_dumpOption_filter (E : Env) (options : List ConfigParamSpec) :
    options.flatMap (dumpOption E) =
      (options.filter (fun o => decide (o.name ∉ ["start-value-enumeration",
          "end-value-enumeration", "step-value-enumeration", "orbit-offset-enumeration",
          "orbit-multiplier-enumeration"]))).flatMap
        (fun o =>
          [.startObject,
           .key "name", .string (cstr o.name),
           .key "type", .string (cstr (E.to_string o.type.val)),
           .key "defaultValue",
           .string (cstr (if isStructuredType o.type then E.writeVariant o.defaultValue
                          else E.printVariant o.defaultValue)),
           .key "help", .string (cstr o.help),
           .key "kind", .string (cstr (E.to_string o.kind)),
           .endObject]) := by
  induction options with
  | nil => rfl
  | cons o options ih =>
    by_cases h : isEnumerationOption o.name = true
    · have h' := h
      simp only [isEnumerationOption, Bool.or_eq_true, beq_iff_eq] at h'
      have hk : decide (o.name ∉ ["start-value-enumeration",
          "end-value-enumeration", "step-value-enumeration", "orbit-offset-enumeration",
          "orbit-multiplier-enumeration"]) = false := by
        simp only [decide_eq_false_iff_not, not_not, List.mem_cons, List.mem_singleton,
          List.not_mem_nil, or_false]
        tauto
      rw [List.flatMap_cons, List.filter_cons, hk, ih]
      simp [dumpOption, h]
    · have h' := h
      simp only [isEnumerationOption, Bool.or_eq_true, beq_iff_eq] at h'
      have hk : decide (o.name ∉ ["start-value-enumeration",
          "end-value-enumeration", "step-value-enumeration", "orbit-offset-enumeration",
          "orbit-multiplier-enumeration"]) = true := by
        simp only [decide_eq_true_eq, List.mem_cons, List.mem_singleton,
          List.not_mem_nil, or_false]
        tauto
      rw [List.flatMap_cons, List.filter_cons, hk, ih]
      simp [dumpOption, h]

/-- C12. Option filtering on export: the "options" array that `dump` writes for a node
holds, in their original order, one object for each option of the node whose name is none of
"start-value-enumeration", "end-value-enumeration", "step-value-enumeration",
"orbit-offset-enumeration" and "orbit-multiplier-enumeration", and nothing else. -/
theorem dump_options_filtered (E : Env) (p : DataProcessorSpec)
    (hp : startsWith p.name "internal-dpl" = false) :
    dumpProcessor E p =
      [.startObject, .key "name", .string (cstr p.name)]
      ++ [.key "inputs", .startArray] ++ p.inputs.flatMap (dumpInput E) ++ [.endArray]
      ++ [.key "outputs", .startArray] ++ p.outputs.flatMap (dumpOutput E) ++ [.endArray]
      ++ [.key "options", .startArray]
      ++ (p.options.filter (fun o => decide (o.name ∉ ["start-value-enumeration",
            "end-value-enumeration", "step-value-enumeration", "orbit-offset-enumeration",
            "orbit-multiplier-enumeration"]))).flatMap
          (fun o =>
            [.startObject,
             .key "name", .string (cstr o.name),
             .key "type", .string (cstr (E.to_string o.type.val)),
             .key "defaultValue",
             .string (cstr (if isStructuredType o.type then E.writeVariant o.defaultValue
                            else E.printVariant o.defaultValue)),
             .key "help", .string (cstr o.help),
             .key "kind", .string (cstr (E.to_string o.kind)),
             .endObject])
      ++ [.endArray]
      ++ [.key "labels", .startArray]
      ++ p.labels.map (fun label => .string (cstr label)) ++ [.endArray]
      ++ [.key "rank", .int p.rank,
          .key "nSlots", .int p.nSlots,
          .key "inputTimeSliceId", .int p.inputTimeSliceId,
          .key "maxInputTimeslices", .int p.maxInputTimeslices,
          .endObject] := by
  rw [← flatMap_dumpOption_filter]
  simp [dumpProcessor, hp]

set_option maxRecDepth 100000 in
theorem dump_options_filtered_witness :
    dumpProcessor refEnv enumerationOptionsNode =
      [.startObject, .key "name", .string "A",
       .key "inputs", .startArray, .endArray,
       .key "outputs", .startArray, .endArray,
       .key "options", .startArray,
       .startObject, .key "name", .string "x", .key "type", .string "0",
       .key "defaultValue", .string "1", .key "help", .string "h", .key "kind", .string "0",
       .endObject,
       .startObject, .key "name", .string "y", .key "type", .string "4",
       .key "defaultValue", .string "v", .key "help", .string "", .key "kind", .string "1",
       .endObject,
       .endArray,
       .key "labels", .startArray, .endArray,
       .key "rank", .int 0, .key "nSlots", .int 1, .key "inputTimeSliceId", .int 0,
       .key "maxInputTimeslices", .int 1, .endObject] :=
  (dump_options_filtered refEnv enumerationOptionsNode (by decide)).trans (by decide)

end o2.framework

namespace o2.framework
open WorkflowSerializationHelpers WorkflowImporter

/-! ## Arrays (C14) -/

theorem exists_concat_of_not_isEmpty {α : Type} (xs : List α) (h : (!xs.isEmpty) = true) :
    ∃ ys y, xs = ys ++ [y] := by
  have hne : xs ≠ [] := by
    intro e
    simp [e] at h
  exact ⟨xs.dropLast, xs.getLast hne, (List.dropLast_append_getLast hne).symm⟩

/-- An empty array under any of the array-valued keys. -/
theorem run_empty_array (E : Env) (c : ArrayContent) (d : WorkflowImporter) (r : List State)
    (hs : d.states = c.parent :: r) :
    ∃ st, run E [.key c.key, .startArray, .endArray] d = .ok st ∧
      st.states = c.parent :: r ∧ st.dataProcessors = d.dataProcessors ∧
      st.metadata = d.metadata ∧ st.command = d.command ∧
      st.inputOptions = d.inputOptions ∧ st.outputOptions = d.outputOptions ∧
      st.inputMatcherNodes = d.inputMatcherNodes := by
  cases c <;> simp only [ArrayContent.parent] at hs <;>
    simp +decide [ArrayContent.key, ArrayContent.parent, run, handle, Key, StartArray, EndArray,
      «in», push, pop, hs]

theorem saxEvents_array (k : String) (elems : List WriterCall) :
    saxEvents ([.key k, .startArray] ++ elems ++ [.endArray]) =
      [.key k, .startArray] ++ saxEvents elems ++ [.endArray] := by
  simp [saxEvents, sax]

/-- An array with the elements that `dump` writes, under any of the array-valued keys. -/
theorem run_array_content (E : Env) (c : ArrayContent) (d : WorkflowImporter) (r : List State)
    (hs : d.states = c.parent :: r) (hr : c.readable E = true) (hd : c.ready d = true) :
    ∃ st, run E ([.key c.key, .startArray] ++ saxEvents (c.elements E) ++ [.endArray]) d
        = .ok st ∧ st.states = c.parent :: r := by
  rw [← saxEvents_array]
  cases c with
  | workflow nodes =>
    replace hs : d.states = State.IN_EXECUTION :: r := hs
    simp only [ArrayContent.ready, Bool.and_eq_true, List.isEmpty_iff] at hd
    simp only [ArrayContent.readable, List.all_eq_true] at hr
    obtain ⟨st, h1, h2, _⟩ := workflow_array E r nodes d ⟨hd.1, hd.2⟩ hr
    rw [setStates_of_states d _ hs] at h1
    exact ⟨st, h1, h2⟩
  | metadata infos =>
    replace hs : d.states = State.IN_EXECUTION :: r := hs
    simp only [ArrayContent.readable, List.all_eq_true] at hr
    obtain ⟨st, h1, h2, _⟩ := metadata_array E r infos d hr
    rw [setStates_of_states d _ hs] at h1
    exact ⟨st, h1, h2⟩
  | inputs xs =>
    replace hs : d.states = State.IN_DATAPROCESSOR :: r := hs
    simp only [ArrayContent.ready, Bool.and_eq_true, List.isEmpty_iff] at hd
    simp only [ArrayContent.readable, List.all_eq_true] at hr
    obtain ⟨dps, p, hp⟩ := exists_concat_of_not_isEmpty _ hd.2
    obtain ⟨st, h1, h2, _⟩ := inputs_array E r xs d dps p hd.1.1 hd.1.2 hp hr
    rw [setStates_of_states d _ hs] at h1
    exact ⟨st, h1, h2⟩
  | outputs xs =>
    replace hs : d.states = State.IN_DATAPROCESSOR :: r := hs
    simp only [ArrayContent.readable, List.all_eq_true] at hr
    obtain ⟨dps, p, hp⟩ := exists_concat_of_not_isEmpty _ hd
    obtain ⟨st, h1, h2, _⟩ := outputs_array E r xs d dps p hp hr
    rw [setStates_of_states d _ hs] at h1
    exact ⟨st, h1, h2⟩
  | options xs =>
    replace hs : d.states = State.IN_DATAPROCESSOR :: r := hs
    simp only [ArrayContent.readable, List.all_eq_true] at hr
    obtain ⟨dps, p, hp⟩ := exists_concat_of_not_isEmpty _ hd
    obtain ⟨st, h1, h2, _⟩ := options_array E r xs d dps p hp hr
    rw [setStates_of_states d _ hs] at h1
    exact ⟨st, h1, h2⟩
  | labels xs =>
    replace hs : d.states = State.IN_DATAPROCESSOR :: r := hs
    obtain ⟨dps, p, hp⟩ := exists_concat_of_not_isEmpty _ hd
    obtain ⟨st, h1, h2, _⟩ := labels_array E r xs d dps p hp
    rw [setStates_of_states d _ hs] at h1
    exact ⟨st, h1, h2⟩
  | inputMetadata xs =>
    replace hs : d.states = State.IN_INPUT :: r := hs
    simp only [ArrayContent.readable, List.all_eq_true] at hr
    obtain ⟨st, h1, h2, _⟩ := inputOptions_array E r xs d hr
    rw [setStates_of_states d _ hs] at h1
    exact ⟨st, h1, h2⟩
  | outputMetadata xs =>
    replace hs : d.states = State.IN_OUTPUT :: r := hs
    simp only [ArrayContent.readable, List.all_eq_true] at hr
    obtain ⟨st, h1, h2, _⟩ := outputOptions_array E r xs d hr
    rw [setStates_of_states d _ hs] at h1
    exact ⟨st, h1, h2⟩
  | cmdLineArgs xs =>
    replace hs : d.states = State.IN_METADATUM :: r := hs
    obtain ⟨ms, m, hp⟩ := exists_concat_of_not_isEmpty _ hd
    obtain ⟨st, h1, h2, _⟩ := args_array E r xs d ms m hp
    rw [setStates_of_states d _ hs] at h1
    exact ⟨st, h1, h2⟩
  | workflowOptions xs =>
    replace hs : d.states = State.IN_METADATUM :: r := hs
    simp only [ArrayContent.readable, List.all_eq_true] at hr
    obtain ⟨ms, m, hp⟩ := exists_concat_of_not_isEmpty _ hd
    obtain ⟨st, h1, h2, _⟩ := workflowOptions_array E r xs d ms m hp hr
    rw [setStates_of_states d _ hs] at h1
    exact ⟨st, h1, h2⟩
  | channels xs =>
    replace hs : d.states = State.IN_METADATUM :: r := hs
    obtain ⟨ms, m, hp⟩ := exists_concat_of_not_isEmpty _ hd
    obtain ⟨st, h1, h2, _⟩ := channels_array E r xs d ms m hp
    rw [setStates_of_states d _ hs] at h1
    exact ⟨st, h1, h2⟩

/-- C14. Empty arrays: for each array-valued key of the wire format (workflow, top-level
metadata, inputs, outputs, options, labels, metadata of an input and of an output,
cmdLineArgs, workflowOptions, channels), the events Key, StartArray, EndArray leave the state
stack exactly as it was before the Key event and add nothing to the nodes, the metadata, the
command or the pending options and matcher leaves; and the stack after the EndArray of an
array with the elements that `dump` writes, however many, is that same stack. -/
theorem import_array_stack (E : Env) (c : ArrayContent) (d : WorkflowImporter)
    (r : List State) (hs : d.states = c.parent :: r) :
    (∃ st, run E [.key c.key, .startArray, .endArray] d = .ok st ∧
      st.states = d.states ∧ st.dataProcessors = d.dataProcessors ∧
      st.metadata = d.metadata ∧ st.command = d.command ∧
      st.inputOptions = d.inputOptions ∧ st.outputOptions = d.outputOptions ∧
      st.inputMatcherNodes = d.inputMatcherNodes) ∧
    (c.readable E = true → c.ready d = true →
      ∃ st, run E ([.key c.key, .startArray] ++ saxEvents (c.elements E) ++ [.endArray]) d
          = .ok st ∧ st.states = d.states) := by
  rw [hs]
  exact ⟨run_empty_array E c d r hs, run_array_content E c d r hs⟩

theorem import_array_stack_witness :
    (∃ st, run refEnv [.key "labels", .startArray, .endArray]
        ((create refEnv.uninit [{ name := "A" }] [] {}).setStates [.IN_DATAPROCESSOR]) = .ok st ∧
      st.states = [.IN_DATAPROCESSOR] ∧ st.dataProcessors = [{ name := "A" }]) ∧
    (∃ st, run refEnv [.key "labels", .startArray, .string "a", .string "b", .endArray]
        ((create refEnv.uninit [{ name := "A" }] [] {}).setStates [.IN_DATAPROCESSOR]) = .ok st ∧
      st.states = [.IN_DATAPROCESSOR]) :=
  have h := import_array_stack refEnv (.labels ["a", "b"])
    ((create refEnv.uninit [{ name := "A" }] [] {}).setStates [.IN_DATAPROCESSOR]) [] rfl
  ⟨by
    obtain ⟨st, h1, h2, h3, _⟩ := h.1
    exact ⟨st, h1, h2, h3⟩,
   h.2 rfl rfl⟩

end o2.framework

namespace o2.framework
open WorkflowSerializationHelpers WorkflowImporter

/-! ## Failures of the import (C15, C16) -/

end o2.framework

namespace o2.framework
open WorkflowSerializationHelpers WorkflowImporter

set_option maxRecDepth 1000000 in
/-- C16, as stated, fails: the importer works on the caller's vectors, so the node read
before the payload breaks off is in the caller's workflow when `import` throws the parse
error. The workflow was empty before the call. -/
theorem import_truncated_counterexample :
    refEnv.parse truncatedPayload =
        ([.startObject, .key "workflow", .startArray, .startObject, .key "name", .string "A",
          .endObject], false) ∧
      import_ refEnv (IStream.ofText truncatedPayload) [] [] {} =
        ⟨.threw "Error while parsing serialised workflow", [{ name := "A" }], [], {}⟩ := by
  refine ⟨by decide, by decide⟩

/-- C16, amended. When `import` throws "Malformatted input workflow", before the payload,
the caller's workflow, metadata and command are the same after the throw as before the
call. When it throws the parse error of a malformed or truncated payload, they hold what the
handlers built, on the caller's own objects, from the events delivered before the error:
the nodes of the incomplete payload read so far are exposed. -/
theorem import_throw_state (E : Env) :
    (∀ (s : IStream) (w : List DataProcessorSpec) (m : List DataProcessorInfo)
        (c : CommandInfo),
      (import_ E s w m c).outcome = .threw "Malformatted input workflow" →
        (import_ E s w m c).workflow = w ∧ (import_ E s w m c).metadata = m ∧
          (import_ E s w m c).command = c) ∧
    (∀ (tail : List Char) (evs : List Event) (w : List DataProcessorSpec)
        (m : List DataProcessorInfo) (c : CommandInfo) (st : WorkflowImporter),
      E.parse ('{' :: tail) = (evs, false) → run E evs (create E.uninit w m c) = .ok st →
        import_ E (IStream.ofText ('{' :: tail)) w m c =
          ⟨.threw "Error while parsing serialised workflow", st.dataProcessors, st.metadata,
            st.command⟩) := by
  constructor
  · intro s w m c h
    unfold import_ at h ⊢
    cases hp : prescan (s.buf.length + 2) s false with
    | outOfFuel => simp only [hp]; exact ⟨trivial, trivial, trivial⟩
    | noWorkflow fatal => simp only [hp]; exact ⟨trivial, trivial, trivial⟩
    | malformatted => simp only [hp]; exact ⟨trivial, trivial, trivial⟩
    | payload s1 fatal =>
      exfalso
      simp only [hp] at h
      split at h
      · simp at h
      · revert h
        split
        · simp
        · split <;> simp +decide
  · intro tail evs w m c st hparse hrun
    rw [import_of_brace, hparse]
    simp only [hrun, Bool.false_eq_true, if_false]

end o2.framework

namespace o2.framework
open WorkflowSerializationHelpers WorkflowImporter

/-! ## Default values of options (C17) -/

theorem decodeDefault_structured (E : Env) (t : VariantType) (text content : String)
    (ht : t ∈ structuredReadTypes) (hread : E.readVariant t text = some content) :
    decodeDefault E t text = .ok (.structured t content) := by
  simp only [structuredReadTypes, List.mem_cons, List.mem_singleton, List.not_mem_nil,
    or_false] at ht
  rcases ht with rfl | rfl | rfl | rfl | rfl | rfl | rfl | rfl | rfl | rfl <;>
    simp +decide [decodeDefault, hread]

set_option maxRecDepth 1000000 in
/-- C17, as stated, fails for two of the twelve kinds. `dump` writes the default value of an
option of kind ArrayBool or Dict with `VariantJSONHelpers::write`, but `EndObject` has no case
for ArrayBool (it is commented out), so the text is stored as a string, and builds
`emptyDict()` for Dict whatever the text is. The option of kind ArrayInt of the same node is
read with `VariantJSONHelpers::read`. -/
theorem import_structured_default_counterexample :
    structuredOptionsWorkflow.map (fun p => p.options.map (fun o => isStructuredType o.type))
        = [[true, true, true]] ∧
      refEnv.ReadsBack (dumpCalls refEnv structuredOptionsWorkflow [] {}) ∧
      (import_ refEnv (IStream.ofText (dump refEnv structuredOptionsWorkflow [] {}))
          [] [] {}).outcome = .returned true ∧
      (import_ refEnv (IStream.ofText (dump refEnv structuredOptionsWorkflow [] {}))
          [] [] {}).workflow.map (fun p => p.options.map (fun o => o.defaultValue))
        = [[.stdString "[1,0]", .emptyDict, .structured VariantType.ArrayInt "[1,2]"]] := by
  refine ⟨by decide, ⟨by decide, by decide⟩, by decide, by decide⟩

/-- C17, amended. Structured option defaults: for every option object of the `options` array
of a node whose type tag, read as an integer, is one of ArrayInt, ArrayFloat, ArrayDouble,
ArrayString, Array2DInt, Array2DFloat, Array2DDouble, LabeledArrayInt, LabeledArrayFloat and
LabeledArrayDouble, the importer decodes the "defaultValue" text with
`VariantJSONHelpers::read` of that same kind, and the option it adds to the node has the
declared kind and the value read; these kinds are among those that `dump` writes with
`VariantJSONHelpers::write`. For the kind ArrayBool the text itself is stored, as a string,
and for the kind Dict an empty dictionary. -/
theorem import_structured_default (E : Env) (d : WorkflowImporter) (r : List State)
    (dps : List DataProcessorSpec) (p : DataProcessorSpec)
    (name type text help kind content : String) (t : VariantType) (k : Int)
    (hs : d.states = .IN_OPTIONS :: r ∨ d.states = .IN_OPTION :: .IN_OPTIONS :: r)
    (hp : d.dataProcessors = dps ++ [p])
    (htype : E.stoi type = some t.val) (hkind : E.stoi kind = some k)
    (ht : t ∈ structuredReadTypes) (hread : E.readVariant t text = some content) :
    (∃ st, run E [.startObject, .key "name", .string name, .key "type", .string type,
          .key "defaultValue", .string text, .key "help", .string help,
          .key "kind", .string kind, .endObject] d = .ok st ∧
        st.states = .IN_OPTIONS :: r ∧
        st.dataProcessors = dps ++ [{ p with options := p.options ++
          [⟨name, t, .structured t content, help, k⟩] }]) ∧
      isStructuredType t = true ∧
      (∀ s : String, decodeDefault E .ArrayBool s = .ok (.stdString s)) ∧
      (∀ s : String, decodeDefault E .Dict s = .ok .emptyDict) := by
  refine ⟨?_, ?_, fun s => by simp +decide [decodeDefault],
    fun s => by simp +decide [decodeDefault]⟩
  · have hdec := decodeDefault_structured E t text content ht hread
    have ht' : (⟨t.val⟩ : VariantType) = t := rfl
    rcases hs with hs | hs <;>
      simp +decide [run, handle, StartObject, Key, String_, EndObject, «in», previousIs, push,
        pop, hs, htype, hkind, ht', hdec, onBackProcessor, hp, modifyBack_concat]
  · simp only [structuredReadTypes, List.mem_cons, List.mem_singleton, List.not_mem_nil,
      or_false] at ht
    rcases ht with rfl | rfl | rfl | rfl | rfl | rfl | rfl | rfl | rfl | rfl <;> decide

theorem import_structured_default_witness :
    ∃ st, run refEnv [.startObject, .key "name", .string "ints", .key "type", .string "6",
          .key "defaultValue", .string "[1,2]", .key "help", .string "h",
          .key "kind", .string "0", .endObject]
        ((create refEnv.uninit [{ name := "A" }] [] {}).setStates [.IN_OPTIONS]) = .ok st ∧
      st.states = [.IN_OPTIONS] ∧
      st.dataProcessors = [] ++ [{ ({ name := "A" } : DataProcessorSpec) with
        options := ({ name := "A" } : DataProcessorSpec).options ++
          [⟨"ints", VariantType.ArrayInt, .structured VariantType.ArrayInt "[1,2]", "h", 0⟩] }] :=
  (import_structured_default refEnv
    ((create refEnv.uninit [{ name := "A" }] [] {}).setStates [.IN_OPTIONS]) [] []
    { name := "A" } "ints" "6" "[1,2]" "h" "0" "[1,2]" VariantType.ArrayInt 0
    (Or.inl rfl) rfl (by decide) (by decide) (by decide) rfl).1

end o2.framework

namespace o2.framework
open WorkflowSerializationHelpers WorkflowImporter

/-! ## Fixed-width tags (C18) -/

/-- C18. Fixed-width tags at import: for every string `s` read as the origin of an input,
`String` stores as origin the characters before the first NUL among the first min(|s|, 4)
characters of `s` and pushes an origin leaf on exactly the first min(|s|, 4) characters;
for a description the same holds with 16; for an output the origin and the description are
stored likewise. The call returns for every string: a longer string is truncated, never
rejected, and nothing of `s` beyond those characters is kept. -/
theorem import_fixed_width (E : Env) (d : WorkflowImporter) (r : List State) (s : String) :
    String_ E (d.setStates (.IN_INPUT_ORIGIN :: r)) s =
        .ok { d with
          states := r
          origin := ⟨cstr ⟨s.data.take (min s.length 4)⟩⟩
          inputMatcherNodes :=
            d.inputMatcherNodes ++ [Node.origin ⟨s.data.take (min s.length 4)⟩] } ∧
      String_ E (d.setStates (.IN_INPUT_DESCRIPTION :: r)) s =
        .ok { d with
          states := r
          description := ⟨cstr ⟨s.data.take (min s.length 16)⟩⟩
          inputMatcherNodes :=
            d.inputMatcherNodes ++ [Node.description ⟨s.data.take (min s.length 16)⟩] } ∧
      String_ E (d.setStates (.IN_OUTPUT_ORIGIN :: r)) s =
        .ok { d with states := r, origin := ⟨cstr ⟨s.data.take (min s.length 4)⟩⟩ } ∧
      String_ E (d.setStates (.IN_OUTPUT_DESCRIPTION :: r)) s =
        .ok { d with
          states := r, description := ⟨cstr ⟨s.data.take (min s.length 16)⟩⟩ } ∧
      (s.data.take (min s.length 4)).length = min s.length 4 ∧
      (s.data.take (min s.length 16)).length = min s.length 16 := by
  refine ⟨rfl, rfl, rfl, rfl, ?_, ?_⟩
  · simp only [List.length_take, String.length]
    omega
  · simp only [List.length_take, String.length]
    omega

end o2.framework

namespace o2.framework
open WorkflowSerializationHelpers WorkflowImporter

/-! ## Matching (C19, C20) -/

theorem conjuncts_isLeaf (m : Node) :
    ∀ leaves, m.conjuncts = some leaves → ∀ l ∈ leaves, l.isLeaf = true := by
  induction m with
  | matcher op lhs rhs ihl ihr =>
    intro leaves h l hl
    cases op with
    | Just => exact ihl leaves (by simpa [Node.conjuncts] using h) l hl
    | Or => simp [Node.conjuncts] at h
    | Xor => simp [Node.conjuncts] at h
    | And =>
      simp only [Node.conjuncts] at h
      cases ha : lhs.conjuncts with
      | none => simp [ha] at h
      | some a =>
        cases hb : rhs.conjuncts with
        | none => simp [ha, hb] at h
        | some b =>
          simp only [ha, hb, Option.some.injEq] at h
          subst h
          rcases List.mem_append.1 hl with h1 | h1
          · exact ihl a ha l h1
          · exact ihr b hb l h1
  | _ =>
    intro leaves h l hl
    simp only [Node.conjuncts, Option.some.injEq] at h
    subst h
    simp only [List.mem_singleton] at hl
    subst hl
    rfl

/-- A conjunction holds exactly when all its leaves hold. -/
theorem evaluate_conjuncts (c : ConcreteDataMatcher) (m : Node) :
    ∀ leaves, m.conjuncts = some leaves →
      m.evaluate c = leaves.all (fun l => l.evaluate c) := by
  induction m with
  | matcher op lhs rhs ihl ihr =>
    intro leaves h
    cases op with
    | Just =>
      simp only [Node.evaluate]
      exact ihl leaves (by simpa [Node.conjuncts] using h)
    | Or => simp [Node.conjuncts] at h
    | Xor => simp [Node.conjuncts] at h
    | And =>
      simp only [Node.conjuncts] at h
      cases ha : lhs.conjuncts with
      | none => simp [ha] at h
      | some a =>
        cases hb : rhs.conjuncts with
        | none => simp [ha, hb] at h
        | some b =>
          simp only [ha, hb, Option.some.injEq] at h
          subst h
          simp only [Node.evaluate, ihl a ha, ihr b hb, List.all_append]
  | _ =>
    intro leaves h
    simp only [Node.conjuncts, Option.some.injEq] at h
    subst h
    simp [Node.evaluate]

/-- Leaves, none of them the constant false, hold together exactly when the origin, the
description and the subspecification leaves do. -/
theorem all_evaluate_leaves (c : ConcreteDataMatcher) (leaves : List Node)
    (hleaf : ∀ l ∈ leaves, l.isLeaf = true) (hconst : Node.constant false ∉ leaves) :
    leaves.all (fun l => l.evaluate c) =
      ((originsOf leaves).all (fun v => runtimeInit 4 v == runtimeInit 4 c.origin.str)
        && (descriptionsOf leaves).all
            (fun v => runtimeInit 16 v == runtimeInit 16 c.description.str)
        && (subSpecsOf leaves).all (fun v => v == c.subSpec)) := by
  induction leaves with
  | nil => rfl
  | cons l leaves ih =>
    have ih' := ih (fun x hx => hleaf x (List.mem_cons_of_mem _ hx))
      (fun hx => hconst (List.mem_cons_of_mem _ hx))
    have hl := hleaf l (List.mem_cons_self _ _)
    cases l with
    | matcher op lhs rhs => simp [Node.isLeaf] at hl
    | constant b =>
      cases b with
      | false => exact absurd (List.mem_cons_self _ _) hconst
      | true => simp [List.all_cons, Node.evaluate, originsOf, descriptionsOf, subSpecsOf, ih']
    | origin v =>
      simp only [List.all_cons, Node.evaluate, originsOf, descriptionsOf, subSpecsOf, ih']
      simp only [Bool.and_assoc]
    | description v =>
      simp only [List.all_cons, Node.evaluate, originsOf, descriptionsOf, subSpecsOf, ih']
      simp only [Bool.and_assoc, Bool.and_left_comm]
    | subSpec v =>
      simp only [List.all_cons, Node.evaluate, originsOf, descriptionsOf, subSpecsOf, ih']
      simp only [Bool.and_assoc, Bool.and_left_comm]
    | startTime =>
      simp [List.all_cons, Node.evaluate, originsOf, descriptionsOf, subSpecsOf, ih']

theorem runtimeInit_idem (n : Nat) (s : String) :
    runtimeInit n (runtimeInit n s) = runtimeInit n s := by
  have hlen : (cstrChars (s.data.take (min s.data.length n))).length ≤ n :=
    ((List.takeWhile_sublist _).length_le).trans (by simp)
  unfold runtimeInit
  simp only [String.length]
  rw [List.take_of_length_le (by omega), cstrChars_idem]

theorem not_mem_of_hasConstantFalse (leaves : List Node) (h : hasConstantFalse leaves = false) :
    Node.constant false ∉ leaves := by
  induction leaves with
  | nil => simp
  | cons l leaves ih =>
    cases l with
    | constant b =>
      cases b with
      | false => simp [hasConstantFalse] at h
      | true =>
        simp only [hasConstantFalse] at h
        simpa using ih h
    | _ =>
      simp only [hasConstantFalse] at h
      simpa using ih h

/-- Soundness of the reduction: the concrete form evaluates as the tree does. -/
theorem evaluate_reduceOrSelf (m : Node) (c : ConcreteDataMatcher) :
    (reduceOrSelf m).evaluate c = m.evaluate c := by
  unfold reduceOrSelf
  cases h : DataSpecUtils.optionalConcreteDataMatcherFrom m with
  | none => rfl
  | some k =>
    unfold DataSpecUtils.optionalConcreteDataMatcherFrom at h
    cases hl : m.conjuncts with
    | none => simp [hl] at h
    | some leaves =>
      simp only [hl] at h
      cases hc : hasConstantFalse leaves with
      | true => simp [hc] at h
      | false =>
        simp only [hc, Bool.false_eq_true, if_false] at h
        have hev := evaluate_conjuncts c m leaves hl
        have hall := all_evaluate_leaves c leaves (conjuncts_isLeaf m leaves hl)
          (not_mem_of_hasConstantFalse leaves hc)
        split at h
        · next o d s ho hd hs =>
          simp only [Option.some.injEq] at h
          subst h
          simp only [InputMatcher.evaluate, ConcreteDataMatcher.evaluate, runtimeInit_idem, hev,
            hall, ho, hd, hs, List.all_cons, List.all_nil, Bool.and_true]
        · simp at h

theorem conjuncts_of_isLeaf (l : Node) (h : l.isLeaf = true) : l.conjuncts = some [l] := by
  cases l with
  | matcher op lhs rhs => simp [Node.isLeaf] at h
  | _ => rfl

theorem conjuncts_buildMatcher (nodes : List Node) (h : ∀ l ∈ nodes, l.isLeaf = true) :
    (buildMatcher nodes).conjuncts = some (nodes ++ [Node.startTime]) := by
  rw [buildMatcher_eq_foldr]
  induction nodes with
  | nil => rfl
  | cons l nodes ih =>
    simp only [List.foldr_cons, Node.conjuncts,
      conjuncts_of_isLeaf l (h l (List.mem_cons_self _ _)),
      ih (fun x hx => h x (List.mem_cons_of_mem _ hx))]
    rfl

/-- C19. Matcher soundness: for every matcher tree M and every concrete identifier C,
evaluating M against C gives the same boolean as evaluating reduceOrSelf(M) against C, where
reduceOrSelf(M) is the ConcreteDataMatcher that `optionalConcreteDataMatcherFrom` returns
when it returns one and M itself otherwise. In particular, for every input object, the
matcher of the InputSpec that the importer stores matches exactly the identifiers that the
fold of the leaves of the object matches. The reduction does give the concrete form for the
fold of an origin, a description and a subspecification leaf, also with a constant true leaf
in the conjunction, and gives none for the conjunction with a constant false leaf. -/
theorem matcher_soundness (m : Node) (c : ConcreteDataMatcher) :
    (reduceOrSelf m).evaluate c = m.evaluate c ∧
      (∀ (members : List Member) (binding : String) (lifetime : Nat)
        (options : List ConfigParamSpec),
        (makeInputSpec binding (members.filterMap Member.leaf) lifetime options).matcher.evaluate c
          = (buildMatcher (members.filterMap Member.leaf)).evaluate c) ∧
      (∀ (o d : String) (s : Nat),
        reduceOrSelf (buildMatcher [.origin o, .description d, .subSpec s]) =
          .concrete ⟨⟨runtimeInit 4 o⟩, ⟨runtimeInit 16 d⟩, s⟩) ∧
      (∀ (o d : String) (s : Nat),
        reduceOrSelf (.matcher .And (.constant true) (.matcher .And (.origin o)
            (.matcher .And (.description d) (.subSpec s)))) =
          .concrete ⟨⟨runtimeInit 4 o⟩, ⟨runtimeInit 16 d⟩, s⟩) ∧
      (∀ (o d : String) (s : Nat),
        reduceOrSelf (.matcher .And (.origin o) (.matcher .And (.description d)
            (.matcher .And (.subSpec s) (.constant false)))) =
          .tree (.matcher .And (.origin o) (.matcher .And (.description d)
            (.matcher .And (.subSpec s) (.constant false))))) := by
  refine ⟨evaluate_reduceOrSelf m c, ?_, fun _ _ _ => rfl, fun _ _ _ => rfl,
    fun _ _ _ => rfl⟩
  intro members binding lifetime options
  rw [matcher_makeInputSpec]
  exact evaluate_reduceOrSelf (buildMatcher (members.filterMap Member.leaf)) c

end o2.framework

namespace o2.framework
open WorkflowSerializationHelpers WorkflowImporter

/-- C20. Concrete match example: an InputSpec with origin "TPC ", description "DIGITS",
subspec 0 and lifetime Timeframe matches an OutputSpec with the identical concrete triple and
lifetime Timeframe, and does not match an OutputSpec that differs only by subspec 1. This
holds for the InputSpec that stores the concrete triple and for the one that stores the
unreduced conjunction of the three leaves and the StartTime leaf, whatever the bindings and
the options are,
for every table of lifetimes in which Timeframe is compatible with Timeframe. -/
theorem match_concrete_example (compatible : Nat → Nat → Bool)
    (satisfiesType : InputMatcher → ConcreteDataTypeMatcher → Bool)
    (inputBinding outputBinding : String) (inputOptions outputOptions : List ConfigParamSpec)
    (hcompatible : compatible Lifetime.Timeframe Lifetime.Timeframe = true) :
    DataSpecUtils.match_ compatible satisfiesType
        ⟨inputBinding, .concrete ⟨⟨"TPC "⟩, ⟨"DIGITS"⟩, 0⟩, Lifetime.Timeframe, inputOptions⟩
        ⟨outputBinding, .concrete ⟨⟨"TPC "⟩, ⟨"DIGITS"⟩, 0⟩, Lifetime.Timeframe, outputOptions⟩
        = true ∧
      DataSpecUtils.match_ compatible satisfiesType
        ⟨inputBinding, .concrete ⟨⟨"TPC "⟩, ⟨"DIGITS"⟩, 0⟩, Lifetime.Timeframe, inputOptions⟩
        ⟨outputBinding, .concrete ⟨⟨"TPC "⟩, ⟨"DIGITS"⟩, 1⟩, Lifetime.Timeframe, outputOptions⟩
        = false ∧
      DataSpecUtils.match_ compatible satisfiesType
        ⟨inputBinding,
          .tree (buildMatcher [.origin "TPC ", .description "DIGITS", .subSpec 0]),
          Lifetime.Timeframe, inputOptions⟩
        ⟨outputBinding, .concrete ⟨⟨"TPC "⟩, ⟨"DIGITS"⟩, 0⟩, Lifetime.Timeframe, outputOptions⟩
        = true ∧
      DataSpecUtils.match_ compatible satisfiesType
        ⟨inputBinding,
          .tree (buildMatcher [.origin "TPC ", .description "DIGITS", .subSpec 0]),
          Lifetime.Timeframe, inputOptions⟩
        ⟨outputBinding, .concrete ⟨⟨"TPC "⟩, ⟨"DIGITS"⟩, 1⟩, Lifetime.Timeframe, outputOptions⟩
        = false := by
  have h1 : InputMatcher.evaluate ⟨⟨"TPC "⟩, ⟨"DIGITS"⟩, 0⟩
      (.concrete ⟨⟨"TPC "⟩, ⟨"DIGITS"⟩, 0⟩) = true := by decide
  have h2 : InputMatcher.evaluate ⟨⟨"TPC "⟩, ⟨"DIGITS"⟩, 1⟩
      (.concrete ⟨⟨"TPC "⟩, ⟨"DIGITS"⟩, 0⟩) = false := by decide
  have h3 : InputMatcher.evaluate ⟨⟨"TPC "⟩, ⟨"DIGITS"⟩, 0⟩
      (.tree (buildMatcher [.origin "TPC ", .description "DIGITS", .subSpec 0])) = true := by
    decide
  have h4 : InputMatcher.evaluate ⟨⟨"TPC "⟩, ⟨"DIGITS"⟩, 1⟩
      (.tree (buildMatcher [.origin "TPC ", .description "DIGITS", .subSpec 0])) = false := by
    decide
  simp only [DataSpecUtils.match_, h1, h2, h3, h4, hcompatible, Bool.and_self,
    Bool.false_and, and_self]

theorem match_concrete_example_witness :
    DataSpecUtils.match_ (fun a b => a == b) (fun _ _ => false)
        ⟨"in", .concrete ⟨⟨"TPC "⟩, ⟨"DIGITS"⟩, 0⟩, Lifetime.Timeframe, []⟩
        ⟨"out", .concrete ⟨⟨"TPC "⟩, ⟨"DIGITS"⟩, 0⟩, Lifetime.Timeframe, []⟩ = true ∧
      DataSpecUtils.match_ (fun a b => a == b) (fun _ _ => false)
        ⟨"in", .concrete ⟨⟨"TPC "⟩, ⟨"DIGITS"⟩, 0⟩, Lifetime.Timeframe, []⟩
        ⟨"out", .concrete ⟨⟨"TPC "⟩, ⟨"DIGITS"⟩, 1⟩, Lifetime.Timeframe, []⟩ = false :=
  have h := match_concrete_example (fun a b => a == b) (fun _ _ => false) "in" "out" [] []
    rfl
  ⟨h.1, h.2.1⟩

end o2.framework

namespace o2.framework
open WorkflowSerializationHelpers WorkflowImporter

/-! ## DataSpecUtils::find (C21) -/

theorem find_eq_none_iff {α : Type} (matchSpec : α → DataOrigin → DataDescription → Nat → Bool)
    (container : List α) (o : DataOrigin) (d : DataDescription) (s : Nat) :
    DataSpecUtils.find matchSpec container o d s = none ↔
      ∀ spec ∈ container, matchSpec spec o d s = false := by
  induction container with
  | nil => simp [DataSpecUtils.find]
  | cons x xs ih =>
    by_cases h : matchSpec x o d s = true
    · simp [DataSpecUtils.find, h]
    · simp [DataSpecUtils.find, h, ih]

theorem find_eq_some_iff {α : Type} (matchSpec : α → DataOrigin → DataDescription → Nat → Bool)
    (container : List α) (o : DataOrigin) (d : DataDescription) (s : Nat) (spec : α) :
    DataSpecUtils.find matchSpec container o d s = some spec ↔
      ∃ before after, container = before ++ spec :: after ∧ matchSpec spec o d s = true ∧
        ∀ x ∈ before, matchSpec x o d s = false := by
  induction container with
  | nil => simp [DataSpecUtils.find]
  | cons x xs ih =>
    by_cases h : matchSpec x o d s = true
    · simp only [DataSpecUtils.find, h, if_true, Option.some.injEq]
      constructor
      · rintro rfl
        exact ⟨[], xs, rfl, h, by simp⟩
      · rintro ⟨before, after, he, hm, hb⟩
        cases before with
        | nil =>
          simp only [List.nil_append, List.cons.injEq] at he
          exact he.1
        | cons b bs =>
          simp only [List.cons_append, List.cons.injEq] at he
          have := hb b (List.mem_cons_self _ _)
          rw [← he.1, h] at this
          exact absurd this (by simp)
    · simp only [DataSpecUtils.find, h, Bool.false_eq_true, if_false, ih]
      constructor
      · rintro ⟨before, after, he, hm, hb⟩
        refine ⟨x :: before, after, by simp [he], hm, ?_⟩
        intro y hy
        rcases List.mem_cons.1 hy with rfl | hy
        · simpa using h
        · exact hb y hy
      · rintro ⟨before, after, he, hm, hb⟩
        cases before with
        | nil =>
          simp only [List.nil_append, List.cons.injEq] at he
          rw [he.1] at h
          exact absurd hm h
        | cons b bs =>
          simp only [List.cons_append, List.cons.injEq] at he
          exact ⟨bs, after, he.2, hm, fun y hy => hb y (List.mem_cons_of_mem _ hy)⟩

/-- C21. `DataSpecUtils::find`: for every container and every origin, description and
subSpec, `find` returns a spec exactly when that spec is the first element, in the order of
the container, for which `match(spec, origin, description, subSpec)` is true (it matches and
no element before it does), and returns `std::nullopt` exactly when no element of the
container matches, in particular for the empty container. -/
theorem find_first_match {α : Type}
    (matchSpec : α → DataOrigin → DataDescription → Nat → Bool) (container : List α)
    (origin : DataOrigin) (description : DataDescription) (subSpec : Nat) :
    (∀ spec, DataSpecUtils.find matchSpec container origin description subSpec = some spec ↔
      ∃ before after, container = before ++ spec :: after ∧
        matchSpec spec origin description subSpec = true ∧
        ∀ x ∈ before, matchSpec x origin description subSpec = false) ∧
    (DataSpecUtils.find matchSpec container origin description subSpec = none ↔
      ∀ spec ∈ container, matchSpec spec origin description subSpec = false) ∧
    DataSpecUtils.find matchSpec ([] : List α) origin description subSpec = none :=
  ⟨find_eq_some_iff matchSpec container origin description subSpec,
    find_eq_none_iff matchSpec container origin description subSpec, rfl⟩

/-! ## WritingCursor (C22) -/

theorem insertions_from (n : Nat) :
    ∀ c : WritingCursor, c.mCount + n < 2 ^ 63 →
      WritingCursor.insertions n c = some { mCount := c.mCount + n } := by
  induction n with
  | zero => intro c _; simp [WritingCursor.insertions]
  | succ n ih =>
    intro c h
    have h1 : c.mCount + 1 < 2 ^ 63 := by push_cast at h; omega
    simp only [WritingCursor.insertions, WritingCursor.call, h1, if_true]
    have h2 : (c.mCount + 1) + (n : Int) < 2 ^ 63 := by push_cast at h; omega
    rw [ih { c with mCount := c.mCount + 1 } h2]
    have e : c.mCount + 1 + (n : Int) = c.mCount + ((n + 1 : Nat) : Int) := by
      push_cast; omega
    simp only [e]

/-- C22. `WritingCursor::lastIndex` returns the last index inserted: after `resetCursor`
followed by `n` row insertions, with 1 ≤ n and the index n - 1 a value of `int64_t`, it is
n - 1; right after `resetCursor`, whatever was inserted before, and on a new cursor it is
-1. -/
theorem lastIndex_after_insertions (c : WritingCursor) (n : Nat) (h1 : 1 ≤ n)
    (hn : n ≤ 2 ^ 63) :
    (∃ c1, WritingCursor.insertions n c.resetCursor.1 = some c1 ∧
      c1.lastIndex = (n : Int) - 1) ∧
    c.resetCursor.1.lastIndex = -1 ∧
    ({} : WritingCursor).lastIndex = -1 ∧
    c.resetCursor.2 = true := by
  refine ⟨⟨_, insertions_from n c.resetCursor.1 ?_, ?_⟩, rfl, rfl, rfl⟩
  · simp only [WritingCursor.resetCursor]
    have : (n : Int) ≤ 2 ^ 63 := by exact_mod_cast hn
    omega
  · simp only [WritingCursor.lastIndex, WritingCursor.resetCursor]
    omega

theorem lastIndex_after_insertions_witness :
    (∃ c1, WritingCursor.insertions 3 (WritingCursor.resetCursor ⟨41⟩).1 = some c1 ∧
      c1.lastIndex = ((3 : Nat) : Int) - 1) ∧
    (WritingCursor.resetCursor ⟨41⟩).1.lastIndex = -1 ∧
    ({} : WritingCursor).lastIndex = -1 ∧
    (WritingCursor.resetCursor ⟨41⟩).2 = true :=
  lastIndex_after_insertions ⟨41⟩ 3 (by decide) (by decide)

end o2.framework

namespace o2.framework
open WorkflowSerializationHelpers WorkflowImporter

/-! ## Lines before the payload (C23, C30) -/

/-- Lines that fit the buffer and do not start with the open brace are skipped: the import
of the stream is the import of what follows them, unless one of them is a fatal error
line. -/
theorem import_skips_lines (E : Env) (lines : List (List Char)) (tail : List Char)
    (w : List DataProcessorSpec) (m : List DataProcessorInfo) (c : CommandInfo)
    (hlines : ∀ l ∈ lines, PlainLine l ∧ startsWithFatal l = false) :
    import_ E (IStream.ofText (linesText lines ++ '{' :: tail)) w m c =
      import_ E (IStream.ofText ('{' :: tail)) w m c := by
  obtain ⟨fuel, hpre⟩ := prescan_text lines ('{' :: tail) (fun l hl => (hlines l hl).1)
  have hany : lines.any startsWithFatal = false := by
    rw [List.any_eq_false]
    intro l hl
    simp [(hlines l hl).2]
  rw [import_of_brace]
  unfold import_
  rw [hpre, hany, show fuel + 2 = (fuel + 1) + 1 from rfl, prescan_brace]
  rfl

set_option maxRecDepth 1000000 in
/-- C23, as stated, fails: a line of 1024 characters before the payload does not start with
the open brace and is no fatal error line, but `getline(buf, 1024)` sets `failbit` on it and
`import` throws "Malformatted input workflow". The payload alone is imported. -/
theorem import_long_line_counterexample :
    (List.replicate 1024 'a').head? ≠ some '{' ∧
      startsWithFatal (List.replicate 1024 'a') = false ∧
      longLineStream = List.replicate 1024 'a' ++ '\n' :: emptyPayload ∧
      import_ refEnv (IStream.ofText emptyPayload) [] [] {} = ⟨.returned true, [], [], {}⟩ ∧
      import_ refEnv (IStream.ofText longLineStream) [] [] {} =
        ⟨.threw "Malformatted input workflow", [], [], {}⟩ := by
  refine ⟨by decide, by decide, rfl, by decide, by decide⟩

/-- C23, amended. Any line shorter than the 1024-byte line buffer is tolerated before the
payload: for every stream whose payload line (the first line starting with the open brace)
is preceded by lines that do not start with the open brace, are not fatal error lines and
are each shorter than the buffer, those lines are consumed and discarded whatever their
content, none of them makes `import` throw, and structured parsing starts at the payload
line: the result of `import` is its result on the payload alone. -/
theorem import_tolerates_any_line (E : Env) (lines : List (List Char)) (tail : List Char)
    (w : List DataProcessorSpec) (m : List DataProcessorInfo) (c : CommandInfo)
    (hlines : ∀ l ∈ lines, PlainLine l ∧ startsWithFatal l = false) :
    import_ E (IStream.ofText (linesText lines ++ '{' :: tail)) w m c =
        import_ E (IStream.ofText ('{' :: tail)) w m c ∧
      import_ E (IStream.ofText ('{' :: tail)) w m c =
        match (create E.uninit w m c).run E (E.parse ('{' :: tail)).1 with
        | .error (f, st) => ⟨.faulted f, st.dataProcessors, st.metadata, st.command⟩
        | .ok st =>
          if (E.parse ('{' :: tail)).2 then
            ⟨.returned true, st.dataProcessors, st.metadata, st.command⟩
          else ⟨.threw "Error while parsing serialised workflow", st.dataProcessors,
                st.metadata, st.command⟩ :=
  ⟨import_skips_lines E lines tail w m c hlines, import_of_brace E tail w m c⟩

theorem import_tolerates_any_line_witness :
    import_ refEnv (IStream.ofText (linesText ["x \x7b y".data, "".data, "[INFO] [".data]
        ++ '{' :: emptyPayload.tail)) [] [] {} =
      import_ refEnv (IStream.ofText ('{' :: emptyPayload.tail)) [] [] {} :=
  (import_tolerates_any_line refEnv ["x \x7b y".data, "".data, "[INFO] [".data]
    emptyPayload.tail [] [] {} (by
      intro l hl
      simp only [List.mem_cons, List.mem_singleton, List.not_mem_nil, or_false] at hl
      rcases hl with rfl | rfl | rfl <;>
        exact ⟨⟨by decide, by decide, by decide⟩, by decide⟩)).1

end o2.framework

namespace o2.framework
open WorkflowSerializationHelpers WorkflowImporter

/-- No fatal error prefix has the open brace as its second character. -/
theorem startsWithFatal_brace (c : Char) (l : List Char) :
    startsWithFatal (c :: '{' :: l) = false := by
  have h1 : "[ERROR] invalid workflow in".data = '[' :: 'E' :: "RROR] invalid workflow in".data :=
    by decide
  have h2 : "[ERROR] error while setting up workflow".data
      = '[' :: 'E' :: "RROR] error while setting up workflow".data := by decide
  have h3 : "[ERROR] error parsing options of".data
      = '[' :: 'E' :: "RROR] error parsing options of".data := by decide
  simp only [startsWithFatal, fatalPrefixes, List.any_cons, List.any_nil, h1, h2, h3,
    List.isPrefixOf]
  simp

theorem startsWithFatal_iff (l : List Char) :
    startsWithFatal l = true ↔ ∃ p ∈ fatalPrefixes, p.data <+: l := by
  simp [startsWithFatal]

/-- The first line of a stream that holds a character and then a text starting with the open
brace is a line before the payload. -/
theorem plainLine_prefixed (c : Char) (first : List Char) (hc : c ≠ '{' ∧ c ≠ '\n')
    (hfirst : '\n' ∉ first ∧ first.length + 2 < 1024) :
    PlainLine (c :: '{' :: first) := by
  refine ⟨?_, ?_, ?_⟩
  · simp only [List.mem_cons, not_or]
    exact ⟨fun h => hc.2 h.symm, by decide, hfirst.1⟩
  · simp only [List.length_cons]
    omega
  · simp [hc.1]

set_option maxRecDepth 1000000 in
/-- C30, as stated, fails: `twoLinePayload` is a valid payload (the reader accepts it and
`import` returns true on it), but its second line starts with the open brace; preceded by a
space, the first line is discarded, structured parsing starts at the second line and
`import` throws "Error while parsing serialised workflow", with an empty command written. -/
theorem import_prefixed_counterexample :
    (refEnv.parse twoLinePayload).2 = true ∧
      (import_ refEnv (IStream.ofText twoLinePayload) [] [] {}).outcome = .returned true ∧
      import_ refEnv (IStream.ofText (' ' :: twoLinePayload)) [] [] {} =
        ⟨.threw "Error while parsing serialised workflow", [], [], { command := "" }⟩ := by
  refine ⟨by decide, by decide, by decide⟩

/-- C30, amended. The pre-scan looks only at the first character of each line: a line shorter
than the 1024 byte buffer whose first character is not the open brace is discarded whole
even when it holds the open brace later. So a text starting with the open brace, preceded on
its first line by another character, is not parsed, provided that every line fits the
buffer, no later line starts with the open brace and none is a fatal error line: `import`
returns true and leaves workflow, metadata and command unchanged, both for a text of one
line and for a text of several lines (`first` is the rest of the first line, `last` the text
after the last newline). A line is a fatal error line only when one of the three prefixes
starts at its first character. -/
theorem import_prefixed_payload (E : Env) (c : Char) (first : List Char)
    (lines : List (List Char)) (last : List Char)
    (w : List DataProcessorSpec) (m : List DataProcessorInfo) (c0 : CommandInfo)
    (hc : c ≠ '{' ∧ c ≠ '\n')
    (hfirst : '\n' ∉ first ∧ first.length + 2 < 1024)
    (hlines : ∀ l ∈ lines, PlainLine l ∧ startsWithFatal l = false)
    (hlast : PlainLine last ∧ startsWithFatal last = false) :
    import_ E (IStream.ofText (c :: '{' :: first)) w m c0 = ⟨.returned true, w, m, c0⟩ ∧
      import_ E (IStream.ofText (linesText ((c :: '{' :: first) :: lines) ++ last)) w m c0 =
        ⟨.returned true, w, m, c0⟩ ∧
      (∀ (fuel : Nat) (tail : List Char) (fatal : Bool),
        prescan (fuel + 1) ⟨(c :: '{' :: first) ++ '\n' :: tail, false, false, false⟩ fatal =
          prescan fuel ⟨tail, false, false, false⟩ fatal) ∧
      (∀ l, isFatalLine l = true ↔ ∃ p ∈ fatalPrefixes, p.data <+: l) := by
  have hp := plainLine_prefixed c first hc hfirst
  have hf := startsWithFatal_brace c first
  refine ⟨?_, ?_, ?_, ?_⟩
  · obtain ⟨fuel, hpre⟩ := prescan_text [] (c :: '{' :: first) (by simp)
    simp only [linesText, List.flatMap_nil, List.nil_append, List.any_nil] at hpre
    unfold import_
    rw [hpre, prescan_last fuel _ _ hp, hf]
    rfl
  · have hall : ∀ l ∈ (c :: '{' :: first) :: lines, PlainLine l := by
      intro l hl
      rcases List.mem_cons.1 hl with rfl | hl
      · exact hp
      · exact (hlines l hl).1
    obtain ⟨fuel, hpre⟩ := prescan_text ((c :: '{' :: first) :: lines) last hall
    have hany : ((c :: '{' :: first) :: lines).any startsWithFatal = false := by
      rw [List.any_eq_false]
      intro l hl
      rcases List.mem_cons.1 hl with rfl | hl
      · simp [hf]
      · simp [(hlines l hl).2]
    unfold import_
    rw [hpre, prescan_last fuel last _ hlast.1, hany, hlast.2]
    rfl
  · intro fuel tail fatal
    rw [prescan_line fuel _ tail fatal hp, hf, Bool.or_false]
  · intro l
    rw [isFatalLine_eq, startsWithFatal_iff]

theorem import_prefixed_payload_witness :
    import_ refEnv (IStream.ofText (' ' :: '{' :: emptyPayload.tail)) [] [] {} =
        ⟨.returned true, [], [], {}⟩ ∧
      import_ refEnv (IStream.ofText
          (linesText ((' ' :: '{' :: "\"workflow\":[".data) :: ["],".data])
            ++ "\"metadata\":[],\"command\":\"\"\x7d".data)) [] [] {} =
        ⟨.returned true, [], [], {}⟩ :=
  have h := import_prefixed_payload refEnv ' ' "\"workflow\":[".data ["],".data]
    "\"metadata\":[],\"command\":\"\"\x7d".data [] [] {} (by decide)
    ⟨by decide, by decide⟩
    (by
      intro l hl
      simp only [List.mem_singleton] at hl
      subst hl
      exact ⟨⟨by decide, by decide, by decide⟩, by decide⟩)
    ⟨⟨by decide, by decide, by decide⟩, by decide⟩
  ⟨(import_prefixed_payload refEnv ' ' emptyPayload.tail [] [] [] [] {} (by decide)
      ⟨by decide, by decide⟩ (by simp) ⟨⟨by decide, by decide, by decide⟩, by decide⟩).1,
    h.2.1⟩

end o2.framework

namespace o2.framework
open WorkflowSerializationHelpers WorkflowImporter

/-! ## Numbers that no handler stores (C27) -/

/-- In a field state of a node no key is recognised: `Key` returns without a push. -/
theorem key_in_rank (d : WorkflowImporter) (r : List State) (k : String)
    (hs : d.states = State.IN_DATAPROCESSOR_RANK :: r) : d.Key k = .ok d := by
  simp +decide [Key, «in», hs]

/-- C27. `Int`, `Uint64` and `Double` events change nothing: for every importer state the
handler returns the importer as it was, so the state stack and every output are unchanged,
the value is dropped and the pending field state is not popped. So in a node object, after
the key "rank" and a negative number the state `IN_DATAPROCESSOR_RANK` stays on top, the
next key `k` of the node, whatever it is, is not recognised, and the next `Uint` event `v` is
stored into `rank`, after which the stack is that of the node again. -/
theorem number_events_dropped (E : Env) (d : WorkflowImporter) (r : List State)
    (dps : List DataProcessorSpec) (p : DataProcessorSpec) (x : Int) (k : String) (v : Nat)
    (hs : d.states = State.IN_DATAPROCESSOR :: r) (hp : d.dataProcessors = dps ++ [p]) :
    (∀ (s : WorkflowImporter) (i : Int), s.Int_ i = .ok s ∧ s.handle E (.int i) = .ok s) ∧
      (∀ (s : WorkflowImporter) (u : Nat),
        s.Uint64 u = .ok s ∧ s.handle E (.uint64 u) = .ok s) ∧
      (∀ (s : WorkflowImporter) (b : Nat),
        s.Double b = .ok s ∧ s.handle E (.double b) = .ok s) ∧
      run E [.key "rank", .int x] d = .ok (d.push .IN_DATAPROCESSOR_RANK) ∧
      (d.push .IN_DATAPROCESSOR_RANK).Key k = .ok (d.push .IN_DATAPROCESSOR_RANK) ∧
      run E [.key "rank", .int x, .key k, .uint v] d =
        .ok { d with dataProcessors := dps ++ [{ p with rank := toInt32 v }] } := by
  have hk : d.Key "rank" = .ok (d.push .IN_DATAPROCESSOR_RANK) := by
    simp +decide [Key, «in», hs, keyIs, strncmpEq]
  have hn := key_in_rank (d.push .IN_DATAPROCESSOR_RANK) d.states k rfl
  have hu : (d.push .IN_DATAPROCESSOR_RANK).Uint v =
      .ok { d with dataProcessors := dps ++ [{ p with rank := toInt32 v }] } := by
    simp +decide [Uint, «in», push, pop, onBackProcessor, hp, modifyBack_concat]
  refine ⟨fun s i => ⟨rfl, rfl⟩, fun s u => ⟨rfl, rfl⟩, fun s b => ⟨rfl, rfl⟩, ?_, hn, ?_⟩
  · simp only [run, handle, hk, Int_]
  · simp only [run, handle, hk, Int_, hn, hu]

theorem number_events_dropped_witness :
    run refEnv [.key "rank", .int (-1), .key "nSlots", .uint 7]
        { create refEnv.uninit [{ name := "A" }] [] {} with
          states := [.IN_DATAPROCESSOR, .IN_DATAPROCESSORS, .IN_WORKFLOW, .IN_EXECUTION,
            .IN_START] } =
      .ok { create refEnv.uninit [{ name := "A", rank := 7 }] [] {} with
          states := [.IN_DATAPROCESSOR, .IN_DATAPROCESSORS, .IN_WORKFLOW, .IN_EXECUTION,
            .IN_START] } :=
  (number_events_dropped refEnv
    { create refEnv.uninit [{ name := "A" }] [] {} with
      states := [.IN_DATAPROCESSOR, .IN_DATAPROCESSORS, .IN_WORKFLOW, .IN_EXECUTION,
        .IN_START] }
    [.IN_DATAPROCESSORS, .IN_WORKFLOW, .IN_EXECUTION, .IN_START] [] { name := "A" } (-1)
    "nSlots" 7 rfl rfl).2.2.2.2.2

end o2.framework

namespace o2.framework
open WorkflowSerializationHelpers WorkflowImporter

/-! ## Resource hints (C24) -/

theorem map_hints_importedWorkflow (E : Env) (workflow : List DataProcessorSpec) :
    ∀ kind : Int, (importedWorkflow E kind workflow).map DataProcessorSpec.hints =
      (workflow.filter isExported).map DataProcessorSpec.hints := by
  induction workflow with
  | nil => intro kind; rfl
  | cons p workflow ih =>
    intro kind
    by_cases h : isExported p = true
    · simp [importedWorkflow, h, ih, importedProcessor, DataProcessorSpec.hints]
    · simp [importedWorkflow, h, ih]

set_option maxRecDepth 1000000 in
/-- C24, as stated, fails: the node of `hintedUnreadableWorkflow` has its four resource hints
in [0, 2^31), but its option of type Int has a default value that prints as "abc";
`std::stoi` throws out of the importer in the `options` array, before the keys of the hints
are reached, and the node that the caller's workflow holds has the hints of a new
DataProcessorSpec. The reader gives back the events of the writer. -/
theorem import_dump_hints_counterexample :
    hintedUnreadableWorkflow.map DataProcessorSpec.hints = [(5, 2, 3, 4)] ∧
      refEnv.ReadsBack (dumpCalls refEnv hintedUnreadableWorkflow [] {}) ∧
      (import_ refEnv (IStream.ofText (dump refEnv hintedUnreadableWorkflow [] {}))
        [] [] {}).outcome = .faulted .exception ∧
      (import_ refEnv (IStream.ofText (dump refEnv hintedUnreadableWorkflow [] {}))
        [] [] {}).workflow.map DataProcessorSpec.hints = [(0, 1, 0, 1)] := by
  refine ⟨by decide, ⟨by decide, by decide⟩, by decide, by decide⟩

/-- C24, amended. Resource hints survive the round trip: for every workflow that the importer
can read back (resource hints in [0, 2^31), 32 bit subspecifications, option types, kinds and
default values accepted by the conversions of the importer), importing the export yields,
for the exported nodes in order, nodes with the same rank, nSlots, inputTimeSliceId and
maxInputTimeslices. In a node object the key "rank" is accepted by the comparison with
"ranks" and leads to the state in which `Uint` stores `rank`; "nSlots", "inputTimeSliceId"
and "maxInputTimeslices" lead to the states in which `Uint` stores the member of that
name. -/
theorem import_dump_hints (E : Env) (workflow : List DataProcessorSpec)
    (metadata : List DataProcessorInfo) (commandInfo : CommandInfo)
    (hwf : wellFormed E workflow metadata = true)
    (hrb : E.ReadsBack (dumpCalls E workflow metadata commandInfo)) :
    (import_ E (IStream.ofText (dump E workflow metadata commandInfo)) [] [] {}).outcome
        = .returned true ∧
      (import_ E (IStream.ofText (dump E workflow metadata commandInfo))
          [] [] {}).workflow.map DataProcessorSpec.hints =
        (workflow.filter isExported).map DataProcessorSpec.hints ∧
      (∀ (d : WorkflowImporter) (r : List State) (dps : List DataProcessorSpec)
          (p : DataProcessorSpec) (v : Nat),
        d.states = .IN_DATAPROCESSOR :: r → d.dataProcessors = dps ++ [p] →
        run E [.key "rank", .uint v] d =
            .ok { d with dataProcessors := dps ++ [{ p with rank := toInt32 v }] } ∧
          run E [.key "nSlots", .uint v] d =
            .ok { d with dataProcessors := dps ++ [{ p with nSlots := toInt32 v }] } ∧
          run E [.key "inputTimeSliceId", .uint v] d =
            .ok { d with dataProcessors := dps ++ [{ p with inputTimeSliceId := toInt32 v }] } ∧
          run E [.key "maxInputTimeslices", .uint v] d =
            .ok { d with
                  dataProcessors := dps ++ [{ p with maxInputTimeslices := toInt32 v }] }) := by
  rw [import_dump E workflow metadata commandInfo [] [] {} hwf hrb]
  refine ⟨rfl, ?_, ?_⟩
  · show ([] ++ importedWorkflow E E.uninit.optionKind workflow).map DataProcessorSpec.hints = _
    rw [List.nil_append, map_hints_importedWorkflow]
  · intro d r dps p v hs hp
    refine ⟨?_, ?_, ?_, ?_⟩ <;>
      simp +decide [run, handle, Key, Uint, «in», push, pop, hs, keyIs, strncmpEq,
        onBackProcessor, hp, modifyBack_concat]

set_option maxRecDepth 1000000 in
theorem import_dump_hints_witness :
    hintedWorkflow.map DataProcessorSpec.hints = [(5, 2, 3, 4)] ∧
      (import_ refEnv (IStream.ofText (dump refEnv hintedWorkflow [] {}))
          [] [] {}).workflow.map DataProcessorSpec.hints =
        (hintedWorkflow.filter isExported).map DataProcessorSpec.hints :=
  ⟨by decide,
    (import_dump_hints refEnv hintedWorkflow [] {} (by decide) ⟨by decide, by decide⟩).2.1⟩

end o2.framework

namespace o2.framework
open WorkflowSerializationHelpers WorkflowImporter

/-! ## Key matching (C26) -/

/-- For a key without NUL character `strncmp` over the length of the key tests whether the
key is a prefix of the other string. -/
theorem strncmpEq_key (k : List Char) (hk : NUL ∉ k) (e : List Char) :
    strncmpEq k e k.length = k.isPrefixOf e := by
  induction k generalizing e with
  | nil => cases e <;> simp [strncmpEq]
  | cons c k ih =>
    have hc : c ≠ NUL := fun h => hk (h ▸ List.mem_cons_self _ _)
    have hk' : NUL ∉ k := fun h => hk (List.mem_cons_of_mem _ h)
    cases e with
    | nil =>
      simp only [List.length_cons, strncmpEq, List.headD_nil, List.headD_cons]
      simp [hc]
    | cons b e =>
      simp only [List.length_cons, strncmpEq, List.headD_cons, List.tail_cons,
        List.isPrefixOf_cons₂, ih hk' e]
      by_cases hbc : c = b
      · subst hbc
        simp [hc]
      · simp [hbc]

theorem keyIs_eq_isPrefixOf (k e : String) (hk : NUL ∉ k.data) :
    keyIs k e = k.data.isPrefixOf e.data := by
  unfold keyIs
  exact strncmpEq_key k.data hk e.data

/-- `Key` is the chain of its branches, after the read of `states.back()`. -/
theorem key_eq_keyChain (d : WorkflowImporter) (k : String) :
    d.Key k = if d.states.isEmpty then .error .undefinedBehaviour
      else keyChain d k keyBranches := rfl

theorem keyChain_eq_find (d : WorkflowImporter) (S : State) (r : List State) (k : String)
    (hs : d.states = S :: r) (bs : List KeyBranch) :
    keyChain d k bs = match bs.find? (fun b => b.state == S && keyIs k b.expected) with
      | none => .ok d
      | some b => b.body d := by
  induction bs with
  | nil => rfl
  | cons b bs ih =>
    have hin : d.in b.state = (b.state == S) := by
      simp only [«in», hs, List.head?_cons]
      by_cases h : b.state = S
      · simp [h]
      · have h2 : ¬ S = b.state := fun e => h e.symm
        simp [h, h2]
    rw [keyChain, List.find?_cons, hin, ih]
    cases hc : (b.state == S && keyIs k b.expected) <;> simp

/-- `Key` runs the body of the first branch whose test holds. -/
theorem key_eq_keyBranch (d : WorkflowImporter) (S : State) (r : List State) (k : String)
    (hs : d.states = S :: r) :
    d.Key k = match keyBranch S k with
      | none => .ok d
      | some b => b.body d := by
  rw [key_eq_keyChain, keyChain_eq_find d S r k hs]
  simp [hs, keyBranch]

/-- C26, as stated, fails. In an input object the first branch whose expected name has the
key "matcher" as a prefix is the branch of "matcher", but `Key` does not push its
sub-state: the branch starts with `assert(0)`. And `strncmp` stops at a NUL character: the
key "name", NUL, "x" is a prefix of no expected name, yet in a node object `Key` pushes the
state of "name". -/
theorem key_first_match_counterexample :
    (keyBranchPrefixed .IN_INPUT "matcher" = some ⟨.IN_INPUT, "matcher", .IN_INPUT_MATCHER⟩ ∧
      ((create refEnv.uninit [] [] {}).setStates [.IN_INPUT]).Key "matcher"
        = .error .assertion) ∧
    (keyBranchPrefixed .IN_DATAPROCESSOR "name\x00x" = none ∧
      ((create refEnv.uninit [] [] {}).setStates [.IN_DATAPROCESSOR]).Key "name\x00x"
        = .ok (((create refEnv.uninit [] [] {}).setStates [.IN_DATAPROCESSOR]).push
            .IN_DATAPROCESSOR_NAME)) := by
  refine ⟨⟨by decide, rfl⟩, by decide, rfl⟩

/-- C26, amended. Key matching is by prefix: for every importer whose state stack has the
top `S` and every incoming key `k` without NUL character, `Key` runs the body of the first
branch in source order whose state is `S` and whose expected name has `k` as a prefix, and
changes nothing when there is none. The body pushes the sub-state of the branch, except that
the branch of "matcher" in an input object fails its assertion and pushes nothing; the
branch of "subspec" in an output object also sets `outputHasSubSpec`. For a key with a NUL
character the test is `strncmp` over the length of the key. A key that is a proper prefix of
an expected name is treated as that name; the empty key takes the first branch of the state.
The key "rank" is the expected name of no branch and a prefix of "ranks" only. -/
theorem key_first_match (d : WorkflowImporter) (S : State) (r : List State) (k : String)
    (hs : d.states = S :: r) (hk : NUL ∉ k.data) :
    (d.Key k = match keyBranchPrefixed S k with
      | none => .ok d
      | some b => b.body d) ∧
    (∀ b ∈ keyBranches, b ≠ ⟨.IN_INPUT, "matcher", .IN_INPUT_MATCHER⟩ →
      ∃ st, b.body d = .ok st ∧ st.states = b.target :: d.states ∧
        st.dataProcessors = d.dataProcessors ∧ st.metadata = d.metadata ∧
        st.command = d.command) ∧
    KeyBranch.body ⟨.IN_INPUT, "matcher", .IN_INPUT_MATCHER⟩ d = .error .assertion ∧
    (∀ k2 : String, d.Key k2 = match keyBranch S k2 with
      | none => .ok d
      | some b => b.body d) ∧
    keyBranchPrefixed S "" = keyBranches.find? (fun b => b.state == S) ∧
    (∀ b ∈ keyBranches, b.expected ≠ "rank") ∧
    (keyBranches.filter (fun b => "rank".data.isPrefixOf b.expected.data)).map
        (fun b => b.expected) = ["ranks"] ∧
    keyBranchPrefixed .IN_DATAPROCESSOR "rank"
      = some ⟨.IN_DATAPROCESSOR, "ranks", .IN_DATAPROCESSOR_RANK⟩ := by
  have hb : keyBranch S k = keyBranchPrefixed S k := by
    simp only [keyBranch, keyBranchPrefixed, keyIs_eq_isPrefixOf _ _ hk]
  refine ⟨?_, ?_, rfl, fun k2 => key_eq_keyBranch d S r k2 hs, ?_, by decide, by decide,
    by decide⟩
  · rw [key_eq_keyBranch d S r k hs, hb]
  · intro b hb hne
    simp only [keyBranches, List.mem_cons, List.mem_singleton, List.not_mem_nil, or_false] at hb
    rcases hb with rfl | rfl | rfl | rfl | rfl | rfl | rfl | rfl | rfl | rfl | rfl | rfl | rfl
      | rfl | rfl | rfl | rfl | rfl | rfl | rfl | rfl | rfl | rfl | rfl | rfl | rfl | rfl | rfl
      | rfl | rfl | rfl | rfl | rfl | rfl | rfl | rfl | rfl | rfl | rfl | rfl | rfl | rfl | rfl
      | rfl | rfl
    all_goals first
      | exact absurd rfl hne
      | exact ⟨_, rfl, rfl, rfl, rfl, rfl⟩
  · simp [keyBranchPrefixed]

theorem key_first_match_witness :
    ((create refEnv.uninit [] [] {}).setStates [.IN_DATAPROCESSOR]).Key "rank" =
        .ok (((create refEnv.uninit [] [] {}).setStates [.IN_DATAPROCESSOR]).push
          .IN_DATAPROCESSOR_RANK) ∧
      ((create refEnv.uninit [] [] {}).setStates [.IN_OPTION, .IN_OPTIONS]).Key "" =
        .ok (((create refEnv.uninit [] [] {}).setStates [.IN_OPTION, .IN_OPTIONS]).push
          .IN_OPTION_NAME) :=
  ⟨(key_first_match ((create refEnv.uninit [] [] {}).setStates [.IN_DATAPROCESSOR])
      .IN_DATAPROCESSOR [] "rank" rfl (by decide)).1,
    (key_first_match ((create refEnv.uninit [] [] {}).setStates [.IN_OPTION, .IN_OPTIONS])
      .IN_OPTION [.IN_OPTIONS] "" rfl (by decide)).1⟩

end o2.framework

namespace o2.framework
open WorkflowSerializationHelpers WorkflowImporter

/-! ## What a handler call changes -/

theorem stackStep_refl (k : Bool) (a : List State) : StackStep k a a := Or.inl rfl

theorem stackStep_push (k : Bool) (a : List State) (X : State) (h1 : X ≠ .IN_START)
    (h2 : X ≠ .IN_ERROR) (h3 : X = .IN_OPTION_KIND → k = true) :
    StackStep k a (X :: a) := Or.inr (Or.inl ⟨X, h1, h2, h3, rfl⟩)

theorem stackStep_pop (k : Bool) (d : WorkflowImporter) (h : ¬ d.states.isEmpty = true) :
    StackStep k d.states d.pop.states := by
  rcases hst : d.states with _ | ⟨S, r⟩
  · simp [hst] at h
  · exact Or.inr (Or.inr (Or.inl ⟨S, by simp [pop, hst]⟩))

theorem stackStep_pop_pop (k : Bool) (d : WorkflowImporter) (h : ¬ d.states.isEmpty = true) :
    StackStep k d.states d.pop.pop.states := by
  rcases hst : d.states with _ | ⟨S, _ | ⟨T, r⟩⟩
  · simp [hst] at h
  · exact Or.inr (Or.inr (Or.inr (Or.inr ⟨S, rfl, by simp [pop, hst]⟩)))
  · exact Or.inr (Or.inr (Or.inr (Or.inl ⟨S, T, by simp [pop, hst]⟩)))

theorem ite_ok_cases {c : Prop} [Decidable c] {a b : Except Fault WorkflowImporter}
    {s : WorkflowImporter} {P : Prop} (h : (if c then a else b) = .ok s)
    (h1 : c → a = .ok s → P) (h2 : ¬c → b = .ok s → P) : P := by
  by_cases hc : c
  · exact h1 hc (by simpa [hc] using h)
  · exact h2 hc (by simpa [hc] using h)

theorem pop_optionKind (d : WorkflowImporter) : d.pop.optionKind = d.optionKind := by
  unfold pop
  split <;> rfl

theorem pop_dataProcessors (d : WorkflowImporter) : d.pop.dataProcessors = d.dataProcessors := by
  unfold pop
  split <;> rfl

theorem startObject_effect (d s : WorkflowImporter) (h : d.StartObject = .ok s) :
    ¬ d.states.isEmpty = true ∧ StackStep false d.states s.states ∧ s.optionKind = d.optionKind ∧
      NodesStep d.dataProcessors s.dataProcessors := by
  unfold StartObject at h
  refine ite_ok_cases h (fun _ h => ?_) (fun hne h => ⟨hne, ?_⟩)
  · cases h
  repeat
    refine ite_ok_cases h (fun _ h => ?_) (fun _ h => ?_)
    · first
      | (cases h; exact ⟨stackStep_refl _ _, rfl, Or.inl rfl⟩)
      | (cases h; exact ⟨stackStep_refl _ _, rfl, Or.inr (Or.inl rfl)⟩)
      | (cases h; exact ⟨stackStep_push _ _ _ (by decide) (by decide) (by decide), rfl, Or.inl rfl⟩)
      | (cases h; exact ⟨stackStep_push _ _ _ (by decide) (by decide) (by decide), rfl, Or.inr (Or.inl rfl)⟩)
      | cases h
  cases h
  exact ⟨stackStep_refl _ _, rfl, Or.inl rfl⟩

theorem startArray_effect (d s : WorkflowImporter) (h : d.StartArray = .ok s) :
    ¬ d.states.isEmpty = true ∧ StackStep false d.states s.states ∧ s.optionKind = d.optionKind ∧
      NodesStep d.dataProcessors s.dataProcessors := by
  unfold StartArray at h
  refine ite_ok_cases h (fun _ h => ?_) (fun hne h => ⟨hne, ?_⟩)
  · cases h
  repeat
    refine ite_ok_cases h (fun _ h => ?_) (fun _ h => ?_)
    · cases h
      exact ⟨stackStep_push _ _ _ (by decide) (by decide) (by decide), rfl, Or.inl rfl⟩
  cases h
  exact ⟨stackStep_refl _ _, rfl, Or.inl rfl⟩

theorem endArray_effect (d s : WorkflowImporter) (h : d.EndArray = .ok s) :
    ¬ d.states.isEmpty = true ∧ StackStep false d.states s.states ∧ s.optionKind = d.optionKind ∧
      NodesStep d.dataProcessors s.dataProcessors := by
  unfold EndArray at h
  refine ite_ok_cases h (fun _ h => ?_) (fun hne h => ⟨hne, ?_⟩)
  · cases h
  refine ite_ok_cases h (fun _ h => ?_) (fun _ h => ?_)
  · cases h
    exact ⟨stackStep_pop_pop _ _ hne, by rw [pop_optionKind, pop_optionKind],
      Or.inl (by rw [pop_dataProcessors, pop_dataProcessors])⟩
  · cases h
    exact ⟨stackStep_pop _ _ hne, pop_optionKind _, Or.inl (pop_dataProcessors _)⟩

theorem onBackProcessor_ok (d r : WorkflowImporter) (f : DataProcessorSpec → DataProcessorSpec)
    (h : d.onBackProcessor f = .ok r) :
    ∃ dps p, d.dataProcessors = dps ++ [p] ∧ r = { d with dataProcessors := dps ++ [f p] } := by
  unfold onBackProcessor at h
  rcases List.eq_nil_or_concat d.dataProcessors with hnil | ⟨dps, p, hp⟩
  · simp [hnil, modifyBack] at h
  · rw [List.concat_eq_append] at hp
    rw [hp, modifyBack_concat] at h
    simp only [Except.ok.injEq] at h
    exact ⟨dps, p, hp, h.symm⟩

theorem onBackMetadata_ok (d r : WorkflowImporter) (f : DataProcessorInfo → DataProcessorInfo)
    (h : d.onBackMetadata f = .ok r) : ∃ ms, r = { d with metadata := ms } := by
  unfold onBackMetadata at h
  split at h
  · cases h
  · cases h
    exact ⟨_, rfl⟩

/-- The result of a handler branch that updates the last node and pops. -/
theorem onBackProcessor_pop (d r : WorkflowImporter) (f : DataProcessorSpec → DataProcessorSpec)
    (hf : ∀ p, (f p).outputs = p.outputs ∨
      ∃ o : OutputSpec, o.metadata = [] ∧ (f p).outputs = p.outputs ++ [o])
    (hne : ¬ d.states.isEmpty = true) (h : d.onBackProcessor f = .ok r) :
    StackStep false d.states r.pop.states ∧ r.pop.optionKind = d.optionKind ∧
      NodesStep d.dataProcessors r.pop.dataProcessors := by
  obtain ⟨dps, p, hp, rfl⟩ := onBackProcessor_ok d r f h
  refine ⟨stackStep_pop _ { d with dataProcessors := dps ++ [f p] } hne, pop_optionKind _, ?_⟩
  rw [pop_dataProcessors]
  exact Or.inr (Or.inr ⟨dps, p, f p, hp, rfl, hf p⟩)

theorem onBackMetadata_pop (d r : WorkflowImporter) (f : DataProcessorInfo → DataProcessorInfo)
    (hne : ¬ d.states.isEmpty = true) (h : d.onBackMetadata f = .ok r) :
    StackStep false d.states r.pop.states ∧ r.pop.optionKind = d.optionKind ∧
      NodesStep d.dataProcessors r.pop.dataProcessors := by
  obtain ⟨ms, rfl⟩ := onBackMetadata_ok d r f h
  refine ⟨stackStep_pop _ { d with metadata := ms } hne, pop_optionKind _, ?_⟩
  rw [pop_dataProcessors]
  exact Or.inl rfl

/-- A handler branch that changes scratch members and pops. -/
theorem pop_effect (d x : WorkflowImporter) (hne : ¬ d.states.isEmpty = true)
    (h1 : x.states = d.states) (h2 : x.optionKind = d.optionKind)
    (h3 : x.dataProcessors = d.dataProcessors) :
    StackStep false d.states x.pop.states ∧ x.pop.optionKind = d.optionKind ∧
      NodesStep d.dataProcessors x.pop.dataProcessors := by
  refine ⟨?_, by rw [pop_optionKind, h2], Or.inl (by rw [pop_dataProcessors, h3])⟩
  rw [← h1]
  exact stackStep_pop _ x (by rw [h1]; exact hne)

theorem uint_effect (d s : WorkflowImporter) (u : Nat) (h : d.Uint u = .ok s) :
    ¬ d.states.isEmpty = true ∧ StackStep false d.states s.states ∧ s.optionKind = d.optionKind ∧
      NodesStep d.dataProcessors s.dataProcessors := by
  unfold Uint at h
  refine ite_ok_cases h (fun _ h => ?_) (fun hne h => ⟨hne, ?_⟩)
  · cases h
  repeat
    refine ite_ok_cases h (fun _ h => ?_) (fun _ h => ?_)
    · first
      | (cases h; exact pop_effect d _ hne rfl rfl rfl)
      | (split at h
         · cases h
         · rename_i r heq
           cases h
           refine onBackProcessor_pop d r _ ?_ hne heq
           exact fun p => Or.inl rfl)
  cases h
  exact pop_effect d _ hne rfl rfl rfl

theorem push_pop (d : WorkflowImporter) (X : State) : (d.push X).pop = d := rfl

theorem weaken_kind {A C Q : Prop} {k k0 : Int} (h : A ∧ k = k0 ∧ C) :
    A ∧ (k = k0 ∨ Q) ∧ C := ⟨h.1, Or.inl h.2.1, h.2.2⟩

theorem string_effect (E : Env) (d s : WorkflowImporter) (v : String)
    (h : d.String_ E v = .ok s) :
    ¬ d.states.isEmpty = true ∧ StackStep false d.states s.states ∧
      (s.optionKind = d.optionKind ∨
        (d.in .IN_OPTION_KIND = true ∧ E.stoi v = some s.optionKind)) ∧
      NodesStep d.dataProcessors s.dataProcessors := by
  unfold String_ at h
  refine ite_ok_cases h (fun _ h => ?_) (fun hne h => ⟨hne, ?_⟩)
  · cases h
  repeat
    refine ite_ok_cases h (fun hc h => ?_) (fun _ h => ?_)
    · first
      | (cases h
         exact weaken_kind (pop_effect d _ hne rfl rfl rfl))
      | (refine ite_ok_cases h (fun _ h => ?_) (fun _ h => ?_)
         · cases h
         · split at h
           · cases h
           · rename_i r heq
             cases h
             first
             | (refine weaken_kind (onBackProcessor_pop d r _ ?_ hne heq)
                exact fun p => Or.inl rfl)
             | exact weaken_kind (onBackMetadata_pop d r _ hne heq))
      | (split at h
         · cases h
         · rename_i k heq
           cases h
           first
           | exact weaken_kind (pop_effect d _ hne rfl rfl rfl)
           | (refine ⟨stackStep_pop _ { d with optionKind := k } hne, Or.inr ⟨hc, ?_⟩,
                Or.inl (pop_dataProcessors _)⟩
              rw [pop_optionKind]
              exact heq))
      | (split at h
         · cases h
         · rename_i r heq
           cases h
           rw [push_pop]
           first
           | (obtain ⟨dps, p, hp, rfl⟩ := onBackProcessor_ok d r _ heq
              exact ⟨stackStep_refl _ _, Or.inl rfl,
                Or.inr (Or.inr ⟨dps, p, _, hp, rfl, Or.inl rfl⟩)⟩)
           | (obtain ⟨ms, rfl⟩ := onBackMetadata_ok d r _ heq
              exact ⟨stackStep_refl _ _, Or.inl rfl, Or.inl rfl⟩))
  cases h
  exact weaken_kind (pop_effect d _ hne rfl rfl rfl)

theorem makeOutputSpec_metadata (b : Bool) (binding : String) (origin : DataOrigin)
    (description : DataDescription) (subspec lifetime : Nat) :
    (makeOutputSpec b binding origin description subspec lifetime).metadata = [] := by
  unfold makeOutputSpec
  split <;> rfl

/-- A handler branch that changes the last node and scratch members and pops. -/
theorem pop_effect_nodes (d x : WorkflowImporter) (hne : ¬ d.states.isEmpty = true)
    (h1 : x.states = d.states) (h2 : x.optionKind = d.optionKind)
    (h3 : NodesStep d.dataProcessors x.dataProcessors) :
    StackStep false d.states x.pop.states ∧ x.pop.optionKind = d.optionKind ∧
      NodesStep d.dataProcessors x.pop.dataProcessors := by
  refine ⟨?_, by rw [pop_optionKind, h2], by rw [pop_dataProcessors]; exact h3⟩
  rw [← h1]
  exact stackStep_pop _ x (by rw [h1]; exact hne)

theorem endObject_effect (E : Env) (d s : WorkflowImporter) (h : d.EndObject E = .ok s) :
    ¬ d.states.isEmpty = true ∧ StackStep false d.states s.states ∧ s.optionKind = d.optionKind ∧
      NodesStep d.dataProcessors s.dataProcessors := by
  unfold EndObject at h
  dsimp only at h
  refine ite_ok_cases h (fun _ h => ?_) (fun hne h => ⟨hne, ?_⟩)
  · cases h
  refine ite_ok_cases h (fun _ h => ?_) (fun _ h => ?_)
  · split at h
    · cases h
    · rename_i r heq
      cases h
      obtain ⟨dps, p, hp, rfl⟩ := onBackProcessor_ok d r _ heq
      exact pop_effect_nodes d _ hne rfl rfl (Or.inr (Or.inr ⟨dps, p, _, hp, rfl, Or.inl rfl⟩))
  refine ite_ok_cases h (fun _ h => ?_) (fun _ h => ?_)
  · split at h
    · cases h
    · rename_i r heq
      cases h
      obtain ⟨dps, p, hp, rfl⟩ := onBackProcessor_ok d r _ heq
      exact pop_effect_nodes d _ hne rfl rfl (Or.inr (Or.inr ⟨dps, p, _, hp, rfl,
        Or.inr ⟨_, makeOutputSpec_metadata _ _ _ _ _ _, rfl⟩⟩))
  refine ite_ok_cases h (fun _ h => ?_) (fun _ h => ?_)
  · split at h
    · cases h
    · refine ite_ok_cases h (fun _ h => ?_) (fun _ h => ?_)
      · cases h
      refine ite_ok_cases h (fun _ h => ?_) (fun _ h => ?_)
      · split at h
        · cases h
        · rename_i r heq
          cases h
          refine onBackProcessor_pop d r _ ?_ hne heq
          exact fun p => Or.inl rfl
      refine ite_ok_cases h (fun _ h => ?_) (fun _ h => ?_)
      · split at h
        · cases h
        · rename_i r heq
          cases h
          exact onBackMetadata_pop d r _ hne heq
      refine ite_ok_cases h (fun _ h => ?_) (fun _ h => ?_)
      · cases h
        exact pop_effect d _ hne rfl rfl rfl
      refine ite_ok_cases h (fun _ h => ?_) (fun _ h => ?_)
      · cases h
        exact pop_effect d _ hne rfl rfl rfl
      · cases h
  · cases h
    exact pop_effect d _ hne rfl rfl rfl

theorem endObject_previous (E : Env) (d s : WorkflowImporter) (h : d.EndObject E = .ok s)
    (hin : d.in .IN_OPTION = true) : 1 < d.states.length := by
  rcases hst : d.states with _ | ⟨S, r⟩
  · simp [«in», hst] at hin
  · have hS : S = .IN_OPTION := by simpa [«in», hst] using hin
    subst hS
    simp +decide only [EndObject, «in», hst, List.isEmpty_cons, List.head?_cons, if_false,
      if_true, Bool.false_eq_true, reduceCtorEq, beq_iff_eq, Option.some.injEq] at h
    split at h
    · cases h
    · refine ite_ok_cases h (fun _ h => ?_) (fun hl _ => ?_)
      · cases h
      · simp only [List.length_cons] at hl ⊢
        omega

theorem keyChain_ok (d s : WorkflowImporter) (k : String) (bs : List KeyBranch)
    (h : keyChain d k bs = .ok s) :
    s = d ∨ ∃ b ∈ bs, d.in b.state = true ∧ keyIs k b.expected = true ∧ b.body d = .ok s := by
  induction bs with
  | nil =>
    simp only [keyChain, Except.ok.injEq] at h
    exact Or.inl h.symm
  | cons b bs ih =>
    rw [keyChain] at h
    split_ifs at h with hc
    · simp only [Bool.and_eq_true] at hc
      exact Or.inr ⟨b, List.mem_cons_self _ _, hc.1, hc.2, h⟩
    · rcases ih h with h1 | ⟨b2, hb2, h2⟩
      · exact Or.inl h1
      · exact Or.inr ⟨b2, List.mem_cons_of_mem _ hb2, h2⟩

theorem body_ok (b : KeyBranch) (d s : WorkflowImporter) (h : b.body d = .ok s) :
    s = d.push b.target ∨ s = { d.push b.target with outputHasSubSpec := true } := by
  unfold KeyBranch.body at h
  split_ifs at h
  · simp only [Except.ok.injEq] at h
    exact Or.inr h.symm
  · simp only [Except.ok.injEq] at h
    exact Or.inl h.symm

/-- What a call of `Key` that returns has done: nothing, or the push of the sub-state of a
branch whose test held. -/
theorem key_ok (d s : WorkflowImporter) (k : String) (h : d.Key k = .ok s) :
    d.states ≠ [] ∧ (s = d ∨ ∃ b ∈ keyBranches, d.in b.state = true ∧
      keyIs k b.expected = true ∧
      (s = d.push b.target ∨ s = { d.push b.target with outputHasSubSpec := true })) := by
  rw [key_eq_keyChain] at h
  split_ifs at h with he
  refine ⟨by simpa using he, ?_⟩
  rcases keyChain_ok d s k keyBranches h with h1 | ⟨b, hb, h2, h3, h4⟩
  · exact Or.inl h1
  · exact Or.inr ⟨b, hb, h2, h3, body_ok b d s h4⟩

theorem keyBranches_target :
    ∀ b ∈ keyBranches, b.target ≠ State.IN_START ∧ b.target ≠ State.IN_ERROR ∧
      (b.target = State.IN_OPTION_KIND → b.expected = "kind") := by
  decide

theorem key_effect (d s : WorkflowImporter) (k : String) (h : d.Key k = .ok s) :
    ¬ d.states.isEmpty = true ∧ StackStep (keyIs k "kind") d.states s.states ∧
      s.optionKind = d.optionKind ∧ NodesStep d.dataProcessors s.dataProcessors := by
  obtain ⟨hne, h1 | ⟨b, hb, _, hk, h1⟩⟩ := key_ok d s k h
  · subst h1
    exact ⟨by simpa using hne, stackStep_refl _ _, rfl, Or.inl rfl⟩
  · obtain ⟨t1, t2, t3⟩ := keyBranches_target b hb
    have hpush : StackStep (keyIs k "kind") d.states (b.target :: d.states) :=
      stackStep_push _ _ _ t1 t2 (fun e => by rw [← t3 e]; exact hk)
    rcases h1 with h1 | h1 <;> subst h1 <;>
      exact ⟨by simpa using hne, hpush, rfl, Or.inl rfl⟩

/-- What a handler call that returns has done to the state stack, to `optionKind` and to the
nodes. `optionKind` is written by `String` in the state `IN_OPTION_KIND` and by no other
call. -/
theorem handle_effect (E : Env) (d s : WorkflowImporter) (e : Event)
    (h : d.handle E e = .ok s) :
    StackStep e.isKindKey d.states s.states ∧
      (s.optionKind = d.optionKind ∨
        (d.in .IN_OPTION_KIND = true ∧ ∃ v, e = .string v ∧ E.stoi v = some s.optionKind)) ∧
      NodesStep d.dataProcessors s.dataProcessors := by
  cases e with
  | startObject => exact weaken_kind (startObject_effect d s h).2
  | endObject => exact weaken_kind (endObject_effect E d s h).2
  | startArray => exact weaken_kind (startArray_effect d s h).2
  | endArray => exact weaken_kind (endArray_effect d s h).2
  | key k => exact weaken_kind (key_effect d s k h).2
  | string v =>
    obtain ⟨_, h1, h2, h3⟩ := string_effect E d s v h
    refine ⟨h1, ?_, h3⟩
    rcases h2 with h2 | ⟨h2, h4⟩
    · exact Or.inl h2
    · exact Or.inr ⟨h2, v, rfl, h4⟩
  | uint u => exact weaken_kind (uint_effect d s u h).2
  | int i => cases h; exact ⟨stackStep_refl _ _, Or.inl rfl, Or.inl rfl⟩
  | uint64 u => cases h; exact ⟨stackStep_refl _ _, Or.inl rfl, Or.inl rfl⟩
  | double b => cases h; exact ⟨stackStep_refl _ _, Or.inl rfl, Or.inl rfl⟩
  | int64 i => cases h; exact ⟨stackStep_refl _ _, Or.inl rfl, Or.inl rfl⟩
  | bool b => cases h; exact ⟨stackStep_refl _ _, Or.inl rfl, Or.inl rfl⟩
  | null => cases h; exact ⟨stackStep_refl _ _, Or.inl rfl, Or.inl rfl⟩

end o2.framework

namespace o2.framework
open WorkflowSerializationHelpers WorkflowImporter

/-! ## Stack discipline (C25) -/

/-- No handler call pushes `IN_START`: a stack that holds it afterwards held it before. -/
theorem stackStep_start (k : Bool) (a b : List State) (h : StackStep k a b) (hb : State.IN_START ∈ b) :
    State.IN_START ∈ a := by
  rcases h with rfl | ⟨X, hX, _, _, rfl⟩ | ⟨X, rfl⟩ | ⟨X, Y, rfl⟩ | ⟨X, _, rfl⟩
  · exact hb
  · rcases List.mem_cons.1 hb with h | h
    · exact absurd h.symm hX
    · exact h
  · exact List.mem_cons_of_mem _ hb
  · exact List.mem_cons_of_mem _ (List.mem_cons_of_mem _ hb)
  · simp at hb

/-- The state `IN_ERROR` reaches the stack through the `IN_ERROR` branch of `pop()` only,
and then `IN_START` is no longer on it. -/
theorem stackStep_error (k : Bool) (a b : List State) (h : StackStep k a b) (ha : State.IN_ERROR ∉ a)
    (hb : State.IN_START ∈ b) : State.IN_ERROR ∉ b := by
  rcases h with rfl | ⟨X, _, hX, _, rfl⟩ | ⟨X, rfl⟩ | ⟨X, Y, rfl⟩ | ⟨X, _, rfl⟩
  · exact ha
  · intro h
    rcases List.mem_cons.1 h with h | h
    · exact hX h.symm
    · exact ha h
  · exact fun h => ha (List.mem_cons_of_mem _ h)
  · exact fun h => ha (List.mem_cons_of_mem _ (List.mem_cons_of_mem _ h))
  · simp at hb

theorem run_cons_ok (E : Env) (e : Event) (b : List Event) (d f : WorkflowImporter)
    (h : run E (e :: b) d = .ok f) : ∃ s, d.handle E e = .ok s ∧ run E b s = .ok f := by
  rw [run] at h
  split at h
  · cases h
  · rename_i s hs
    exact ⟨s, hs, h⟩

theorem run_split (E : Env) (a : List Event) (e : Event) (b : List Event) :
    ∀ d f : WorkflowImporter, run E (a ++ e :: b) d = .ok f →
      ∃ s s2, run E a d = .ok s ∧ s.handle E e = .ok s2 ∧ run E b s2 = .ok f := by
  induction a with
  | nil =>
    intro d f h
    obtain ⟨s2, h1, h2⟩ := run_cons_ok E e b d f h
    exact ⟨d, s2, rfl, h1, h2⟩
  | cons x a ih =>
    intro d f h
    obtain ⟨d1, h1, h2⟩ := run_cons_ok E x (a ++ e :: b) d f h
    obtain ⟨s, s2, g1, g2, g3⟩ := ih d1 f h2
    refine ⟨s, s2, ?_, g2, g3⟩
    rw [run, h1]
    exact g1

theorem run_start (E : Env) (b : List Event) :
    ∀ s f : WorkflowImporter, run E b s = .ok f → State.IN_START ∈ f.states →
      State.IN_START ∈ s.states := by
  induction b with
  | nil =>
    intro s f h hf
    cases h
    exact hf
  | cons e b ih =>
    intro s f h hf
    obtain ⟨s1, h1, h2⟩ := run_cons_ok E e b s f h
    exact stackStep_start _ _ _ (handle_effect E s s1 e h1).1 (ih s1 f h2 hf)

theorem run_no_error (E : Env) (a : List Event) :
    ∀ d s : WorkflowImporter, run E a d = .ok s → State.IN_ERROR ∉ d.states →
      State.IN_START ∈ s.states → State.IN_ERROR ∉ s.states := by
  induction a with
  | nil =>
    intro d s h hd _
    cases h
    exact hd
  | cons e a ih =>
    intro d s h hd hs
    obtain ⟨d1, h1, h2⟩ := run_cons_ok E e a d s h
    exact ih d1 s h2
      (stackStep_error _ _ _ (handle_effect E d d1 e h1).1 hd (run_start E a d1 s h2 hs)) hs

set_option maxRecDepth 1000000 in
/-- C25, as stated, fails: the node of `hintedUnreadableWorkflow` has its resource hints in
[0, 2^31), but `std::stoi` throws in `EndObject` on the default value of its option; the
events that follow are not delivered, the final `EndObject` among them, and the stack is left
with seven states. -/
theorem dump_stack_counterexample :
    hintedUnreadableWorkflow.map DataProcessorSpec.hints = [(5, 2, 3, 4)] ∧
      (match run refEnv (saxEvents (dumpCalls refEnv hintedUnreadableWorkflow [] {}))
          (create refEnv.uninit [] [] {}) with
        | .ok _ => none
        | .error (f, st) => some (f, st.states)) =
      some (Fault.exception, [State.IN_OPTION, .IN_OPTIONS, .IN_DATAPROCESSOR,
        .IN_DATAPROCESSORS, .IN_WORKFLOW, .IN_EXECUTION, .IN_START]) := by
  refine ⟨by decide, by decide⟩

/-- C25, amended. Stack discipline on exported streams: for every workflow and metadata that
the importer can read back (resource hints in [0, 2^31), 32 bit subspecifications, option
types, kinds and default values accepted by the conversions of the importer) and every
command, when the events of the export are fed to a new importer, every handler call
returns; before every event the state stack is not empty, holds `IN_START` and does not hold
`IN_ERROR`, so that no `pop()` reached its `IN_ERROR` branch; `EndObject` of an option finds
more than one state for `previousIs`; the last event is `EndObject` and after it the stack
is exactly `IN_START`. -/
theorem dump_stack_discipline (E : Env) (workflow : List DataProcessorSpec)
    (metadata : List DataProcessorInfo) (commandInfo : CommandInfo)
    (w0 : List DataProcessorSpec) (m0 : List DataProcessorInfo) (c0 : CommandInfo)
    (hwf : wellFormed E workflow metadata = true) :
    (∃ st, run E (saxEvents (dumpCalls E workflow metadata commandInfo))
        (create E.uninit w0 m0 c0) = .ok st ∧ st.states = [.IN_START]) ∧
      (saxEvents (dumpCalls E workflow metadata commandInfo)).getLast? = some .endObject ∧
      ∀ (before : List Event) (e : Event) (after : List Event),
        saxEvents (dumpCalls E workflow metadata commandInfo) = before ++ e :: after →
        ∃ s s2, run E before (create E.uninit w0 m0 c0) = .ok s ∧ s.handle E e = .ok s2 ∧
          s.states ≠ [] ∧ State.IN_START ∈ s.states ∧ State.IN_ERROR ∉ s.states ∧
          State.IN_ERROR ∉ s2.states ∧
          (e = .endObject → s.in .IN_OPTION = true → 1 < s.states.length) := by
  obtain ⟨st, h1, h2, _⟩ := run_dumpCalls E workflow metadata commandInfo
    (create E.uninit w0 m0 c0) ⟨rfl, rfl⟩ hwf
  have hcreate : (create E.uninit w0 m0 c0).setStates [.IN_START] = create E.uninit w0 m0 c0 :=
    rfl
  rw [hcreate] at h1
  have hst : State.IN_START ∈ st.states := by simp [h2]
  refine ⟨⟨st, h1, h2⟩, ?_, ?_⟩
  · rw [List.getLast?_eq_some_iff]
    exact ⟨saxEvents ([.startObject, .key "workflow", .startArray]
      ++ workflow.flatMap (dumpProcessor E) ++ [.endArray]
      ++ [.key "metadata", .startArray] ++ metadata.flatMap (dumpInfo E) ++ [.endArray]
      ++ [.key "command", .string (cstr commandInfo.command)]),
      by simp [dumpCalls, saxEvents, sax]⟩
  · intro before e after hsplit
    rw [hsplit] at h1
    obtain ⟨s, s2, g1, g2, g3⟩ := run_split E before e after _ st h1
    have hs2 : State.IN_START ∈ s2.states := run_start E after s2 st g3 hst
    have hs : State.IN_START ∈ s.states :=
      stackStep_start _ _ _ (handle_effect E s s2 e g2).1 hs2
    have he : State.IN_ERROR ∉ s.states :=
      run_no_error E before _ s g1 (by simp [create]) hs
    refine ⟨s, s2, g1, g2, List.ne_nil_of_mem hs, hs, he,
      stackStep_error _ _ _ (handle_effect E s s2 e g2).1 he hs2, ?_⟩
    intro hee hin
    subst hee
    exact endObject_previous E s s2 g2 hin

set_option maxRecDepth 1000000 in
theorem dump_stack_discipline_witness :
    ∃ st, run refEnv (saxEvents (dumpCalls refEnv sampleWorkflow sampleMetadata ⟨"cmd"⟩))
      (create refEnv.uninit [] [] {}) = .ok st ∧ st.states = [.IN_START] :=
  (dump_stack_discipline refEnv sampleWorkflow sampleMetadata ⟨"cmd"⟩ [] [] {}
    sample_wellFormed).1

end o2.framework

namespace o2.framework
open WorkflowSerializationHelpers WorkflowImporter

/-! ## Output metadata (C28) -/

theorem nodesStep_noOutputMetadata (a b : List DataProcessorSpec) (h : NodesStep a b)
    (ha : NoOutputMetadata a) : NoOutputMetadata b := by
  rcases h with rfl | rfl | ⟨dps, p, q, rfl, rfl, hq⟩
  · exact ha
  · intro x hx o ho
    rcases List.mem_append.1 hx with hx | hx
    · exact ha x hx o ho
    · simp only [List.mem_singleton] at hx
      subst hx
      simp at ho
  · intro x hx o ho
    rcases List.mem_append.1 hx with hx | hx
    · exact ha x (List.mem_append_left _ hx) o ho
    · simp only [List.mem_singleton] at hx
      subst hx
      have hp : ∀ o ∈ p.outputs, o.metadata = [] :=
        ha p (List.mem_append_right _ (List.mem_singleton_self p))
      rcases hq with hq | ⟨o2, ho2, hq⟩
      · rw [hq] at ho
        exact hp o ho
      · rw [hq] at ho
        rcases List.mem_append.1 ho with ho | ho
        · exact hp o ho
        · simp only [List.mem_singleton] at ho
          subst ho
          exact ho2

/-- Whether the events are all delivered or a handler call fails, the nodes of the importer
have no output with metadata if they had none before. -/
theorem run_noOutputMetadata (E : Env) (es : List Event) :
    ∀ d : WorkflowImporter, NoOutputMetadata d.dataProcessors →
      match run E es d with
      | .ok st => NoOutputMetadata st.dataProcessors
      | .error (_, st) => NoOutputMetadata st.dataProcessors := by
  induction es with
  | nil => intro d hd; exact hd
  | cons e es ih =>
    intro d hd
    rw [run]
    cases h : d.handle E e with
    | error f => exact hd
    | ok s =>
      exact ih s (nodesStep_noOutputMetadata _ _ (handle_effect E d s e h).2.2 hd)

theorem outputOption_collected (E : Env) (r : List State) (o : ConfigParamSpec)
    (d : WorkflowImporter) (h : wfMetadataOption E o = true) :
    ∃ st, run E (saxEvents (dumpMetadataOption E o))
        (d.setStates (.IN_OUTPUT_OPTIONS :: r)) = .ok st ∧
      st.states = .IN_OUTPUT_OPTIONS :: r ∧
      st.outputOptions = d.outputOptions ++ [importedMetadataOption E d.optionKind o] ∧
      st.dataProcessors = d.dataProcessors ∧ st.metadata = d.metadata ∧
      st.inputOptions = d.inputOptions := by
  obtain ⟨ht, hd⟩ := wfMetadataOption_elim E o h
  rw [saxEvents_dumpMetadataOption]
  simp +decide [run, handle, Key, StartObject, EndObject, String_, «in», setStates, push, pop,
    ht, hd, previousIs, importedMetadataOption]

/-- C28. Output metadata is dropped at import: whatever the stream holds and however `import`
ends, when the caller's nodes have no output with metadata the nodes after the call have
none either, so every OutputSpec made from an output object of the stream has empty
metadata, also for an object with a "metadata" array as `dump` writes it for an output with
metadata. A handler call that returns leaves the nodes as they are, appends a new node, or
updates the last node keeping its outputs or appending one OutputSpec without metadata. An
option object read in the "metadata" array of an output object is appended to
`outputOptions` and changes neither the nodes nor the metadata nor `inputOptions`. -/
theorem import_output_metadata_dropped (E : Env) (s : IStream) (w : List DataProcessorSpec)
    (m : List DataProcessorInfo) (c : CommandInfo) (hw : NoOutputMetadata w) :
    NoOutputMetadata (import_ E s w m c).workflow ∧
      (∀ (d st : WorkflowImporter) (e : Event), d.handle E e = .ok st →
        NodesStep d.dataProcessors st.dataProcessors) ∧
      (∀ (d : WorkflowImporter) (r : List State) (o : ConfigParamSpec),
        wfMetadataOption E o = true →
        ∃ st, run E (saxEvents (dumpMetadataOption E o))
            (d.setStates (.IN_OUTPUT_OPTIONS :: r)) = .ok st ∧
          st.states = .IN_OUTPUT_OPTIONS :: r ∧
          st.outputOptions = d.outputOptions ++ [importedMetadataOption E d.optionKind o] ∧
          st.dataProcessors = d.dataProcessors ∧ st.metadata = d.metadata ∧
          st.inputOptions = d.inputOptions) ∧
      (∀ o : OutputSpec, o.metadata.isEmpty = false →
        WriterCall.key "metadata" ∈ dumpOutput E o) := by
  refine ⟨?_, fun d st e h => (handle_effect E d st e h).2.2,
    fun d r o h => outputOption_collected E r o d h, ?_⟩
  · unfold import_
    cases prescan (s.buf.length + 2) s false with
    | outOfFuel => exact hw
    | noWorkflow f => exact hw
    | malformatted => exact hw
    | payload s1 f =>
      cases f with
      | true => exact hw
      | false =>
        have h := run_noOutputMetadata E (E.parse s1.buf).1 (create E.uninit w m c) hw
        simp only [Bool.false_eq_true, if_false]
        cases hrun : run E (E.parse s1.buf).1 (create E.uninit w m c) with
        | error p =>
          rw [hrun] at h
          exact h
        | ok st =>
          rw [hrun] at h
          simp only
          split <;> exact h
  · intro o ho
    simp [dumpOutput, ho]

set_option maxRecDepth 1000000 in
theorem import_output_metadata_dropped_witness :
    outputMetadataWorkflow.map (fun p => p.outputs.map (fun o => o.metadata.length)) = [[1]] ∧
      (import_ refEnv (IStream.ofText (dump refEnv outputMetadataWorkflow [] {}))
        [] [] {}).workflow.map (fun p => p.outputs.length) = [1] ∧
      NoOutputMetadata (import_ refEnv (IStream.ofText (dump refEnv outputMetadataWorkflow [] {}))
        [] [] {}).workflow :=
  ⟨by decide, by decide,
    (import_output_metadata_dropped refEnv
      (IStream.ofText (dump refEnv outputMetadataWorkflow [] {})) [] [] {}
      (fun p hp => absurd hp (List.not_mem_nil p))).1⟩

end o2.framework

namespace o2.framework
open WorkflowSerializationHelpers WorkflowImporter

/-! ## The kind of an option (C29) -/

end o2.framework
